import Mathlib

set_option maxHeartbeats 1000000

/-!
Shallow embedding of the schedule-making core of `lumaTT.py` (class
`ScheduleMaker`): the slot calendar builder (`getTimeSlots`), the capacity
allotter, the round assigner, the constrained-group distributor
(`distributeMatches`) and the unconstrained filler, all from `makeSchedule`.

Modelling conventions:
  * Calendar dates are day numbers (`Nat`); `weekday = date % 7`, `0 = Monday`,
    matching `datetime.date.weekday()`.
  * Python ints are `Int`; nullable numeric fields (`minGames`, `maxGames`)
    are `Option Int`; Python 2's `None < n` (true for every int `n`) is
    modelled explicitly where the source relies on it.
  * Mutable `DayData` / `Match` objects shared between collections are
    replaced by indices (`Nat`) into explicit stores, updated functionally.
  * Python exceptions (`ValueError`, `AssertionError`, `DistributionError`,
    `KeyError`, `IndexError`, `ZeroDivisionError`) become an `Except Err`
    result; a loop that the source would never leave is modelled by a fuel
    parameter whose exhaustion yields the distinguished error `Err.fuelOut`.
  * The single seeded `random.Random` instance is modelled by a deterministic
    pure generator threaded through the state; `random()` yields the fraction
    `rngNext s / 2 ^ 31`, and `randrange(n)` / `choice` yield `rngNext s % n`.
  * Python dicts keyed by round number are association lists; the external
    round map is taken in ascending round order (the source always iterates
    rounds through `sorted(...)`, and CPython's small-int dict iteration used
    for the remaining dict walks is ascending as well).
  * The class constants `GAMES_PER_LUNCH`, `GAMES_PER_LEAGUE_NIGHT` and
    `ERROR_ON_POOR_DISTRIBUTION` are inputs, so that configured-off groups
    and both strictness modes are expressible.
The spreadsheet/calendar I/O around the core is out of scope (per the spec).
-/

/-- Python exception outcomes of the embedded code. -/
inductive Err where
  | allotmentInfeasible
  | assertionFailed
  | distributionError
  | keyError
  | indexError
  | emptyRange
  | zeroDivision
  | fuelOut
deriving DecidableEq

/-- The `Availability` enum of the source. -/
inductive Availability where
  | hitMax
  | hitMin
  | underMin
deriving DecidableEq

/-- One slot (`DayData` in the source): a calendar date plus group label and
match-count bounds; `matches` holds indices into the match store. -/
structure DayData where
  date : Nat
  group : Option String
  «matches» : List Nat
  minGames : Option Int
  maxGames : Option Int
  allottedGames : Int
deriving DecidableEq

/-- One match (`Match` in the source); `slot` is an index into the slot list,
set exactly once by `_updateMatch`. -/
structure MatchData where
  slot : Option Nat
  player1 : String
  player2 : String
  round : Option Nat
deriving DecidableEq

/-- One roster row: player name plus the two constrained-group opt-in flags. -/
structure RosterEntry where
  name : String
  leagueNight : Bool
  lunch : Bool
deriving DecidableEq

/-- All external inputs of one schedule computation: seed, season data,
group capacities, strictness flag, roster, and the external round map
(round number, list of (player1, player2) pairings), in ascending round
order with distinct round numbers (it is a Python dict in the source). -/
structure Inputs where
  seed : Nat
  startDate : Nat
  endDate : Nat
  leagueNightWeekday : Nat
  gamesPerMatchup : Nat
  lunchCap : Int
  leagueCap : Int
  errorOnPoorDistribution : Bool
  roster : List RosterEntry
  roundMatches : List (Nat × List (String × String))
deriving DecidableEq

/-- Default slot used by the total indexing helper `getSlot`. -/
def dummySlot : DayData :=
  { date := 0, group := none, «matches» := [], minGames := some 0,
    maxGames := some 0, allottedGames := 0 }

/-- Total read of the slot store. -/
def getSlot (slots : List DayData) (i : Nat) : DayData :=
  slots.getD i dummySlot

/-- Functional in-place update of one slot. -/
def modSlot (slots : List DayData) (i : Nat) (f : DayData → DayData) :
    List DayData :=
  slots.set i (f (getSlot slots i))

/-- Default match used by the total indexing helper `getMatch`. -/
def dummyMatch : MatchData :=
  { slot := none, player1 := "", player2 := "", round := none }

/-- Total read of the match store. -/
def getMatch (store : List MatchData) (i : Nat) : MatchData :=
  store.getD i dummyMatch

/-- Sum of a numeric field over the slot store. -/
def sumBy (slots : List DayData) (f : DayData → Int) : Int :=
  (slots.map f).sum

/-- Association-list lookup (first binding wins, like a Python dict). -/
def alook {κ α : Type} [DecidableEq κ] : List (κ × α) → κ → Option α
  | [], _ => none
  | (k', v) :: t, k => if k' = k then some v else alook t k

/-- Association-list update: overwrite the first binding of `k`, or append a
new binding (Python `d[k] = v`). -/
def alset {κ α : Type} [DecidableEq κ] : List (κ × α) → κ → α → List (κ × α)
  | [], k, v => [(k, v)]
  | (k', v') :: t, k, v =>
    if k' = k then (k, v) :: t else (k', v') :: alset t k v

/-- Python `d.setdefault(k, []).append(i)` for dicts of id lists. -/
def alAppend {κ : Type} [DecidableEq κ] (l : List (κ × List Nat)) (k : κ)
    (i : Nat) : List (κ × List Nat) :=
  match alook l k with
  | some v => alset l k (v ++ [i])
  | none => l ++ [(k, [i])]

/-- The deterministic generator modelling the seeded `random.Random`
instance: a linear-congruential step (a pure stand-in for the Mersenne
twister; all claims depend only on the stream being a function of the seed). -/
def rngNext (s : Nat) : Nat :=
  (s * 1103515245 + 12345) % 2 ^ 31

/-- Model of `rand.randrange(n)` (also used for `rand.choice`): on an empty
range Python raises `ValueError`. Returns the drawn index and the advanced
generator state. -/
def randrange (s : Nat) (n : Nat) : Except Err (Nat × Nat) :=
  if n = 0 then .error .emptyRange else .ok (rngNext s % n, rngNext s)

/-- Model of `rand.random() <= float(num)/den` (the "+1" probability draw):
the draw is the fraction `rngNext s / 2 ^ 31`, the comparison is done
exactly over the integers. Python raises `ZeroDivisionError` when `den = 0`. -/
def randProbLe (s : Nat) (num den : Int) : Except Err (Bool × Nat) :=
  if den = 0 then .error .zeroDivision
  else
    let v : Int := Int.ofNat (rngNext s)
    if den > 0 then .ok (decide (v * den ≤ num * 2 ^ 31), rngNext s)
    else .ok (decide (num * 2 ^ 31 ≤ v * den), rngNext s)

/-- `DayData.availability` from the source. -/
def availability (d : DayData) : Availability :=
  match d.maxGames with
  | some mx => if (d.«matches».length : Int) ≥ mx then .hitMax else
      match d.minGames with
      | none => .hitMin
      | some mn => if (d.«matches».length : Int) ≥ mn then .hitMin else .underMin
  | none =>
      match d.minGames with
      | none => .hitMin
      | some mn => if (d.«matches».length : Int) ≥ mn then .hitMin else .underMin

/-- Day-by-day slot generation loop of `getTimeSlots`: for every weekday emit
an unconstrained slot, a lunch slot, and (on the league-night weekday) a
league-night slot. `fuel` is the number of days from `cur` through `endDate`. -/
def buildSlotsAux (leagueNightWeekday : Nat) (lunchCap leagueCap : Int) :
    Nat → Nat → List DayData
  | 0, _ => []
  | fuel + 1, cur =>
    (if cur % 7 ≤ 4 then
      [{ date := cur, group := none, «matches» := [], minGames := none,
         maxGames := none, allottedGames := 0 },
       { date := cur, group := some "lunch", «matches» := [],
         minGames := some lunchCap, maxGames := some lunchCap,
         allottedGames := 0 }] ++
      (if cur % 7 = leagueNightWeekday then
        [{ date := cur, group := some "leagueNight", «matches» := [],
           minGames := some leagueCap, maxGames := some leagueCap,
           allottedGames := 0 }]
       else [])
     else []) ++ buildSlotsAux leagueNightWeekday lunchCap leagueCap fuel (cur + 1)

/-- `getTimeSlots`: generate the day slots for the season range, then drop
each slot whose `maxGames` is defined and not positive. -/
def getTimeSlots (startDate endDate leagueNightWeekday : Nat)
    (lunchCap leagueCap : Int) : List DayData :=
  (buildSlotsAux leagueNightWeekday lunchCap leagueCap
      (endDate + 1 - startDate) startDate).filter
    (fun s => match s.maxGames with | none => true | some m => m > 0)

/-- Ids (positions) of the slots satisfying a predicate, in slot order. -/
def idsWhere (slots : List DayData) (p : DayData → Bool) : List Nat :=
  (List.range slots.length).filter (fun i => p (getSlot slots i))

/-- Reservation step of the allotter: every `underMin` slot gets its minimum
as its initial `allottedGames`. -/
def reserveSlots (slots : List DayData) : List DayData :=
  slots.map (fun s =>
    if availability s = .underMin then
      { s with allottedGames := s.minGames.getD 0 }
    else s)

/-- The running total `allottedGames` after reservation: the sum of the
mandatory minimums. -/
def reservedTotal (slots : List DayData) : Int :=
  sumBy slots (fun s =>
    if availability s = .underMin then s.minGames.getD 0 else 0)

/-- The `remainingAllotment` dict: slot ids bucketed by how many more games
they may take (`-1` = no maximum, `0` = already exact/maxed, `n` =
`maxGames - minGames`). Seeded with buckets `0` (the `hitMax` slots) and
`-1`, then filled from the `underMin ++ hitMin` slots in order. -/
def buildRemainingAllotment (slots : List DayData) : List (Int × List Nat) :=
  let base : List (Int × List Nat) :=
    [(0, idsWhere slots (fun s => decide (availability s = .hitMax))), (-1, [])]
  let rest : List Nat :=
    idsWhere slots (fun s => decide (availability s = .underMin)) ++
      idsWhere slots (fun s => decide (availability s = .hitMin))
  rest.foldl (fun ra i =>
    let s := getSlot slots i
    match s.maxGames with
    | none => alAppend ra (-1) i
    | some mx =>
      if s.minGames = some mx then alAppend ra 0 i
      else alAppend ra (mx - s.minGames.getD 0) i) base

/-- `max(remainingAllotment)` over the dict keys. The key `-1` is always
present, so folding from `-1` gives exactly the maximum key. -/
def maxKeyI (l : List (Int × List Nat)) : Int :=
  (l.map (fun p => p.1)).foldl max (-1)

/-- Backward construction of `availableByRound`: walking `currentRound` from
`maxRound - 1` down to `1`, accumulate each round's bucket (`KeyError` when a
round key is missing, as in the source's direct dict indexing). -/
def buildAvailAux (ra : List (Int × List Nat)) :
    Nat → Int → List Nat → List (Int × List Nat) →
    Except Err (List (Int × List Nat))
  | 0, _, _, acc => .ok acc
  | fuel + 1, currentRound, currentAvailable, acc =>
    if currentRound > 0 then
      match alook ra currentRound with
      | none => .error .keyError
      | some l =>
        let ca := currentAvailable ++ l
        buildAvailAux ra fuel (currentRound - 1) ca (alset acc currentRound ca)
    else .ok acc

/-- `availableByRound`: bucket `maxRound` holds the no-maximum slots, and each
earlier round additionally holds every bucket at or above it. -/
def buildAvail (ra : List (Int × List Nat)) (maxRound : Int) :
    Except Err (List (Int × List Nat)) :=
  match alook ra (-1) with
  | none => .error .keyError
  | some unb => buildAvailAux ra maxRound.toNat (maxRound - 1) unb [(maxRound, unb)]

/-- State of the allotter's leveling loop. -/
structure AllotSt where
  slots : List DayData
  gamesLeft : Int
  currentRound : Int
  numPlusOnes : Int
  lastRemaining : List Nat
deriving DecidableEq

/-- Give one more allotted game to each listed slot. -/
def bumpAllotted (slots : List DayData) (ids : List Nat) : List DayData :=
  ids.foldl (fun sl i =>
    modSlot sl i (fun s => { s with allottedGames := s.allottedGames + 1 })) slots

/-- Terminal partial round: pin each listed slot's `maxGames` to its current
allotment plus one. -/
def raiseMaxTo (slots : List DayData) (ids : List Nat) : List DayData :=
  ids.foldl (fun sl i =>
    modSlot sl i (fun s => { s with maxGames := some (s.allottedGames + 1) })) slots

/-- The allotter's `while gamesLeft > 0` leveling loop. Each pass reads the
eligible bucket for `min(currentRound, maxRound)`; with `N = gamesLeft` and
`D` the bucket size, `N ≥ D` allots one game to every eligible slot, and
`N < D` is the terminal partial round recording `numPlusOnes = N` and raising
the bucket's maxima. Running out of fuel (the source would loop forever)
yields `Err.fuelOut`. -/
def allotLoop (avail : List (Int × List Nat)) (maxRound : Int) :
    Nat → AllotSt → Except Err AllotSt
  | 0, st => if st.gamesLeft > 0 then .error .fuelOut else .ok st
  | fuel + 1, st =>
    if st.gamesLeft > 0 then
      match alook avail (min st.currentRound maxRound) with
      | none => .error .keyError
      | some ids =>
        let D : Int := ids.length
        if st.gamesLeft ≥ D then
          allotLoop avail maxRound fuel
            { slots := bumpAllotted st.slots ids,
              gamesLeft := st.gamesLeft - D,
              currentRound := st.currentRound + 1,
              numPlusOnes := st.numPlusOnes,
              lastRemaining := ids }
        else
          allotLoop avail maxRound fuel
            { slots := raiseMaxTo st.slots ids,
              gamesLeft := st.gamesLeft - D,
              currentRound := st.currentRound + 1,
              numPlusOnes := st.gamesLeft,
              lastRemaining := ids }
    else .ok st

/-- The `if slot.minGames < slot.allottedGames` lift (Python's `None < n` is
true for every int `n`, so an unset minimum always lifts). -/
def liftMin (s : DayData) : DayData :=
  if (match s.minGames with
      | none => true
      | some m => decide (m < s.allottedGames)) then
    { s with minGames := some s.allottedGames }
  else s

/-- Post-loop finalization of one slot: lift `minGames` to the allotment,
default an unset `maxGames` to the allotment, and assert
`maxGames ∈ {allotted, allotted+1}`. -/
def finalizeSlot (s : DayData) : Except Err DayData :=
  let s1 := liftMin s
  match s1.maxGames with
  | none => .ok { s1 with maxGames := some s1.allottedGames }
  | some mx =>
    if mx = s1.allottedGames ∨ mx = s1.allottedGames + 1 then .ok s1
    else .error .assertionFailed

/-- Finalize every slot in order. -/
def finalizeSlots : List DayData → Except Err (List DayData)
  | [] => .ok []
  | s :: t => do
    let s' ← finalizeSlot s
    let t' ← finalizeSlots t
    .ok (s' :: t')

/-- Build the match store and the per-round id lists from the external round
map; ids are consecutive positions in the store. -/
def buildStoreAux (base : Nat) :
    List (Nat × List (String × String)) →
    List MatchData × List (Nat × List Nat)
  | [] => ([], [])
  | (r, ms) :: t =>
    let ids := (List.range ms.length).map (fun j => j + base)
    let these := ms.map (fun p =>
      ({ slot := none, player1 := p.1, player2 := p.2, round := none } : MatchData))
    let rec' := buildStoreAux (base + ms.length) t
    (these ++ rec'.1, (r, ids) :: rec'.2)

/-- `totalGames`: the number of externally supplied matches. -/
def totalGamesOf (rm : List (Nat × List (String × String))) : Int :=
  (rm.map (fun p => (p.2.length : Int))).sum

/-- The slot list as it stands when the allotment-feasibility check runs:
built, filtered, and with the mandatory minimums reserved (nothing later in
the pipeline has run, so no matches are placed yet). -/
def reserveState (inp : Inputs) : List DayData :=
  reserveSlots (getTimeSlots inp.startDate inp.endDate inp.leagueNightWeekday
    inp.lunchCap inp.leagueCap)

/-- Result of the capacity allotter. -/
structure AllotOut where
  slots : List DayData
  store : List MatchData
  pools : List (Nat × List Nat)
  totalGames : Int
  numPlusOnes : Int
  possiblePlusOnes : List Nat
  rng : Nat
deriving DecidableEq

/-- The capacity allotter (`makeSchedule` up to the end of the allotment
block): partition/reserve, build `remainingAllotment` and `availableByRound`,
check feasibility (`ValueError` when `totalGames` cannot cover the mandatory
minimums), run the leveling loop, record `possiblePlusOnes`, and finalize
minima/maxima with the `maxGames ∈ {allotted, allotted+1}` assertion. -/
def allotPhase (inp : Inputs) : Except Err AllotOut := do
  let slots0 := getTimeSlots inp.startDate inp.endDate inp.leagueNightWeekday
    inp.lunchCap inp.leagueCap
  let slots1 := reserveSlots slots0
  let resTotal := reservedTotal slots0
  let ra := buildRemainingAllotment slots0
  let maxRound := maxKeyI ra + 1
  let avail ← buildAvail ra maxRound
  let sp := buildStoreAux 0 inp.roundMatches
  let totalGames := totalGamesOf inp.roundMatches
  let gamesLeft := totalGames - resTotal
  if gamesLeft < 0 then .error .allotmentInfeasible
  else do
    let st ← allotLoop avail maxRound (gamesLeft.toNat + 1)
      { slots := slots1, gamesLeft := gamesLeft, currentRound := 1,
        numPlusOnes := 0, lastRemaining := [] }
    let possiblePlusOnes := if st.numPlusOnes = 0 then [] else st.lastRemaining
    let slots2 ← finalizeSlots st.slots
    .ok { slots := slots2, store := sp.1, pools := sp.2,
          totalGames := totalGames, numPlusOnes := st.numPlusOnes,
          possiblePlusOnes := possiblePlusOnes, rng := inp.seed }

/-- Pre-walk division of the surplus across rounds (`plusOnesPerRound` /
`extraPlusOnes` / `roundPlusOneAllotments`): every round gets
`numPlusOnes // roundCount` mandatory "+1" entitlements and
`numPlusOnes % roundCount` stay in a shared first-claim pool. Python raises
`ZeroDivisionError` when the round map is empty. -/
def plusOneSetup (numPlusOnes : Int) (roundKeys : List Nat) :
    Except Err (Int × List (Nat × Int)) :=
  if roundKeys.length = 0 then .error .zeroDivision
  else
    .ok (numPlusOnes.emod roundKeys.length,
         roundKeys.map (fun r => (r, numPlusOnes.ediv roundKeys.length)))

/-- Round-assigner walk state: the slot store, the not-yet-popped slot ids in
date order, the active slot (`none` is the initial dummy day with
`minGames = maxGames = 0`), `currentDayMatchesUsed`, the surplus bookkeeping,
and the per-round assignment plan `roundSlots`. -/
structure WalkSt where
  slots : List DayData
  remaining : List Nat
  cur : Option Nat
  used : Int
  extraPlusOnes : Int
  roundAllot : List (Nat × Int)
  possiblePlusOnes : List Nat
  plan : List (Nat × List (Nat × Int))
  rng : Nat
deriving DecidableEq

/-- `currentDay.minGames` (0 for the initial dummy day). -/
def curMin (st : WalkSt) : Int :=
  match st.cur with
  | none => 0
  | some c => (getSlot st.slots c).minGames.getD 0

/-- `currentDay.maxGames` (0 for the initial dummy day). -/
def curMax (st : WalkSt) : Int :=
  match st.cur with
  | none => 0
  | some c => (getSlot st.slots c).maxGames.getD 0

/-- Advance to the next day when the active one is exhausted
(`currentDayMatchesUsed >= currentDay.maxGames`); popping an empty list is
Python's `IndexError`. Returns the (possibly new) active slot id. -/
def popIfNeeded (st : WalkSt) : Except Err (WalkSt × Nat) :=
  if st.used ≥ curMax st then
    match st.remaining with
    | [] => .error .indexError
    | c :: rest => .ok ({ st with remaining := rest, cur := some c, used := 0 }, c)
  else
    match st.cur with
    | some c => .ok (st, c)
    | none => .error .indexError

/-- The `while nextRound in roundPlusOneAllotments` sum of mandatory "+1"
quotas still owed by the contiguous rounds after the current one. -/
def contigMandatory (allot : List (Nat × Int)) : Nat → Nat → Int
  | 0, _ => 0
  | fuel + 1, r =>
    match alook allot r with
    | none => 0
    | some v => v + contigMandatory allot fuel (r + 1)

/-- Append one `[currentDay, currentDayRoundMatchesUsed]` record to the
active round's plan. -/
def appendEntry (st : WalkSt) (roundNum : Nat) (c : Nat) (d0 : Int) : WalkSt :=
  { st with plan := alset st.plan roundNum ((alook st.plan roundNum).getD [] ++ [(c, d0)]) }

/-- The ordered "+1" policy of the round assigner: mandatory round quota
first, then the forced / clean-boundary / last-match / probabilistic cases
(exactly the chain of the source, including `intersection_update` of
`possiblePlusOnes` with the not-yet-popped slots and the decrement of
`extraPlusOnes` on every optional use). -/
def decidePlusOne (roundNum : Nat) (matchesLeft : Int) (st : WalkSt) :
    Except Err (Bool × WalkSt) :=
  match alook st.roundAllot roundNum with
  | none => .error .keyError
  | some q =>
    if q ≠ 0 then
      .ok (true, { st with roundAllot := alset st.roundAllot roundNum (q - 1) })
    else
      let pp := st.possiblePlusOnes.filter (fun i => st.remaining.contains i)
      let remainingMandatory := contigMandatory st.roundAllot st.roundAllot.length (roundNum + 1)
      let remainingOptional : Int := ((pp.length : Int) + 1) - remainingMandatory
      let st1 := { st with possiblePlusOnes := pp }
      if st1.extraPlusOnes = 0 then .ok (false, st1)
      else if st1.extraPlusOnes = remainingOptional then
        .ok (true, { st1 with extraPlusOnes := st1.extraPlusOnes - 1 })
      else if matchesLeft = 0 then .ok (false, st1)
      else if matchesLeft = 1 then
        .ok (true, { st1 with extraPlusOnes := st1.extraPlusOnes - 1 })
      else do
        let br ← randProbLe st1.rng st1.extraPlusOnes remainingOptional
        if br.1 then
          .ok (true, { st1 with rng := br.2, extraPlusOnes := st1.extraPlusOnes - 1 })
        else .ok (false, { st1 with rng := br.2 })

/-- One iteration of the round assigner's `while matchesLeft > 0` body:
advance the day if needed, meet the day's remaining minimum (or split the
day across rounds when the round is smaller), resolve a possible "+1", and
record the `[day, matchesOfThisRoundInDay]` plan entry. Returns the new
state and the new `matchesLeft`. -/
def walkIter (roundNum : Nat) (st0 : WalkSt) (ml0 : Int) :
    Except Err (WalkSt × Int) := do
  let pr ← popIfNeeded st0
  let st1 := pr.1
  let c := pr.2
  let minLeft := curMin st1 - st1.used
  if ml0 ≥ minLeft then
    let st2 := { st1 with used := st1.used + minLeft }
    let ml2 := ml0 - minLeft
    if curMax st2 > curMin st2 then do
      let db ← decidePlusOne roundNum ml2 st2
      let st3 := db.2
      if db.1 then
        let st4 := { st3 with
          slots := modSlot st3.slots c
            (fun s => { s with minGames := some (s.minGames.getD 0 + 1) }),
          used := st3.used + 1 }
        .ok (appendEntry st4 roundNum c (minLeft + 1), ml2 - 1)
      else
        let st4 := { st3 with
          slots := modSlot st3.slots c
            (fun s => { s with maxGames := some (s.maxGames.getD 0 - 1) }) }
        .ok (appendEntry st4 roundNum c minLeft, ml2)
    else
      .ok (appendEntry st2 roundNum c minLeft, ml2)
  else
    let st2 := { st1 with used := st1.used + ml0 }
    .ok (appendEntry st2 roundNum c ml0, 0)

/-- The full `while matchesLeft > 0` loop for one round (fuelled). -/
def walkRound (roundNum : Nat) : Nat → WalkSt → Int → Except Err WalkSt
  | 0, st, ml => if ml > 0 then .error .fuelOut else .ok st
  | fuel + 1, st, ml =>
    if ml > 0 then do
      let r ← walkIter roundNum st ml
      walkRound roundNum fuel r.1 r.2
    else .ok st

/-- Walk every round in ascending round order; `rounds` pairs each round
number with its match count. -/
def walkRounds (fuel : Nat) : List (Nat × Nat) → WalkSt → Except Err WalkSt
  | [], st => .ok st
  | (r, n) :: t, st => do
    let st' ← walkRound r fuel st (n : Int)
    walkRounds fuel t st'

/-- Sum of final `minGames` over all slots (`slottedGames` in the source). -/
def sumMinGames (slots : List DayData) : Int :=
  sumBy slots (fun s => s.minGames.getD 0)

/-- The three post-walk assertions of the source: no slot left unconsumed,
`minGames == maxGames` for every slot, and the slot minima summing to
`totalGames`. -/
def walkAsserts (st : WalkSt) (totalGames : Int) : Except Err Unit :=
  if st.remaining.isEmpty then
    if st.slots.all (fun s => s.minGames == s.maxGames) then
      if sumMinGames st.slots = totalGames then .ok ()
      else .error .assertionFailed
    else .error .assertionFailed
  else .error .assertionFailed

/-- Result of the round assigner. -/
structure WalkOut where
  slots : List DayData
  store : List MatchData
  pools : List (Nat × List Nat)
  plan : List (Nat × List (Nat × Int))
  totalGames : Int
  rng : Nat
deriving DecidableEq

/-- Fuel that is comfortably larger than the number of iterations any round's
walk can take (each iteration consumes a match, pops a day, or forecloses a
day's surplus). -/
def walkFuel (a : AllotOut) : Nat :=
  a.totalGames.toNat + 2 * a.slots.length + 4

/-- The round assigner (`makeSchedule` from the `plusOnesPerRound` division
through the post-walk assertions). -/
def afterWalk (inp : Inputs) : Except Err WalkOut := do
  let a ← allotPhase inp
  let se ← plusOneSetup a.numPlusOnes (a.pools.map (fun p => p.1))
  let st0 : WalkSt :=
    { slots := a.slots, remaining := List.range a.slots.length, cur := none,
      used := 0, extraPlusOnes := se.1, roundAllot := se.2,
      possiblePlusOnes := a.possiblePlusOnes,
      plan := a.pools.map (fun p => (p.1, [])), rng := a.rng }
  let st ← walkRounds (walkFuel a) (a.pools.map (fun p => (p.1, p.2.length))) st0
  let _ ← walkAsserts st a.totalGames
  .ok { slots := st.slots, store := a.store, pools := a.pools, plan := st.plan,
        totalGames := a.totalGames, rng := st.rng }

/-- Shared state of the distributor and filler stages. -/
structure DistSt where
  slots : List DayData
  store : List MatchData
  pools : List (Nat × List Nat)
  plan : List (Nat × List (Nat × Int))
  rng : Nat
deriving DecidableEq

/-- `ScheduleMaker._updateMatch`: set the match's slot and round and append
it to the slot's match list. -/
def _updateMatch (st : DistSt) (mid sid roundNum : Nat) : DistSt :=
  { st with
    store := st.store.set mid
      (let m := getMatch st.store mid
       { m with slot := some sid, round := some roundNum }),
    slots := modSlot st.slots sid
      (fun s => { s with «matches» := s.«matches» ++ [mid] }) }

/-- Distributor-local state: the shared state plus `playerPicks` and
`maxedPlayers`. -/
structure DistLocal where
  st : DistSt
  picks : List (String × Int)
  maxed : List String

/-- `totalPicks / 2`: the allotted match count of the given group over the
whole plan (the source adds `numMatches * 2` per group slot entry). -/
def planSumType (slots : List DayData) (plan : List (Nat × List (Nat × Int)))
    (gameType : String) : Int :=
  (plan.map (fun rp =>
    (rp.2.map (fun e =>
      if (getSlot slots e.1).group == some gameType then e.2 else 0)).sum)).sum

/-- `max(roundSlots)`: the largest round key (Python raises on an empty
dict). -/
def planMaxRound (plan : List (Nat × List (Nat × Int))) : Except Err Nat :=
  match plan.map (fun p => p.1) with
  | [] => .error .indexError
  | k :: ks => .ok (ks.foldl max k)

/-- Increment one player's tally in an association list (no-op on a missing
key; every caller guards the key). -/
def bumpTally (l : List (String × Int)) (p : String) : List (String × Int) :=
  match alook l p with
  | some v => alset l p (v + 1)
  | none => l

/-- Python `playerPicks[player] += 1`: a missing key is a `KeyError`. -/
def bumpTallyE (l : List (String × Int)) (p : String) :
    Except Err (List (String × Int)) :=
  match alook l p with
  | some v => .ok (alset l p (v + 1))
  | none => .error .keyError

/-- The `gamesRemaining` look-ahead: walk every later round's remaining pool
and count, per eligible non-maxed player, the matches pairing two eligible
non-maxed players (`KeyError` when a round key is missing, as with the
source's direct dict indexing). -/
def gamesRemainingAux (pool maxed : List String) (store : List MatchData)
    (pools : List (Nat × List Nat)) :
    Nat → Nat → List (String × Int) → Except Err (List (String × Int))
  | 0, _, acc => .ok acc
  | fuel + 1, r, acc =>
    match alook pools r with
    | none => .error .keyError
    | some ids =>
      let acc' := ids.foldl (fun a mid =>
        let m := getMatch store mid
        if pool.contains m.player1 && pool.contains m.player2 &&
            !maxed.contains m.player1 && !maxed.contains m.player2 then
          bumpTally (bumpTally a m.player1) m.player2
        else a) acc
      gamesRemainingAux pool maxed store pools fuel (r + 1) acc'

/-- `gamesRemaining` for the current pick: future rounds are
`roundNum + 1 .. max(roundSlots)`. -/
def gamesRemainingCalc (pool maxed : List String) (store : List MatchData)
    (pools : List (Nat × List Nat)) (roundNum maxR : Nat) :
    Except Err (List (String × Int)) :=
  gamesRemainingAux pool maxed store pools (maxR - roundNum) (roundNum + 1)
    (pool.map (fun p => (p, (0 : Int))))

/-- Number of required players participating in a match. -/
def requiredCount (req : List String) (m : MatchData) : Nat :=
  (if req.contains m.player1 then 1 else 0) +
    (if req.contains m.player2 then 1 else 0)

/-- Maximum of a list of naturals (0 when empty; callers guard emptiness). -/
def maxNat : List Nat → Nat
  | [] => 0
  | x :: xs => xs.foldl max x

/-- Minimum of a list of integers (0 when empty; callers guard emptiness). -/
def minIntL : List Int → Int
  | [] => 0
  | x :: xs => xs.foldl min x

/-- Maximum of a list of integers (0 when empty; callers guard emptiness). -/
def maxIntL : List Int → Int
  | [] => 0
  | x :: xs => xs.foldl max x

/-- `filterByPlayersInPool`: keep the matches whose two players are both in
the pick table, raising `DistributionError` when none remain, then keep only
those minimizing the two players' combined picks-so-far. -/
def filterByPlayersInPool (picks : List (String × Int)) (store : List MatchData)
    (potential : List Nat) : Except Err (List Nat) :=
  let elig := potential.filter (fun mid =>
    let m := getMatch store mid
    (alook picks m.player1).isSome && (alook picks m.player2).isSome)
  if elig.isEmpty then .error .distributionError
  else
    let key := fun mid =>
      let m := getMatch store mid
      (alook picks m.player1).getD 0 + (alook picks m.player2).getD 0
    let mn := minIntL (elig.map key)
    .ok (elig.filter (fun mid => key mid == mn))

/-- The `try/except DistributionError` around the pool filter: strict mode
re-raises, lenient mode falls back to filtering the whole remaining pool
(whose own failure is not caught). -/
def potentialAfterPoolFilter (strict : Bool) (picks : List (String × Int))
    (store : List MatchData) (potential matchesLeft : List Nat) :
    Except Err (List Nat) :=
  match filterByPlayersInPool picks store potential with
  | .ok l => .ok l
  | .error e =>
    if strict then .error e
    else filterByPlayersInPool picks store matchesLeft

/-- Post-choice bookkeeping for one player (`picks = playerPicks[player] + 1`
then the max check): reaching `maxPicks` marks the player maxed and leaves
the recorded tally unchanged; otherwise the tally is stored. -/
def recordPick (picks : List (String × Int)) (maxed : List String)
    (maxPicks : Int) (p : String) : List (String × Int) × List String :=
  let cur := (alook picks p).getD 0
  if cur + 1 = maxPicks then (picks, maxed ++ [p])
  else (alset picks p (cur + 1), maxed)

/-- Step 7 of the distributor: remove the chosen match from the round's
remaining pool, assign it to the slot/round, and record both players' picks. -/
def assignChosen (maxPicks : Int) (roundNum sid chosen : Nat)
    (matchesLeft : List Nat) (rng' : Nat) (L : DistLocal) : DistLocal :=
  let st1 := { L.st with
    pools := alset L.st.pools roundNum (matchesLeft.erase chosen), rng := rng' }
  let st2 := _updateMatch st1 chosen sid roundNum
  let m := getMatch L.st.store chosen
  let r1 := recordPick L.picks L.maxed maxPicks m.player1
  let r2 := recordPick r1.1 r1.2 maxPicks m.player2
  { st := st2, picks := r2.1, maxed := r2.2 }

/-- One constrained-group pick: compute the look-ahead and required players,
filter the current round's pool by required count, eligible players (with the
strict/lenient fallback), picks balance and future-games balance, then choose
one of the tied matches with the seeded generator and assign it. -/
def pickOne (strict : Bool) (pool : List String) (minPicks maxPicks : Int)
    (roundNum sid : Nat) (L : DistLocal) : Except Err DistLocal := do
  let maxR ← planMaxRound L.st.plan
  let gr ← gamesRemainingCalc pool L.maxed L.st.store L.st.pools roundNum maxR
  let req := pool.filter (fun p =>
    decide (minPicks - (alook L.picks p).getD 0 ≥ (alook gr p).getD 0) &&
      !(L.maxed.contains p))
  match alook L.st.pools roundNum with
  | none => .error .keyError
  | some matchesLeft =>
    if matchesLeft.isEmpty then .error .indexError
    else
      let rc := fun mid => requiredCount req (getMatch L.st.store mid)
      let mx := maxNat (matchesLeft.map rc)
      let pot1 := matchesLeft.filter (fun mid => rc mid == mx)
      let pot2 ← potentialAfterPoolFilter strict L.picks L.st.store pot1 matchesLeft
      let fkey := fun mid =>
        let m := getMatch L.st.store mid
        (alook gr m.player1).getD 0 + (alook gr m.player2).getD 0
      let mnf := minIntL (pot2.map fkey)
      let pot3 := pot2.filter (fun mid => fkey mid == mnf)
      let dr ← randrange L.st.rng pot3.length
      let chosen := pot3.getD dr.1 0
      .ok (assignChosen maxPicks roundNum sid chosen matchesLeft dr.2 L)

/-- Make `cnt` picks for one group slot entry. -/
def pickMany (strict : Bool) (pool : List String) (minPicks maxPicks : Int)
    (roundNum sid : Nat) : Nat → DistLocal → Except Err DistLocal
  | 0, L => .ok L
  | k + 1, L => do
    let L' ← pickOne strict pool minPicks maxPicks roundNum sid L
    pickMany strict pool minPicks maxPicks roundNum sid k L'

/-- Process one round's plan entries: group-bearing entries are fully
consumed and then zeroed (`slots[slotI] = [slot, 0]`); the rest stay. The
processed entry list is rebuilt alongside. -/
def distEntries (strict : Bool) (gameType : String) (pool : List String)
    (minPicks maxPicks : Int) (roundNum : Nat) :
    List (Nat × Int) → DistLocal → Except Err (List (Nat × Int) × DistLocal)
  | [], L => .ok ([], L)
  | (sid, cnt) :: rest, L =>
    if (getSlot L.st.slots sid).group == some gameType then do
      let L1 ← pickMany strict pool minPicks maxPicks roundNum sid cnt.toNat L
      let r ← distEntries strict gameType pool minPicks maxPicks roundNum rest L1
      .ok ((sid, 0) :: r.1, r.2)
    else do
      let r ← distEntries strict gameType pool minPicks maxPicks roundNum rest L
      .ok ((sid, cnt) :: r.1, r.2)

/-- Process every round of the plan in order, rebuilding the plan with the
consumed group entries zeroed. -/
def distRounds (strict : Bool) (gameType : String) (pool : List String)
    (minPicks maxPicks : Int) :
    List (Nat × List (Nat × Int)) → DistLocal →
    Except Err (List (Nat × List (Nat × Int)) × DistLocal)
  | [], L => .ok ([], L)
  | (r, entries) :: t, L => do
    let e1 ← distEntries strict gameType pool minPicks maxPicks r entries L
    let t1 ← distRounds strict gameType pool minPicks maxPicks t e1.2
    .ok ((r, e1.1) :: t1.1, t1.2)

/-- Gate on the recomputed per-player spread: a spread above one raises in
strict mode and degrades to a printed warning in lenient mode. -/
def spreadGate (strict : Bool) (vals : List Int) : Except Err Unit :=
  if vals.isEmpty then .error .indexError
  else if maxIntL vals - minIntL vals > 1 then
    if strict then .error .distributionError else .ok ()
  else .ok ()

/-- The distributor's closing check: recount the picks from the group slots'
assigned matches (a missing player is a `KeyError`), then gate the spread. -/
def evenCheck (strict : Bool) (gameType : String) (pool : List String)
    (slots : List DayData) (store : List MatchData)
    (plan : List (Nat × List (Nat × Int))) : Except Err Unit := do
  let picks ← plan.foldlM (fun acc rp =>
    rp.2.foldlM (fun acc e =>
      let s := getSlot slots e.1
      if s.group == some gameType then
        s.«matches».foldlM (fun acc mid => do
          let a1 ← bumpTallyE acc (getMatch store mid).player1
          bumpTallyE a1 (getMatch store mid).player2) acc
      else pure acc) acc)
    (pool.map (fun p => (p, (0 : Int))))
  spreadGate strict (picks.map (fun p => p.2))

/-- `ScheduleMaker.distributeMatches`: distribute the group-bearing slots'
matches evenly over the eligible players (an empty pool is Python's
`ZeroDivisionError` at the `totalPicks // len(playerPool)` division). -/
def distributeMatches (strict : Bool) (gameType : String)
    (playerPool : List String) (st : DistSt) : Except Err DistSt := do
  let totalPicks : Int := 2 * planSumType st.slots st.plan gameType
  if playerPool.length = 0 then .error .zeroDivision
  else
    let minPicks := totalPicks.ediv playerPool.length
    let maxPicks :=
      if totalPicks.emod playerPool.length ≠ 0 then minPicks + 1 else minPicks
    let L0 : DistLocal :=
      { st := st, picks := playerPool.map (fun p => (p, 0)), maxed := [] }
    let dr ← distRounds strict gameType playerPool minPicks maxPicks st.plan L0
    let st' := { dr.2.st with plan := dr.1 }
    let _ ← evenCheck strict gameType playerPool st'.slots st'.store st'.plan
    .ok st'

/-- League-night opt-ins, in roster order. -/
def leagueNighters (roster : List RosterEntry) : List String :=
  (roster.filter (fun r => r.leagueNight)).map (fun r => r.name)

/-- Lunch opt-ins, in roster order. -/
def lunchers (roster : List RosterEntry) : List String :=
  (roster.filter (fun r => r.lunch)).map (fun r => r.name)

/-- Pipeline state after both `distributeMatches` calls (league night, then
lunch), just before the unconstrained filler runs. -/
def afterDistribute (inp : Inputs) : Except Err DistSt := do
  let w ← afterWalk inp
  let st0 : DistSt := { slots := w.slots, store := w.store, pools := w.pools,
                        plan := w.plan, rng := w.rng }
  let st1 ← distributeMatches inp.errorOnPoorDistribution "leagueNight"
    (leagueNighters inp.roster) st0
  distributeMatches inp.errorOnPoorDistribution "lunch"
    (lunchers inp.roster) st1

/-- The filler's inner loop: `numMatches` draws of a uniformly random match
from the round's remaining pool (`matchesLeft.pop(chosenIndex)`), each
assigned to the slot. -/
def fillEntry (roundNum sid : Nat) : Nat → DistSt → Except Err DistSt
  | 0, st => .ok st
  | k + 1, st =>
    match alook st.pools roundNum with
    | none => .error .keyError
    | some matchesLeft => do
      let dr ← randrange st.rng matchesLeft.length
      let chosen := matchesLeft.getD dr.1 0
      let st1 := { st with
        pools := alset st.pools roundNum (matchesLeft.eraseIdx dr.1),
        rng := dr.2 }
      fillEntry roundNum sid k (_updateMatch st1 chosen sid roundNum)

/-- Fill every plan entry of one round. -/
def fillEntries (roundNum : Nat) :
    List (Nat × Int) → DistSt → Except Err DistSt
  | [], st => .ok st
  | (sid, cnt) :: rest, st => do
    let st' ← fillEntry roundNum sid cnt.toNat st
    fillEntries roundNum rest st'

/-- Fill every round of the plan. -/
def fillRounds : List (Nat × List (Nat × Int)) → DistSt → Except Err DistSt
  | [], st => .ok st
  | (r, entries) :: t, st => do
    let st' ← fillEntries r entries st
    fillRounds t st'

/-- The unconstrained filler: random assignment of every remaining match to
the remaining planned slot capacity. -/
def fillPhase (st : DistSt) : Except Err DistSt :=
  fillRounds st.plan st

/-- The closing sanity check: every roster player must have played exactly
`(len(roster) - 1) * gamesPerMatchup` games, else `DistributionError`. -/
def gamesPlayedCheck (roster : List RosterEntry) (gamesPerMatchup : Nat)
    (st : DistSt) : Except Err Unit := do
  let counts ← st.slots.foldlM (fun acc s =>
    s.«matches».foldlM (fun acc mid => do
      let a1 ← bumpTallyE acc (getMatch st.store mid).player1
      bumpTallyE a1 (getMatch st.store mid).player2) acc)
    (roster.map (fun r => (r.name, (0 : Int))))
  if counts.all (fun c => c.2 == ((roster.length : Int) - 1) * gamesPerMatchup)
  then .ok () else .error .distributionError

/-- The whole schedule computation (`makeSchedule` up to, and excluding, the
spreadsheet/calendar output): allotter, round assigner, both constrained
distributions, the unconstrained filler, and the games-played sanity check. -/
def makeSchedule (inp : Inputs) : Except Err DistSt := do
  let st ← afterDistribute inp
  let st' ← fillPhase st
  let _ ← gamesPlayedCheck inp.roster inp.gamesPerMatchup st'
  .ok st'

/-! Measurement functions used to state the verified properties. -/

/-- Total match count of one plan entry list. -/
def entriesTotal : List (Nat × Int) → Int
  | [] => 0
  | e :: es => e.2 + entriesTotal es

/-- Planned match count of one round (`sum(n for slot, n in roundSlots[r])`). -/
def planSum (plan : List (Nat × List (Nat × Int))) (r : Nat) : Int :=
  entriesTotal ((alook plan r).getD [])

/-- Planned match count of one slot within one entry list. -/
def entrySumSlot : List (Nat × Int) → Nat → Int
  | [], _ => 0
  | e :: es, i => (if e.1 = i then e.2 else 0) + entrySumSlot es i

/-- Planned match count of one slot over the whole plan. -/
def planSumSlot (plan : List (Nat × List (Nat × Int))) (i : Nat) : Int :=
  (plan.map (fun rp => entrySumSlot rp.2 i)).sum

/-- Planned match count of the whole plan. -/
def planGrand (plan : List (Nat × List (Nat × Int))) : Int :=
  (plan.map (fun rp => entriesTotal rp.2)).sum

/-- Size of one round's remaining pool. -/
def poolLen (pools : List (Nat × List Nat)) (r : Nat) : Int :=
  (((alook pools r).getD []).length : Int)

/-- Sum of `allottedGames` over the slot store. -/
def sumAllotted (slots : List DayData) : Int :=
  sumBy slots (fun s => s.allottedGames)

/-- The slot calendar of an input. -/
def getTimeSlotsOf (inp : Inputs) : List DayData :=
  getTimeSlots inp.startDate inp.endDate inp.leagueNightWeekday
    inp.lunchCap inp.leagueCap

/-- The match store as built from the external round map (nothing assigned). -/
def initStoreOf (inp : Inputs) : List MatchData :=
  (buildStoreAux 0 inp.roundMatches).1

/-- Date and group of the slot a match is assigned to (`Match.date` plus the
slot's group), `none` while unassigned. -/
def matchSlotDate (st : DistSt) (i : Nat) : Option (Nat × Option String) :=
  ((getMatch st.store i).slot).map
    (fun sid => ((getSlot st.slots sid).date, (getSlot st.slots sid).group))

/-- Round number a match is assigned to, `none` while unassigned. -/
def matchRound (st : DistSt) (i : Nat) : Option Nat :=
  (getMatch st.store i).round

/-- Bounded-capacity total of the eligible buckets from round `k` upward
(`fuel` counts the rounds up to, and excluding, the unbounded bucket). -/
def capBuckets (avail : List (Int × List Nat)) : Nat → Int → Int
  | 0, _ => 0
  | fuel + 1, k => (((alook avail k).getD []).length : Int) + capBuckets avail fuel (k + 1)

/-! Concrete scenarios used by the witnesses and counterexamples. -/

/-- A one-weekday season (a single Monday), lunch configured off, no league
night, two players, one round with the single match (A, B). -/
def inpOne : Inputs :=
  { seed := 1, startDate := 0, endDate := 0, leagueNightWeekday := 6,
    gamesPerMatchup := 1, lunchCap := 0, leagueCap := 1,
    errorOnPoorDistribution := true,
    roster := [{ name := "A", leagueNight := true, lunch := true },
               { name := "B", leagueNight := true, lunch := true }],
    roundMatches := [(1, [("A", "B")])] }

/-- The five-weekday scenario of the spec: Monday through Friday, no league
night, lunch configured off, round map `{1: [(A, B)]}`. -/
def inpFive : Inputs :=
  { inpOne with endDate := 4 }

/-- A one-weekday season whose lunch slot demands two games while only one
match is supplied: `totalGames < reservedTotal`. -/
def inpShort : Inputs :=
  { inpOne with lunchCap := 2 }

/-- A distributor scenario with one lunch slot to fill in round 1, whose only
remaining round-1 match pairs pool player A with non-pool player C. -/
def cexSt : DistSt :=
  { slots := [{ date := 0, group := some "lunch", «matches» := [],
                minGames := some 1, maxGames := some 1, allottedGames := 1 }],
    store := [{ slot := none, player1 := "A", player2 := "C", round := none }],
    pools := [(1, [0])],
    plan := [(1, [(0, 1)])],
    rng := 1 }

/-- Distributor-local state with players A and B yet unpicked. -/
def cexLocal : DistLocal :=
  { st := cexSt, picks := [("A", 0), ("B", 0)], maxed := [] }

/-- A distributor scenario whose only remaining match pairs the two pool
players A and B, with `maxPicks = 1` about to be reached by both. -/
def cexSt6 : DistSt :=
  { slots := [{ date := 0, group := some "lunch", «matches» := [],
                minGames := some 1, maxGames := some 1, allottedGames := 1 }],
    store := [{ slot := none, player1 := "A", player2 := "B", round := none }],
    pools := [(1, [0])],
    plan := [(1, [(0, 1)])],
    rng := 1 }

/-- Distributor-local state for `cexSt6`. -/
def cexLocal6 : DistLocal :=
  { st := cexSt6, picks := [("A", 0), ("B", 0)], maxed := [] }


/-- Shape of every slot the calendar builder emits: nothing allotted or
assigned yet, and either an exact positive capacity (`min = max > 0`) or a
fully unconstrained slot. -/
def TimeSlotShape (s : DayData) : Prop :=
  s.allottedGames = 0 ∧ s.«matches» = [] ∧
  ((∃ c, 0 < c ∧ s.minGames = some c ∧ s.maxGames = some c) ∨
   (s.minGames = none ∧ s.maxGames = none))

/-- Invariant of the allotter's working slots (after reservation, preserved
by the leveling loop): no matches yet, a nonnegative allotment, and a minimum
that is unset or already covered by the allotment. -/
def ReadySlot (s : DayData) : Prop :=
  s.«matches» = [] ∧ 0 ≤ s.allottedGames ∧
  (s.minGames = none ∨ ∃ m, s.minGames = some m ∧ m ≤ s.allottedGames)

/-- Shape of every slot leaving the allotter: `minGames` pinned to the
allotment and `maxGames` equal to it or one above (the asserted range). -/
def FinalSlot (s : DayData) : Prop :=
  s.«matches» = [] ∧ 0 ≤ s.allottedGames ∧
  s.minGames = some s.allottedGames ∧
  (s.maxGames = some s.allottedGames ∨ s.maxGames = some (s.allottedGames + 1))


/-- Range shape of a slot entering the round-assigner walk: an exact
nonnegative minimum with a maximum equal to it or one above. -/
def SlotRange (s : DayData) : Prop :=
  ∃ a : Int, 0 ≤ a ∧ s.minGames = some a ∧
    (s.maxGames = some a ∨ s.maxGames = some (a + 1))

/-- Invariant of the round-assigner walk. `n` is the slot count. The fields
track: store size; untouched match lists; the not-yet-popped ids (bounded,
distinct, each still in its allotter range with no plan entries); the active
day (bounded, not remaining, its consumed count within its current minimum,
its bounds one apart, its plan entries summing to exactly the consumed
count); fully consumed days (`minGames = maxGames`, plan entries summing to
the final minimum); and well-formed plan entries. -/
structure WalkInv (n : Nat) (st : WalkSt) : Prop where
  len : st.slots.length = n
  nil_matches : ∀ s ∈ st.slots, s.«matches» = []
  rem_lt : ∀ i ∈ st.remaining, i < n
  rem_nodup : st.remaining.Nodup
  rem_fresh : ∀ i ∈ st.remaining,
    SlotRange (getSlot st.slots i) ∧ planSumSlot st.plan i = 0
  cur_ok : ∀ c, st.cur = some c → c < n ∧ c ∉ st.remaining ∧
    0 ≤ st.used ∧
    (∃ mn mx : Int, (getSlot st.slots c).minGames = some mn ∧
      (getSlot st.slots c).maxGames = some mx ∧
      st.used ≤ mn ∧ mn ≤ mx ∧ mx ≤ mn + 1) ∧
    planSumSlot st.plan c = st.used
  cur_none : st.cur = none → st.used = 0 ∧ ∀ i, planSumSlot st.plan i = 0
  past : ∀ i, i < n → i ∉ st.remaining → st.cur ≠ some i →
    ∃ m : Int, (getSlot st.slots i).minGames = some m ∧
      (getSlot st.slots i).maxGames = some m ∧ planSumSlot st.plan i = m
  plan_ids : ∀ rp ∈ st.plan, ∀ e ∈ rp.2, e.1 < n
  plan_nonneg : ∀ rp ∈ st.plan, ∀ e ∈ rp.2, 0 ≤ e.2

/-- The round-assigner output on `inpOne` (dummy fallback unreachable: the
run succeeds). -/
def wOne : WalkOut :=
  match afterWalk inpOne with
  | .ok w => w
  | .error _ => { slots := [], store := [], pools := [], plan := [],
                  totalGames := 0, rng := 0 }

/-- The distributor output on `inpOne` (dummy fallback unreachable). -/
def stOneD : DistSt :=
  match afterDistribute inpOne with
  | .ok s => s
  | .error _ => { slots := [], store := [], pools := [], plan := [], rng := 0 }

/-- The full-pipeline output on `inpOne` (dummy fallback unreachable). -/
def schedOne : DistSt :=
  match makeSchedule inpOne with
  | .ok s => s
  | .error _ => { slots := [], store := [], pools := [], plan := [], rng := 0 }

/-! ### Helper lemmas -/

theorem length_modSlot (slots : List DayData) (i : Nat) (f : DayData → DayData) :
    (modSlot slots i f).length = slots.length :=
  List.length_set slots i _

theorem getSlot_modSlot_self {slots : List DayData} {i : Nat}
    (f : DayData → DayData) (h : i < slots.length) :
    getSlot (modSlot slots i f) i = f (getSlot slots i) := by
  simp [getSlot, modSlot, List.getD_eq_getElem?_getD, List.getElem?_set_self h]

theorem getSlot_modSlot_ne {slots : List DayData} {i j : Nat}
    (f : DayData → DayData) (h : i ≠ j) :
    getSlot (modSlot slots i f) j = getSlot slots j := by
  simp [getSlot, modSlot, List.getD_eq_getElem?_getD, List.getElem?_set_ne h]

theorem sumBy_set (f : DayData → Int) :
    ∀ (slots : List DayData) (i : Nat) (a : DayData), i < slots.length →
    sumBy (slots.set i a) f = sumBy slots f + f a - f (getSlot slots i)
  | s :: t, 0, a, _ => by
    simp [sumBy, getSlot]
    ring
  | s :: t, i + 1, a, h => by
    have ih := sumBy_set f t i a (by simpa using Nat.lt_of_succ_lt_succ h)
    simp only [List.set, sumBy, List.map, List.sum_cons] at *
    have : getSlot (s :: t) (i + 1) = getSlot t i := by simp [getSlot]
    rw [this]
    omega

theorem sumBy_modSlot (f : DayData → Int) (slots : List DayData) (i : Nat)
    (g : DayData → DayData) (h : i < slots.length) :
    sumBy (modSlot slots i g) f =
      sumBy slots f + f (g (getSlot slots i)) - f (getSlot slots i) :=
  sumBy_set f slots i _ h

theorem mem_modSlot {slots : List DayData} {i : Nat} {f : DayData → DayData}
    {s : DayData} (h : s ∈ modSlot slots i f) :
    s ∈ slots ∨ ∃ s₀ ∈ slots, s = f s₀ := by
  rcases List.mem_or_eq_of_mem_set h with h' | h'
  · exact Or.inl h'
  · by_cases hi : i < slots.length
    · exact Or.inr ⟨getSlot slots i, by
        simp [getSlot, List.getD_eq_getElem?_getD, List.getElem?_eq_getElem hi,
          List.getElem_mem], h'⟩
    · left
      rw [modSlot, List.set_eq_of_length_le (by omega)] at h
      exact h

theorem alook_alset_self {κ α : Type} [DecidableEq κ] :
    ∀ (l : List (κ × α)) (k : κ) (v : α), alook (alset l k v) k = some v
  | [], k, v => by simp [alook, alset]
  | (k', v') :: t, k, v => by
    by_cases h : k' = k
    · simp [alook, alset, h]
    · simp [alook, alset, h, alook_alset_self t k v]

theorem alook_alset_ne {κ α : Type} [DecidableEq κ] {k k' : κ} (hne : k' ≠ k) :
    ∀ (l : List (κ × α)) (v : α), alook (alset l k v) k' = alook l k'
  | [], v => by
    have h2 : ¬(k = k') := fun h => hne h.symm
    simp [alook, alset, h2]
  | (k₀, v₀) :: t, v => by
    have h2 : ¬(k = k') := fun h => hne h.symm
    by_cases h : k₀ = k
    · subst h
      simp [alook, alset, h2]
    · simp only [alset, if_neg h, alook]
      by_cases h' : k₀ = k'
      · simp [h']
      · simp [h', alook_alset_ne hne t v]

theorem alset_keys {κ α : Type} [DecidableEq κ] :
    ∀ (l : List (κ × α)) (k : κ) (v : α), (alook l k).isSome →
    (alset l k v).map Prod.fst = l.map Prod.fst
  | [], k, v => by simp [alook]
  | (k₀, v₀) :: t, k, v => by
    by_cases h : k₀ = k
    · simp [alset, alook, h]
    · simp only [alook, if_neg h, alset]
      intro hs
      simp [alset_keys t k v hs]

theorem entriesTotal_append (es : List (Nat × Int)) (e : Nat × Int) :
    entriesTotal (es ++ [e]) = entriesTotal es + e.2 := by
  induction es with
  | nil => simp [entriesTotal]
  | cons h t ih => simp [entriesTotal, ih]; ring

theorem entrySumSlot_append (es : List (Nat × Int)) (e : Nat × Int) (i : Nat) :
    entrySumSlot (es ++ [e]) i =
      entrySumSlot es i + (if e.1 = i then e.2 else 0) := by
  induction es with
  | nil => simp [entrySumSlot]
  | cons h t ih => simp [entrySumSlot, ih]; ring

theorem planSum_alset_self (plan : List (Nat × List (Nat × Int))) (r : Nat)
    (v : List (Nat × Int)) : planSum (alset plan r v) r = entriesTotal v := by
  simp [planSum, alook_alset_self]

theorem planSum_alset_ne (plan : List (Nat × List (Nat × Int))) {r r' : Nat}
    (h : r' ≠ r) (v : List (Nat × Int)) :
    planSum (alset plan r v) r' = planSum plan r' := by
  simp [planSum, alook_alset_ne h]

theorem planSumSlot_alset :
    ∀ (plan : List (Nat × List (Nat × Int))) (r : Nat) (v : List (Nat × Int))
      (i : Nat),
    planSumSlot (alset plan r v) i =
      planSumSlot plan i - entrySumSlot ((alook plan r).getD []) i +
        entrySumSlot v i
  | [], r, v, i => by simp [planSumSlot, alset, alook, entrySumSlot]
  | (k, es) :: t, r, v, i => by
    by_cases h : k = r
    · subst h
      simp [planSumSlot, alset, alook]
      ring
    · simp only [alset, if_neg h, planSumSlot, List.map, List.sum_cons, alook,
        if_neg h]
      have := planSumSlot_alset t r v i
      simp only [planSumSlot] at this
      omega

theorem planGrand_alset :
    ∀ (plan : List (Nat × List (Nat × Int))) (r : Nat) (v : List (Nat × Int)),
    planGrand (alset plan r v) =
      planGrand plan - entriesTotal ((alook plan r).getD []) + entriesTotal v
  | [], r, v => by simp [planGrand, alset, alook, entriesTotal]
  | (k, es) :: t, r, v => by
    by_cases h : k = r
    · subst h
      simp [planGrand, alset, alook]
      ring
    · simp only [alset, if_neg h, planGrand, List.map, List.sum_cons, alook,
        if_neg h]
      have := planGrand_alset t r v
      simp only [planGrand] at this
      omega

/-! ### C7: pre-walk division of the surplus across rounds -/

/-- C7: before the per-round walk begins, the surplus `numPlusOnes` is divided
evenly across rounds: every round's mandatory "+1" entitlement is
`numPlusOnes // roundCount`, the remaining `numPlusOnes % roundCount`
entitlements form the shared first-claim pool (`extraPlusOnes`), and the
mandatory entitlements plus the pool sum to exactly `numPlusOnes`. -/
theorem c7_plusOne_division (numPlusOnes : Int) (roundKeys : List Nat)
    (extra : Int) (allot : List (Nat × Int))
    (hrun : plusOneSetup numPlusOnes roundKeys = .ok (extra, allot)) :
    (∀ p ∈ allot, p.2 = numPlusOnes.ediv roundKeys.length) ∧
    extra = numPlusOnes.emod roundKeys.length ∧
    allot.map Prod.fst = roundKeys ∧
    (allot.map Prod.snd).sum + extra = numPlusOnes := by
  unfold plusOneSetup at hrun
  by_cases h : roundKeys.length = 0
  · simp [h] at hrun
  · rw [if_neg h] at hrun
    have h1 : extra = numPlusOnes.emod roundKeys.length := by
      cases hrun; rfl
    have h2 : allot =
        roundKeys.map (fun r => (r, numPlusOnes.ediv roundKeys.length)) := by
      cases hrun; rfl
    subst h1 h2
    refine ⟨?_, rfl, ?_, ?_⟩
    · intro p hp
      rcases List.mem_map.mp hp with ⟨r, _, rfl⟩
      rfl
    · rw [List.map_map]
      have hfst : (Prod.fst ∘ fun r : Nat =>
          (r, numPlusOnes.ediv roundKeys.length)) = id := rfl
      rw [hfst, List.map_id]
    · have hconst : ∀ (l : List Nat) (c : Int),
          (l.map (fun _ => c)).sum = l.length * c := by
        intro l c
        induction l with
        | nil => simp
        | cons hd tl ih => simp [ih]; ring
      rw [List.map_map]
      have hcomp : (Prod.snd ∘ fun r : Nat =>
          (r, numPlusOnes.ediv roundKeys.length)) =
          fun _ => numPlusOnes.ediv roundKeys.length := rfl
      rw [hcomp, hconst]
      exact Int.ediv_add_emod numPlusOnes roundKeys.length

/-- Witness for C7 at a concrete instance: 5 surplus games over 3 rounds. -/
theorem c7_plusOne_division_witness :
    (∀ p ∈ [((1 : Nat), (1 : Int)), (2, 1), (3, 1)],
      p.2 = (5 : Int).ediv ([1, 2, 3] : List Nat).length) ∧
    (2 : Int) = (5 : Int).emod ([1, 2, 3] : List Nat).length ∧
    ([((1 : Nat), (1 : Int)), (2, 1), (3, 1)].map Prod.fst) = [1, 2, 3] ∧
    (([((1 : Nat), (1 : Int)), (2, 1), (3, 1)].map Prod.snd).sum + 2 : Int) = 5 :=
  c7_plusOne_division 5 [1, 2, 3] 2 [(1, 1), (2, 1), (3, 1)] rfl

/-! ### C3: determinism -/

/-- C3: the schedule computation is a pure function of its inputs (the one
seeded generator is threaded through the state, and nothing else is consulted):
two runs on equal `(seed, roster, seasonConfig, roundMap)` inputs return equal
results, so every match receives the same slot (same date and group) and the
same round number in both runs. -/
theorem c3_determinism (i1 i2 : Inputs) (h : i1 = i2) :
    makeSchedule i1 = makeSchedule i2 ∧
    ∀ o1 o2, makeSchedule i1 = .ok o1 → makeSchedule i2 = .ok o2 →
      ∀ j, matchSlotDate o1 j = matchSlotDate o2 j ∧
        matchRound o1 j = matchRound o2 j := by
  subst h
  refine ⟨rfl, ?_⟩
  intro o1 o2 h1 h2 j
  rw [h1] at h2
  cases h2
  exact ⟨rfl, rfl⟩

/-- Witness for C3: two runs on the one-weekday scenario. -/
theorem c3_determinism_witness :
    makeSchedule inpOne = makeSchedule inpOne ∧
    ∀ o1 o2, makeSchedule inpOne = .ok o1 → makeSchedule inpOne = .ok o2 →
      ∀ j, matchSlotDate o1 j = matchSlotDate o2 j ∧
        matchRound o1 j = matchRound o2 j :=
  c3_determinism inpOne inpOne rfl

/-! ### C5: strict/lenient handling of distribution failures -/

/-- C5 counterexample: with the strictness flag OFF (lenient mode), a
round whose remaining pool has no match between two eligible players still
raises `DistributionError`: the `except` handler's fallback call
`filterByPlayersInPool(matchesLeft)` re-raises outside the `try`. The claim
that in lenient mode every such condition degrades to a logged warning and
the run continues is therefore false. -/
theorem c5_counterexample :
    distributeMatches false "lunch" ["A", "B"] cexSt =
      .error .distributionError := rfl

/-- C5 amended: the flag controls the first infeasibility and the uneven-
spread check — in strict mode a failed eligible-player filter re-raises, in
lenient mode it falls back to filtering the whole remaining pool (so a
fallback failure still raises, as the counterexample shows); a final spread
above one raises in strict mode and degrades to a warning (no error) in
lenient mode. -/
theorem c5_amended_flag_behaviour (picks : List (String × Int))
    (store : List MatchData) (pot mleft : List Nat) (e : Err) (vals : List Int)
    (hfail : filterByPlayersInPool picks store pot = .error e)
    (hvals : ¬vals.isEmpty) (hspread : maxIntL vals - minIntL vals > 1) :
    potentialAfterPoolFilter true picks store pot mleft = .error e ∧
    potentialAfterPoolFilter false picks store pot mleft =
      filterByPlayersInPool picks store mleft ∧
    spreadGate true vals = .error .distributionError ∧
    spreadGate false vals = .ok () := by
  refine ⟨?_, ?_, ?_, ?_⟩
  · simp [potentialAfterPoolFilter, hfail]
  · simp [potentialAfterPoolFilter, hfail]
  · simp [spreadGate, hvals, hspread]
  · simp [spreadGate, hvals, hspread]

/-- Witness for C5 amended: the counterexample scenario's first filter failure
and a spread of 2. -/
theorem c5_amended_flag_behaviour_witness :
    potentialAfterPoolFilter true [("A", 0), ("B", 0)] cexSt.store [0] [0] =
      .error .distributionError ∧
    potentialAfterPoolFilter false [("A", 0), ("B", 0)] cexSt.store [0] [0] =
      filterByPlayersInPool [("A", 0), ("B", 0)] cexSt.store [0] ∧
    spreadGate true [0, 2] = .error .distributionError ∧
    spreadGate false [0, 2] = .ok () :=
  c5_amended_flag_behaviour [("A", 0), ("B", 0)] cexSt.store [0] [0]
    .distributionError [0, 2] rfl (by decide) (by decide)

/-! ### C6: bookkeeping of one constrained pick -/

/-- C6 counterexample: in step 7 of the distributor, when a player's
incremented total reaches `maxPicks` the recorded pick count is NOT
incremented (the `else` branch of the source skips the store): with
`maxPicks = 1` and both players at 0 picks, assigning their match leaves both
recorded counts at 0 while marking both maxed. The claim that both players'
recorded pick counts are incremented by one is therefore false. -/
theorem c6_counterexample :
    (assignChosen 1 1 0 0 [0] 7 cexLocal6).picks = [("A", 0), ("B", 0)] ∧
    (assignChosen 1 1 0 0 [0] 7 cexLocal6).picks ≠ [("A", 1), ("B", 1)] ∧
    (assignChosen 1 1 0 0 [0] 7 cexLocal6).maxed = ["A", "B"] :=
  ⟨rfl, by decide, rfl⟩

/-- C6 amended: step 7 removes the chosen match from the round's remaining
pool and assigns it to the slot; for each participating player the code
computes `picks + 1` and, exactly when that value equals `maxPicks`, marks
the player maxed while leaving the recorded count unchanged — otherwise it
stores the incremented count. -/
theorem c6_amended_step7 (maxPicks : Int) (roundNum sid chosen : Nat)
    (matchesLeft : List Nat) (rng' : Nat) (L : DistLocal)
    (hsid : sid < L.st.slots.length)
    (picks : List (String × Int)) (maxed : List String) (p : String) :
    (assignChosen maxPicks roundNum sid chosen matchesLeft rng' L).st.pools =
      alset L.st.pools roundNum (matchesLeft.erase chosen) ∧
    (getSlot (assignChosen maxPicks roundNum sid chosen matchesLeft rng' L).st.slots
        sid).«matches» = (getSlot L.st.slots sid).«matches» ++ [chosen] ∧
    (assignChosen maxPicks roundNum sid chosen matchesLeft rng' L).picks =
      (recordPick
        (recordPick L.picks L.maxed maxPicks
          (getMatch L.st.store chosen).player1).1
        (recordPick L.picks L.maxed maxPicks
          (getMatch L.st.store chosen).player1).2 maxPicks
        (getMatch L.st.store chosen).player2).1 ∧
    ((alook picks p).getD 0 + 1 = maxPicks →
      recordPick picks maxed maxPicks p = (picks, maxed ++ [p])) ∧
    ((alook picks p).getD 0 + 1 ≠ maxPicks →
      recordPick picks maxed maxPicks p =
        (alset picks p ((alook picks p).getD 0 + 1), maxed)) := by
  refine ⟨rfl, ?_, rfl, ?_, ?_⟩
  · have h1 : (assignChosen maxPicks roundNum sid chosen matchesLeft rng' L).st.slots
        = modSlot L.st.slots sid
            (fun s => { s with «matches» := s.«matches» ++ [chosen] }) := rfl
    rw [h1, getSlot_modSlot_self _ hsid]
  · intro h
    simp [recordPick, h]
  · intro h
    simp [recordPick, h]

/-- Witness for C6 amended at the `cexLocal6` scenario. -/
theorem c6_amended_step7_witness :
    ((assignChosen 1 1 0 0 [0] 7 cexLocal6).st.pools =
      alset cexLocal6.st.pools 1 (([0] : List Nat).erase 0) ∧
    (getSlot (assignChosen 1 1 0 0 [0] 7 cexLocal6).st.slots 0).«matches» =
      (getSlot cexLocal6.st.slots 0).«matches» ++ [0] ∧
    (assignChosen 1 1 0 0 [0] 7 cexLocal6).picks =
      (recordPick
        (recordPick cexLocal6.picks cexLocal6.maxed 1
          (getMatch cexLocal6.st.store 0).player1).1
        (recordPick cexLocal6.picks cexLocal6.maxed 1
          (getMatch cexLocal6.st.store 0).player1).2 1
        (getMatch cexLocal6.st.store 0).player2).1 ∧
    ((alook [("A", (0 : Int))] "A").getD 0 + 1 = 1 →
      recordPick [("A", 0)] [] 1 "A" = ([("A", 0)], [] ++ ["A"])) ∧
    ((alook [("A", (0 : Int))] "A").getD 0 + 1 ≠ 1 →
      recordPick [("A", 0)] [] 1 "A" =
        (alset [("A", 0)] "A" ((alook [("A", (0 : Int))] "A").getD 0 + 1), []))) :=
  c6_amended_step7 1 1 0 0 [0] 7 cexLocal6 (by decide) [("A", 0)] [] "A"

/-! ### C2: the allotted-games sum -/

/-- C2 counterexample: on the five-weekday, one-match scenario the allotter
completes with every slot's `allottedGames = 0` (the single surplus game is
left pending as `numPlusOnes = 1`), so the sum of `allottedGames` over the
surviving slots is 0 while `totalGames = 1`: the claimed equality fails
whenever the leveling loop ends in a partial round. -/
theorem c2_counterexample :
    ∃ a, allotPhase inpFive = .ok a ∧ sumAllotted a.slots ≠ a.totalGames ∧
      sumAllotted a.slots = 0 ∧ a.totalGames = 1 ∧ a.numPlusOnes = 1 :=
  ⟨_, rfl, by decide, rfl, rfl, rfl⟩

/-! ### C8: the five-weekday concrete scenario -/

/-- C8: the spec's concrete five-weekday scenario (no league night, lunch
configured off, round map `{1: [(A, B)]}`) does NOT complete: the round
assigner consumes only the first weekday's slot (which takes the round's
single match as a mandatory "+1"), the four remaining `+1`-candidate slots
are never popped and keep `maxGames = minGames + 1`, and the source's own
`assert not remainingSlots` / `assert slot.minGames == slot.maxGames`
postcondition fails, so the run dies with an `AssertionError` instead of
producing the schedule the spec expects. -/
theorem c8_five_weekday_assertion_failure :
    makeSchedule inpFive = .error .assertionFailed ∧
    (∃ o, makeSchedule inpOne = .ok o) := ⟨rfl, ⟨_, rfl⟩⟩

theorem getSlot_mem {slots : List DayData} {i : Nat} (h : i < slots.length) :
    getSlot slots i ∈ slots := by
  simp [getSlot, List.getD_eq_getElem?_getD, List.getElem?_eq_getElem h]

theorem availability_exact {s : DayData} {c : Int} (hm : s.«matches» = [])
    (hc : 0 < c) (hmin : s.minGames = some c) (hmax : s.maxGames = some c) :
    availability s = .underMin := by
  unfold availability
  rw [hmax, hmin, hm]
  simp only [List.length_nil, Nat.cast_zero]
  rw [if_neg (by omega), if_neg (by omega)]

theorem availability_unconstrained {s : DayData} (hmin : s.minGames = none)
    (hmax : s.maxGames = none) : availability s = .hitMin := by
  unfold availability
  rw [hmax, hmin]

theorem buildSlotsAux_shape (ln : Nat) (lc gc : Int) :
    ∀ (fuel cur : Nat) (s : DayData),
    s ∈ buildSlotsAux ln lc gc fuel cur → TimeSlotShape s ∨
      (s.allottedGames = 0 ∧ s.«matches» = [] ∧
        ∃ c, s.minGames = some c ∧ s.maxGames = some c)
  | 0, cur, s => by simp [buildSlotsAux]
  | fuel + 1, cur, s => by
    intro hmem
    rw [buildSlotsAux] at hmem
    rcases List.mem_append.mp hmem with hmem | hmem
    · by_cases hw : cur % 7 ≤ 4
      · rw [if_pos hw] at hmem
        rcases List.mem_append.mp hmem with hmem | hmem
        · rcases List.mem_cons.mp hmem with rfl | hmem
          · exact Or.inl ⟨rfl, rfl, Or.inr ⟨rfl, rfl⟩⟩
          · rcases List.mem_cons.mp hmem with rfl | hmem
            · exact Or.inr ⟨rfl, rfl, lc, rfl, rfl⟩
            · simp at hmem
        · by_cases hl : cur % 7 = ln
          · rw [if_pos hl] at hmem
            rcases List.mem_cons.mp hmem with rfl | hmem
            · exact Or.inr ⟨rfl, rfl, gc, rfl, rfl⟩
            · simp at hmem
          · rw [if_neg hl] at hmem
            simp at hmem
      · rw [if_neg hw] at hmem
        simp at hmem
    · exact buildSlotsAux_shape ln lc gc fuel (cur + 1) s hmem

theorem getTimeSlots_shape (startDate endDate ln : Nat) (lc gc : Int) :
    ∀ s ∈ getTimeSlots startDate endDate ln lc gc, TimeSlotShape s := by
  intro s hs
  rw [getTimeSlots, List.mem_filter] at hs
  rcases buildSlotsAux_shape ln lc gc _ _ s hs.1 with h | ⟨ha, hm, c, hmin, hmax⟩
  · exact h
  · refine ⟨ha, hm, Or.inl ⟨c, ?_, hmin, hmax⟩⟩
    have := hs.2
    rw [hmax] at this
    simpa using this

theorem getTimeSlotsOf_shape (inp : Inputs) :
    ∀ s ∈ getTimeSlotsOf inp, TimeSlotShape s :=
  getTimeSlots_shape _ _ _ _ _

theorem reserveSlots_ready (slots : List DayData)
    (h : ∀ s ∈ slots, TimeSlotShape s) :
    ∀ s ∈ reserveSlots slots, ReadySlot s := by
  intro s hs
  rw [reserveSlots, List.mem_map] at hs
  rcases hs with ⟨s₀, hs₀, rfl⟩
  rcases h s₀ hs₀ with ⟨ha, hm, hcase⟩
  rcases hcase with ⟨c, hc, hmin, hmax⟩ | ⟨hmin, hmax⟩
  · rw [if_pos (availability_exact hm hc hmin hmax)]
    exact ⟨hm, by rw [hmin]; simp; omega,
      Or.inr ⟨c, by rw [hmin], by rw [hmin]; simp⟩⟩
  · rw [if_neg (by rw [availability_unconstrained hmin hmax]; simp)]
    exact ⟨hm, by omega, Or.inl hmin⟩

theorem sumAllotted_reserveSlots (slots : List DayData)
    (h : ∀ s ∈ slots, s.allottedGames = 0) :
    sumAllotted (reserveSlots slots) = reservedTotal slots := by
  induction slots with
  | nil => rfl
  | cons hd tl ih =>
    have h0 : hd.allottedGames = 0 := h hd (by simp)
    have ih' := ih (fun s hs => h s (by simp [hs]))
    simp only [sumAllotted, reservedTotal, sumBy, reserveSlots, List.map_cons,
      List.sum_cons, List.map_map] at *
    by_cases hav : availability hd = .underMin
    · simp only [if_pos hav]
      omega
    · simp only [if_neg hav, h0]
      omega

theorem length_reserveSlots (slots : List DayData) :
    (reserveSlots slots).length = slots.length :=
  List.length_map _ _

theorem alook_append {κ α : Type} [DecidableEq κ] :
    ∀ (l : List (κ × α)) (k k' : κ) (v : α),
    alook (l ++ [(k, v)]) k' =
      match alook l k' with
      | some x => some x
      | none => if k = k' then some v else none
  | [], k, k', v => by simp [alook]
  | (k₀, v₀) :: t, k, k', v => by
    by_cases h : k₀ = k'
    · simp [alook, h]
    · simp only [List.cons_append, alook, if_neg h]
      exact alook_append t k k' v

theorem alAppend_bound {N : Nat} (ra : List (Int × List Nat)) (k : Int)
    (i : Nat) (hra : ∀ k' l, alook ra k' = some l → ∀ j ∈ l, j < N)
    (hi : i < N) :
    ∀ k' l, alook (alAppend ra k i) k' = some l → ∀ j ∈ l, j < N := by
  intro k' l hl j hj
  rw [alAppend] at hl
  cases hv : alook ra k with
  | some v =>
    rw [hv] at hl
    by_cases hk : k' = k
    · subst hk
      rw [alook_alset_self] at hl
      cases hl
      rcases List.mem_append.mp hj with hj | hj
      · exact hra k' v hv j hj
      · simp at hj
        subst hj
        exact hi
    · rw [alook_alset_ne hk] at hl
      exact hra k' l hl j hj
  | none =>
    rw [hv] at hl
    rw [alook_append] at hl
    cases hl' : alook ra k' with
    | some v =>
      rw [hl'] at hl
      cases hl
      exact hra k' _ hl' j hj
    | none =>
      rw [hl'] at hl
      by_cases hk : k = k'
      · rw [if_pos hk] at hl
        cases hl
        simp at hj
        subst hj
        exact hi
      · rw [if_neg hk] at hl
        cases hl

theorem idsWhere_lt (slots : List DayData) (p : DayData → Bool) :
    ∀ i ∈ idsWhere slots p, i < slots.length := by
  intro i hi
  rw [idsWhere, List.mem_filter] at hi
  exact List.mem_range.mp hi.1

theorem buildRemainingAllotment_bound (slots : List DayData) :
    ∀ k l, alook (buildRemainingAllotment slots) k = some l →
    ∀ j ∈ l, j < slots.length := by
  rw [buildRemainingAllotment]
  have hbase : ∀ k l,
      alook [((0 : Int), idsWhere slots (fun s => decide (availability s = .hitMax))),
             (-1, [])] k = some l → ∀ j ∈ l, j < slots.length := by
    intro k l hl j hj
    by_cases h0 : (0 : Int) = k
    · rw [alook, if_pos h0] at hl
      cases hl
      exact idsWhere_lt slots _ j hj
    · rw [alook, if_neg h0] at hl
      by_cases h1 : (-1 : Int) = k
      · rw [alook, if_pos h1] at hl
        cases hl
        simp at hj
      · rw [alook, if_neg h1] at hl
        cases hl
  have hfold : ∀ (ids : List Nat) (ra : List (Int × List Nat)),
      (∀ k l, alook ra k = some l → ∀ j ∈ l, j < slots.length) →
      (∀ i ∈ ids, i < slots.length) →
      ∀ k l, alook (ids.foldl (fun ra i =>
        let s := getSlot slots i
        match s.maxGames with
        | none => alAppend ra (-1) i
        | some mx =>
          if s.minGames = some mx then alAppend ra 0 i
          else alAppend ra (mx - s.minGames.getD 0) i) ra) k = some l →
      ∀ j ∈ l, j < slots.length := by
    intro ids
    induction ids with
    | nil => intro ra hra _; exact hra
    | cons i t ih =>
      intro ra hra hids
      rw [List.foldl_cons]
      apply ih _ ?_ (fun j hj => hids j (List.mem_cons_of_mem _ hj))
      have hi : i < slots.length := hids i (List.mem_cons_self _ _)
      cases hmx : (getSlot slots i).maxGames with
      | none => simpa [hmx] using alAppend_bound ra (-1) i hra hi
      | some mx =>
        by_cases heq : (getSlot slots i).minGames = some mx
        · simpa [hmx, heq] using alAppend_bound ra 0 i hra hi
        · simpa [hmx, heq] using
            alAppend_bound ra (mx - (getSlot slots i).minGames.getD 0) i hra hi
  exact hfold _ _ hbase
    (by
      intro i hi
      rcases List.mem_append.mp hi with hi | hi
      · exact idsWhere_lt slots _ i hi
      · exact idsWhere_lt slots _ i hi)

theorem alset_bound {N : Nat} (acc : List (Int × List Nat)) (k : Int)
    (v : List Nat) (hacc : ∀ k' l, alook acc k' = some l → ∀ j ∈ l, j < N)
    (hv : ∀ j ∈ v, j < N) :
    ∀ k' l, alook (alset acc k v) k' = some l → ∀ j ∈ l, j < N := by
  intro k' l hl
  by_cases hk : k' = k
  · subst hk
    rw [alook_alset_self] at hl
    cases hl
    exact hv
  · rw [alook_alset_ne hk] at hl
    exact hacc k' l hl

theorem buildAvailAux_bound {N : Nat} (ra : List (Int × List Nat))
    (hra : ∀ k l, alook ra k = some l → ∀ j ∈ l, j < N) :
    ∀ (fuel : Nat) (cr : Int) (ca : List Nat) (acc : List (Int × List Nat)),
    (∀ j ∈ ca, j < N) →
    (∀ k l, alook acc k = some l → ∀ j ∈ l, j < N) →
    ∀ res, buildAvailAux ra fuel cr ca acc = .ok res →
    ∀ k l, alook res k = some l → ∀ j ∈ l, j < N
  | 0, cr, ca, acc => by
    intro _ hacc res hres
    rw [buildAvailAux] at hres
    cases hres
    exact hacc
  | fuel + 1, cr, ca, acc => by
    intro hca hacc res hres
    rw [buildAvailAux] at hres
    by_cases hcr : cr > 0
    · rw [if_pos hcr] at hres
      cases hb : alook ra cr with
      | none => rw [hb] at hres; cases hres
      | some bl =>
        rw [hb] at hres
        have hca' : ∀ j ∈ ca ++ bl, j < N := by
          intro j hj
          rcases List.mem_append.mp hj with hj | hj
          · exact hca j hj
          · exact hra cr bl hb j hj
        exact buildAvailAux_bound ra hra fuel (cr - 1) (ca ++ bl)
          (alset acc cr (ca ++ bl)) hca' (alset_bound acc cr _ hacc hca') res hres
    · rw [if_neg hcr] at hres
      cases hres
      exact hacc

theorem buildAvail_bound {N : Nat} (ra : List (Int × List Nat))
    (maxRound : Int) (hra : ∀ k l, alook ra k = some l → ∀ j ∈ l, j < N)
    (avail : List (Int × List Nat)) (h : buildAvail ra maxRound = .ok avail) :
    ∀ k l, alook avail k = some l → ∀ j ∈ l, j < N := by
  rw [buildAvail] at h
  cases hu : alook ra (-1) with
  | none => rw [hu] at h; cases h
  | some unb =>
    rw [hu] at h
    have hunb : ∀ j ∈ unb, j < N := hra (-1) unb hu
    exact buildAvailAux_bound ra hra _ _ _ _ hunb
      (alset_bound [] maxRound unb (by intro k l hl; cases hl) hunb) avail h

theorem length_bumpAllotted : ∀ (ids : List Nat) (slots : List DayData),
    (bumpAllotted slots ids).length = slots.length
  | [], slots => rfl
  | i :: t, slots => by
    have h1 := length_bumpAllotted t
      (modSlot slots i (fun s => { s with allottedGames := s.allottedGames + 1 }))
    rw [length_modSlot] at h1
    exact h1

theorem length_raiseMaxTo : ∀ (ids : List Nat) (slots : List DayData),
    (raiseMaxTo slots ids).length = slots.length
  | [], slots => rfl
  | i :: t, slots => by
    have h1 := length_raiseMaxTo t
      (modSlot slots i (fun s => { s with maxGames := some (s.allottedGames + 1) }))
    rw [length_modSlot] at h1
    exact h1

theorem sumAllotted_bumpAllotted : ∀ (ids : List Nat) (slots : List DayData),
    (∀ i ∈ ids, i < slots.length) →
    sumAllotted (bumpAllotted slots ids) = sumAllotted slots + ids.length
  | [], slots, _ => by simp [bumpAllotted, sumAllotted]
  | i :: t, slots, h => by
    have hi : i < slots.length := h i (List.mem_cons_self _ _)
    have h1 := sumAllotted_bumpAllotted t
      (modSlot slots i (fun s => { s with allottedGames := s.allottedGames + 1 }))
      (by
        intro j hj
        rw [length_modSlot]
        exact h j (List.mem_cons_of_mem _ hj))
    have h2 : sumAllotted (modSlot slots i
        (fun s => { s with allottedGames := s.allottedGames + 1 })) =
        sumAllotted slots + 1 := by
      have h3 := sumBy_modSlot (fun s => s.allottedGames) slots i
        (fun s => { s with allottedGames := s.allottedGames + 1 }) hi
      simp at h3
      simp only [sumAllotted]
      omega
    have h3 : ((i :: t).length : Int) = (t.length : Int) + 1 := by simp
    calc sumAllotted (bumpAllotted slots (i :: t))
      = sumAllotted (modSlot slots i
          (fun s => { s with allottedGames := s.allottedGames + 1 })) +
          t.length := h1
    _ = sumAllotted slots + (i :: t).length := by rw [h2, h3]; ring

theorem sumAllotted_raiseMaxTo : ∀ (ids : List Nat) (slots : List DayData),
    (∀ i ∈ ids, i < slots.length) →
    sumAllotted (raiseMaxTo slots ids) = sumAllotted slots
  | [], slots, _ => rfl
  | i :: t, slots, h => by
    have hi : i < slots.length := h i (List.mem_cons_self _ _)
    have h1 := sumAllotted_raiseMaxTo t
      (modSlot slots i (fun s => { s with maxGames := some (s.allottedGames + 1) }))
      (by
        intro j hj
        rw [length_modSlot]
        exact h j (List.mem_cons_of_mem _ hj))
    have h2 : sumAllotted (modSlot slots i
        (fun s => { s with maxGames := some (s.allottedGames + 1) })) =
        sumAllotted slots := by
      have h3 := sumBy_modSlot (fun s => s.allottedGames) slots i
        (fun s => { s with maxGames := some (s.allottedGames + 1) }) hi
      simp at h3
      simp only [sumAllotted]
      omega
    calc sumAllotted (raiseMaxTo slots (i :: t))
      = sumAllotted (modSlot slots i
          (fun s => { s with maxGames := some (s.allottedGames + 1) })) := h1
    _ = sumAllotted slots := h2

theorem ready_bumpAllotted : ∀ (ids : List Nat) (slots : List DayData),
    (∀ s ∈ slots, ReadySlot s) → ∀ s ∈ bumpAllotted slots ids, ReadySlot s
  | [], slots, h => h
  | i :: t, slots, h => by
    apply ready_bumpAllotted t
    intro s hs
    rcases mem_modSlot hs with hs | ⟨s₀, hs₀, rfl⟩
    · exact h s hs
    · rcases h s₀ hs₀ with ⟨hm, ha, hmin⟩
      refine ⟨hm, ?_, ?_⟩
      · show (0 : Int) ≤ s₀.allottedGames + 1
        omega
      · rcases hmin with hmin | ⟨m, hmin, hle⟩
        · exact Or.inl hmin
        · refine Or.inr ⟨m, hmin, ?_⟩
          show m ≤ s₀.allottedGames + 1
          omega

theorem ready_raiseMaxTo : ∀ (ids : List Nat) (slots : List DayData),
    (∀ s ∈ slots, ReadySlot s) → ∀ s ∈ raiseMaxTo slots ids, ReadySlot s
  | [], slots, h => h
  | i :: t, slots, h => by
    apply ready_raiseMaxTo t
    intro s hs
    rcases mem_modSlot hs with hs | ⟨s₀, hs₀, rfl⟩
    · exact h s hs
    · rcases h s₀ hs₀ with ⟨hm, ha, hmin⟩
      exact ⟨hm, ha, hmin⟩

theorem allotLoop_sum (avail : List (Int × List Nat)) (maxRound : Int)
    (N : Nat) (T : Int)
    (hb : ∀ k l, alook avail k = some l → ∀ i ∈ l, i < N) :
    ∀ (fuel : Nat) (st st' : AllotSt), allotLoop avail maxRound fuel st = .ok st' →
    st.slots.length = N →
    (∀ s ∈ st.slots, ReadySlot s) →
    ((0 < st.gamesLeft ∧ st.numPlusOnes = 0 ∧
        sumAllotted st.slots + st.gamesLeft = T) ∨
     (st.gamesLeft ≤ 0 ∧ sumAllotted st.slots + st.numPlusOnes = T)) →
    sumAllotted st'.slots + st'.numPlusOnes = T ∧ st'.slots.length = N ∧
      (∀ s ∈ st'.slots, ReadySlot s)
  | 0, st, st' => by
    intro h hN hR hinv
    rw [allotLoop] at h
    by_cases hg : st.gamesLeft > 0
    · rw [if_pos hg] at h
      cases h
    · rw [if_neg hg] at h
      cases h
      rcases hinv with ⟨hg', _, _⟩ | ⟨_, hsum⟩
      · omega
      · exact ⟨hsum, hN, hR⟩
  | fuel + 1, st, st' => by
    intro h hN hR hinv
    rw [allotLoop] at h
    by_cases hg : st.gamesLeft > 0
    · rw [if_pos hg] at h
      rcases hinv with ⟨_, hnp, hsum⟩ | ⟨hg', _⟩
      · cases hav : alook avail (min st.currentRound maxRound) with
        | none => rw [hav] at h; cases h
        | some ids =>
          rw [hav] at h
          try dsimp only at h
          have hids : ∀ i ∈ ids, i < st.slots.length := by
            rw [hN]; exact hb _ ids hav
          by_cases hge : st.gamesLeft ≥ (ids.length : Int)
          · rw [if_pos hge] at h
            apply allotLoop_sum avail maxRound N T hb fuel _ st' h
            · rw [length_bumpAllotted, hN]
            · exact ready_bumpAllotted ids st.slots hR
            · dsimp only
              by_cases hg2 : 0 < st.gamesLeft - (ids.length : Int)
              · left
                refine ⟨hg2, hnp, ?_⟩
                rw [sumAllotted_bumpAllotted ids st.slots hids]
                omega
              · right
                refine ⟨by omega, ?_⟩
                rw [sumAllotted_bumpAllotted ids st.slots hids]
                simp only [hnp]
                omega
          · rw [if_neg hge] at h
            apply allotLoop_sum avail maxRound N T hb fuel _ st' h
            · rw [length_raiseMaxTo, hN]
            · exact ready_raiseMaxTo ids st.slots hR
            · dsimp only
              right
              refine ⟨by omega, ?_⟩
              rw [sumAllotted_raiseMaxTo ids st.slots hids]
              omega
      · omega
    · rw [if_neg hg] at h
      cases h
      rcases hinv with ⟨hg', _, _⟩ | ⟨_, hsum⟩
      · omega
      · exact ⟨hsum, hN, hR⟩

theorem liftMin_fields (s : DayData) :
    (liftMin s).allottedGames = s.allottedGames ∧
    (liftMin s).«matches» = s.«matches» ∧
    (liftMin s).maxGames = s.maxGames := by
  unfold liftMin
  split
  · exact ⟨rfl, rfl, rfl⟩
  · exact ⟨rfl, rfl, rfl⟩

theorem liftMin_min (s : DayData) (h : ReadySlot s) :
    (liftMin s).minGames = some s.allottedGames := by
  unfold liftMin
  rcases h.2.2 with hnone | ⟨m, hm, hle⟩
  · rw [hnone]
    rfl
  · rw [hm]
    by_cases hlt : m < s.allottedGames
    · simp [hlt]
    · have hma : m = s.allottedGames := by omega
      simp [hlt]
      rw [hm, hma]

theorem finalizeSlot_spec {s s' : DayData} (h : finalizeSlot s = .ok s') :
    s'.allottedGames = s.allottedGames ∧ s'.«matches» = s.«matches» ∧
    (ReadySlot s → FinalSlot s') := by
  rw [finalizeSlot] at h
  rcases liftMin_fields s with ⟨hfa, hfm, hfx⟩
  rw [hfx] at h
  cases hmax : s.maxGames with
  | none =>
    rw [hmax] at h
    dsimp only at h
    cases h
    refine ⟨hfa, hfm, ?_⟩
    intro hr
    refine ⟨hfm.trans hr.1, by rw [hfa]; exact hr.2.1, ?_, Or.inl (by rw [hfa])⟩
    show (liftMin s).minGames = _
    rw [liftMin_min s hr, hfa]
  | some mx =>
    rw [hmax] at h
    dsimp only at h
    rw [hfa] at h
    by_cases hor : mx = s.allottedGames ∨ mx = s.allottedGames + 1
    · rw [if_pos hor] at h
      cases h
      refine ⟨hfa, hfm, ?_⟩
      intro hr
      refine ⟨hfm.trans hr.1, by rw [hfa]; exact hr.2.1, ?_, ?_⟩
      · rw [liftMin_min s hr, hfa]
      · rw [hfx, hmax, hfa]
        rcases hor with hor | hor
        · exact Or.inl (by rw [hor])
        · exact Or.inr (by rw [hor])
    · rw [if_neg hor] at h
      cases h

theorem finalizeSlots_spec : ∀ {l l' : List DayData}, finalizeSlots l = .ok l' →
    l'.length = l.length ∧ sumAllotted l' = sumAllotted l ∧
    ((∀ s ∈ l, ReadySlot s) → ∀ s' ∈ l', FinalSlot s')
  | [], l', h => by
    rw [finalizeSlots] at h
    cases h
    exact ⟨rfl, rfl, by intro _ s' hs'; cases hs'⟩
  | s :: t, l', h => by
    rw [finalizeSlots] at h
    cases hs : finalizeSlot s with
    | error e => rw [hs] at h; cases h
    | ok s1 =>
      rw [hs] at h
      cases ht : finalizeSlots t with
      | error e =>
        rw [ht] at h
        cases h
      | ok t1 =>
        rw [ht] at h
        cases h
        rcases finalizeSlot_spec hs with ⟨ha, hm, hf⟩
        rcases finalizeSlots_spec ht with ⟨hlen, hsum, hfin⟩
        refine ⟨by simp [hlen], ?_, ?_⟩
        · simp only [sumAllotted, sumBy, List.map_cons, List.sum_cons] at *
          omega
        · intro hready s' hs'
          rcases List.mem_cons.mp hs' with rfl | hs'
          · exact hf (hready s (List.mem_cons_self _ _))
          · exact hfin (fun x hx => hready x (List.mem_cons_of_mem _ hx)) s' hs'

theorem except_bind_ok {α β : Type} {e : Except Err α} {v : α}
    (h : e = .ok v) (f : α → Except Err β) : (e >>= f) = f v := by
  rw [h]; rfl

theorem except_bind_error {α β : Type} {e : Except Err α} {er : Err}
    (h : e = .error er) (f : α → Except Err β) : (e >>= f) = .error er := by
  rw [h]; rfl

theorem allotPhase_inv (inp : Inputs) (a : AllotOut)
    (h : allotPhase inp = .ok a) :
    sumAllotted a.slots + a.numPlusOnes = a.totalGames ∧
    a.totalGames = totalGamesOf inp.roundMatches ∧
    a.slots.length = (getTimeSlotsOf inp).length ∧
    (∀ s ∈ a.slots, FinalSlot s) ∧
    a.store = (buildStoreAux 0 inp.roundMatches).1 ∧
    a.pools = (buildStoreAux 0 inp.roundMatches).2 ∧
    a.rng = inp.seed := by
  rw [allotPhase] at h
  cases hav : buildAvail (buildRemainingAllotment (getTimeSlotsOf inp))
      (maxKeyI (buildRemainingAllotment (getTimeSlotsOf inp)) + 1) with
  | error e =>
    rw [getTimeSlotsOf] at hav
    rw [except_bind_error hav] at h
    cases h
  | ok avail =>
    have hb : ∀ k l, alook avail k = some l →
        ∀ i ∈ l, i < (getTimeSlotsOf inp).length :=
      buildAvail_bound _ _ (buildRemainingAllotment_bound (getTimeSlotsOf inp))
        avail hav
    rw [getTimeSlotsOf] at hav
    rw [except_bind_ok hav] at h
    dsimp only at h
    by_cases hneg : totalGamesOf inp.roundMatches -
        reservedTotal (getTimeSlots inp.startDate inp.endDate
          inp.leagueNightWeekday inp.lunchCap inp.leagueCap) < 0
    · rw [if_pos hneg] at h
      cases h
    · rw [if_neg hneg] at h
      cases hloop : allotLoop avail
          (maxKeyI (buildRemainingAllotment (getTimeSlots inp.startDate
            inp.endDate inp.leagueNightWeekday inp.lunchCap inp.leagueCap)) + 1)
          ((totalGamesOf inp.roundMatches -
            reservedTotal (getTimeSlots inp.startDate inp.endDate
              inp.leagueNightWeekday inp.lunchCap inp.leagueCap)).toNat + 1)
          { slots := reserveSlots (getTimeSlots inp.startDate inp.endDate
              inp.leagueNightWeekday inp.lunchCap inp.leagueCap),
            gamesLeft := totalGamesOf inp.roundMatches -
              reservedTotal (getTimeSlots inp.startDate inp.endDate
                inp.leagueNightWeekday inp.lunchCap inp.leagueCap),
            currentRound := 1, numPlusOnes := 0, lastRemaining := [] } with
      | error e =>
        rw [except_bind_error hloop] at h
        cases h
      | ok st =>
        have hshape := getTimeSlots_shape inp.startDate inp.endDate
          inp.leagueNightWeekday inp.lunchCap inp.leagueCap
        have hzero : ∀ s ∈ getTimeSlots inp.startDate inp.endDate
            inp.leagueNightWeekday inp.lunchCap inp.leagueCap,
            s.allottedGames = 0 := fun s hs => (hshape s hs).1
        have hsum0 := sumAllotted_reserveSlots _ hzero
        have hready0 := reserveSlots_ready _ hshape
        have hloopinv := allotLoop_sum avail
          (maxKeyI (buildRemainingAllotment (getTimeSlots inp.startDate
            inp.endDate inp.leagueNightWeekday inp.lunchCap inp.leagueCap)) + 1)
          (getTimeSlotsOf inp).length (totalGamesOf inp.roundMatches) hb
          _ _ st hloop
          (by rw [length_reserveSlots]; rfl)
          hready0
          (by
            dsimp only
            by_cases hg : 0 < totalGamesOf inp.roundMatches -
                reservedTotal (getTimeSlots inp.startDate inp.endDate
                  inp.leagueNightWeekday inp.lunchCap inp.leagueCap)
            · left
              exact ⟨hg, rfl, by rw [hsum0]; ring⟩
            · right
              refine ⟨by omega, ?_⟩
              rw [hsum0]
              omega)
        rw [except_bind_ok hloop] at h
        cases hfin : finalizeSlots st.slots with
        | error e =>
          rw [except_bind_error hfin] at h
          cases h
        | ok slots2 =>
          rw [except_bind_ok hfin] at h
          cases h
          rcases finalizeSlots_spec hfin with ⟨hlen2, hsum2, hfin2⟩
          exact ⟨by dsimp only; rw [hsum2]; exact hloopinv.1, rfl,
            by dsimp only; rw [hlen2]; exact hloopinv.2.1,
            fun s hs => hfin2 hloopinv.2.2 s hs, rfl, rfl, rfl⟩

/-- C2 amended: after the Capacity Allotter completes, the sum of
`allottedGames` over all surviving slots plus `numPlusOnes` (the games of the
terminal partial leveling round, left pending as "+1" surplus) equals
`totalGames`; the plain sum equals `totalGames` exactly when no surplus is
pending (`numPlusOnes = 0`). -/
theorem c2_amended_allotment_sum (inp : Inputs) (a : AllotOut)
    (h : allotPhase inp = .ok a) :
    sumAllotted a.slots + a.numPlusOnes = a.totalGames ∧
    a.totalGames = totalGamesOf inp.roundMatches ∧
    (a.numPlusOnes = 0 → sumAllotted a.slots = a.totalGames) := by
  rcases allotPhase_inv inp a h with ⟨h1, h2, -⟩
  exact ⟨h1, h2, fun h0 => by omega⟩

/-- Witness for C2 amended on the one-weekday scenario. -/
theorem c2_amended_witness :
    ∃ a, allotPhase inpOne = .ok a ∧
      sumAllotted a.slots + a.numPlusOnes = a.totalGames :=
  ⟨_, rfl, (c2_amended_allotment_sum inpOne _ rfl).1⟩

theorem alAppend_keys {κ : Type} [DecidableEq κ] (l : List (κ × List Nat))
    (k : κ) (i : Nat) :
    ∀ k' ∈ (alAppend l k i).map Prod.fst, k' ∈ l.map Prod.fst ∨ k' = k := by
  intro k' hk'
  rw [alAppend] at hk'
  cases hv : alook l k with
  | some v =>
    rw [hv] at hk'
    rw [alset_keys l k _ (by rw [hv]; rfl)] at hk'
    exact Or.inl hk'
  | none =>
    rw [hv] at hk'
    rw [List.map_append, List.mem_append] at hk'
    rcases hk' with hk' | hk'
    · exact Or.inl hk'
    · simp at hk'
      exact Or.inr hk'

theorem alAppend_isSome {κ : Type} [DecidableEq κ] (l : List (κ × List Nat))
    (k k' : κ) (i : Nat) (h : (alook l k').isSome) :
    (alook (alAppend l k i) k').isSome := by
  rw [alAppend]
  cases hv : alook l k with
  | some v =>
    by_cases hk : k' = k
    · subst hk
      rw [alook_alset_self]
      rfl
    · rw [alook_alset_ne hk]
      exact h
  | none =>
    rw [alook_append]
    cases hl : alook l k' with
    | some x => rfl
    | none => rw [hl] at h; cases h

theorem buildRemainingAllotment_keys (slots : List DayData)
    (hshape : ∀ s ∈ slots, TimeSlotShape s) :
    (∀ k ∈ (buildRemainingAllotment slots).map Prod.fst, k ≤ 0) ∧
    (alook (buildRemainingAllotment slots) (-1)).isSome := by
  rw [buildRemainingAllotment]
  have hbase : (∀ k ∈ ([((0 : Int), idsWhere slots
        (fun s => decide (availability s = .hitMax))), (-1, [])].map Prod.fst),
        k ≤ 0) ∧
      (alook [((0 : Int), idsWhere slots
        (fun s => decide (availability s = .hitMax))), (-1, [])] (-1)).isSome := by
    constructor
    · intro k hk
      simp at hk
      rcases hk with rfl | rfl <;> omega
    · rfl
  have hfold : ∀ (ids : List Nat) (ra : List (Int × List Nat)),
      (∀ i ∈ ids, i < slots.length) →
      (∀ k ∈ ra.map Prod.fst, k ≤ 0) → (alook ra (-1)).isSome →
      (∀ k ∈ ((ids.foldl (fun ra i =>
        let s := getSlot slots i
        match s.maxGames with
        | none => alAppend ra (-1) i
        | some mx =>
          if s.minGames = some mx then alAppend ra 0 i
          else alAppend ra (mx - s.minGames.getD 0) i) ra)).map Prod.fst, k ≤ 0) ∧
      (alook (ids.foldl (fun ra i =>
        let s := getSlot slots i
        match s.maxGames with
        | none => alAppend ra (-1) i
        | some mx =>
          if s.minGames = some mx then alAppend ra 0 i
          else alAppend ra (mx - s.minGames.getD 0) i) ra) (-1)).isSome := by
    intro ids
    induction ids with
    | nil => intro ra _ hk hs; exact ⟨hk, hs⟩
    | cons i t ih =>
      intro ra hids hk hs
      rw [List.foldl_cons]
      have hi : i < slots.length := hids i (List.mem_cons_self _ _)
      have hmem := getSlot_mem hi
      rcases hshape _ hmem with ⟨-, hm, hcase⟩
      rcases hcase with ⟨c, hc, hmin, hmax⟩ | ⟨hmin, hmax⟩
      · simp only [hmax, hmin, reduceIte]
        apply ih _ (fun j hj => hids j (List.mem_cons_of_mem _ hj))
        · intro k hk'
          rcases alAppend_keys ra 0 i k hk' with hk' | rfl
          · exact hk k hk'
          · omega
        · exact alAppend_isSome ra 0 (-1) i hs
      · simp only [hmax, hmin]
        apply ih _ (fun j hj => hids j (List.mem_cons_of_mem _ hj))
        · intro k hk'
          rcases alAppend_keys ra (-1) i k hk' with hk' | rfl
          · exact hk k hk'
          · omega
        · exact alAppend_isSome ra (-1) (-1) i hs
  exact hfold _ _
    (by
      intro i hi
      rcases List.mem_append.mp hi with hi | hi
      · exact idsWhere_lt slots _ i hi
      · exact idsWhere_lt slots _ i hi)
    hbase.1 hbase.2

theorem maxKeyI_le (ra : List (Int × List Nat))
    (h : ∀ k ∈ ra.map Prod.fst, k ≤ 0) : maxKeyI ra ≤ 0 := by
  rw [maxKeyI]
  have : ∀ (ks : List Int) (acc : Int), (∀ k ∈ ks, k ≤ 0) → acc ≤ 0 →
      ks.foldl max acc ≤ 0 := by
    intro ks
    induction ks with
    | nil => intro acc _ ha; exact ha
    | cons k t ih =>
      intro acc hk ha
      rw [List.foldl_cons]
      exact ih _ (fun x hx => hk x (List.mem_cons_of_mem _ hx))
        (by
          have := hk k (List.mem_cons_self _ _)
          simp [max_le_iff]
          omega)
  exact this _ _ h (by omega)

theorem buildAvailAux_nonpos (ra : List (Int × List Nat)) :
    ∀ (fuel : Nat) (cr : Int) (ca : List Nat) (acc : List (Int × List Nat)),
    cr ≤ 0 → buildAvailAux ra fuel cr ca acc = .ok acc
  | 0, cr, ca, acc, _ => rfl
  | fuel + 1, cr, ca, acc, h => by
    rw [buildAvailAux, if_neg (by omega)]

theorem buildAvail_shaped (slots : List DayData)
    (hshape : ∀ s ∈ slots, TimeSlotShape s) :
    ∃ unb, buildAvail (buildRemainingAllotment slots)
      (maxKeyI (buildRemainingAllotment slots) + 1) =
      .ok [(maxKeyI (buildRemainingAllotment slots) + 1, unb)] := by
  rcases buildRemainingAllotment_keys slots hshape with ⟨hk, hs⟩
  cases hu : alook (buildRemainingAllotment slots) (-1) with
  | none => rw [hu] at hs; cases hs
  | some unb =>
    refine ⟨unb, ?_⟩
    rw [buildAvail, hu]
    exact buildAvailAux_nonpos _ _ _ _ _ (by have := maxKeyI_le _ hk; omega)

theorem buildStoreAux_unassigned :
    ∀ (rm : List (Nat × List (String × String))) (base : Nat),
    ∀ m ∈ (buildStoreAux base rm).1, m.slot = none ∧ m.round = none
  | [], base => by
    intro m hm
    simp [buildStoreAux] at hm
  | (r, ms) :: t, base => by
    intro m hm
    rw [buildStoreAux] at hm
    dsimp only at hm
    rcases List.mem_append.mp hm with hm | hm
    · rcases List.mem_map.mp hm with ⟨p, -, rfl⟩
      exact ⟨rfl, rfl⟩
    · exact buildStoreAux_unassigned t (base + ms.length) m hm

/-- C4: when `totalGames` cannot cover the sum of the mandatory slot
minimums, the run fails with the allotment-infeasible error (`ValueError` in
the source, the spec's `AllotmentInfeasible`), and nothing is assigned: the
failure happens at the feasibility check, where every slot's match list is
still empty and every match's slot and round fields are still unset. -/
theorem c4_infeasible_assigns_nothing (inp : Inputs)
    (hlt : totalGamesOf inp.roundMatches < reservedTotal (getTimeSlotsOf inp)) :
    makeSchedule inp = .error .allotmentInfeasible ∧
    allotPhase inp = .error .allotmentInfeasible ∧
    (∀ s ∈ reserveState inp, s.«matches» = []) ∧
    (∀ m ∈ initStoreOf inp, m.slot = none ∧ m.round = none) := by
  have hallot : allotPhase inp = .error .allotmentInfeasible := by
    rw [allotPhase]
    rcases buildAvail_shaped (getTimeSlotsOf inp) (getTimeSlotsOf_shape inp)
      with ⟨unb, hav⟩
    rw [getTimeSlotsOf] at hav
    rw [except_bind_ok hav]
    dsimp only
    rw [if_pos (by rw [getTimeSlotsOf] at hlt; omega)]
  have hwalk : afterWalk inp = .error .allotmentInfeasible := by
    rw [afterWalk, except_bind_error hallot]
  have hdist : afterDistribute inp = .error .allotmentInfeasible := by
    rw [afterDistribute, except_bind_error hwalk]
  refine ⟨by rw [makeSchedule, except_bind_error hdist], hallot, ?_, ?_⟩
  · intro s hs
    exact (reserveSlots_ready _ (getTimeSlotsOf_shape inp) s hs).1
  · exact buildStoreAux_unassigned inp.roundMatches 0

/-- Witness for C4: a one-weekday season whose lunch slot demands two games
while only one match exists. -/
theorem c4_infeasible_witness :
    totalGamesOf inpShort.roundMatches < reservedTotal (getTimeSlotsOf inpShort) ∧
    makeSchedule inpShort = .error .allotmentInfeasible ∧
    (∀ s ∈ reserveState inpShort, s.«matches» = []) ∧
    (∀ m ∈ initStoreOf inpShort, m.slot = none ∧ m.round = none) :=
  ⟨by decide,
   (c4_infeasible_assigns_nothing inpShort (by decide)).1,
   (c4_infeasible_assigns_nothing inpShort (by decide)).2.2.1,
   (c4_infeasible_assigns_nothing inpShort (by decide)).2.2.2⟩

theorem allotLoop_terminates (avail : List (Int × List Nat)) (maxRound : Int)
    (u : Nat)
    (hu : ∀ k : Int, 1 ≤ k → ∃ l, alook avail (min k maxRound) = some l ∧ u ∈ l) :
    ∀ (fuel : Nat) (st : AllotSt), st.gamesLeft.toNat ≤ fuel →
    1 ≤ st.currentRound →
    ∃ st', allotLoop avail maxRound fuel st = .ok st'
  | 0, st => by
    intro hf hr
    rw [allotLoop]
    rw [if_neg (by omega)]
    exact ⟨st, rfl⟩
  | fuel + 1, st => by
    intro hf hr
    rw [allotLoop]
    by_cases hg : st.gamesLeft > 0
    · rw [if_pos hg]
      rcases hu st.currentRound hr with ⟨l, hl, hul⟩
      rw [hl]
      dsimp only
      have hD : 1 ≤ (l.length : Int) := by
        have := List.length_pos.mpr (List.ne_nil_of_mem hul)
        omega
      by_cases hge : st.gamesLeft ≥ (l.length : Int)
      · rw [if_pos hge]
        exact allotLoop_terminates avail maxRound u hu fuel _
          (by dsimp only; omega) (by dsimp only; omega)
      · rw [if_neg hge]
        exact allotLoop_terminates avail maxRound u hu fuel _
          (by dsimp only; omega) (by dsimp only; omega)
    · rw [if_neg hg]
      exact ⟨st, rfl⟩

theorem capBuckets_nonneg (avail : List (Int × List Nat)) :
    ∀ (fuel : Nat) (k : Int), 0 ≤ capBuckets avail fuel k
  | 0, k => le_refl 0
  | fuel + 1, k => by
    rw [capBuckets]
    have := capBuckets_nonneg avail fuel (k + 1)
    omega

theorem allotLoop_diverges (avail : List (Int × List Nat)) (maxRound : Int)
    (hmax : alook avail maxRound = some [])
    (hlook : ∀ k : Int, 1 ≤ k → k < maxRound → (alook avail k).isSome) :
    ∀ (fuel : Nat) (st : AllotSt), 1 ≤ st.currentRound →
    capBuckets avail (maxRound - st.currentRound).toNat st.currentRound <
      st.gamesLeft →
    allotLoop avail maxRound fuel st = .error .fuelOut
  | 0, st => by
    intro hr hcap
    have := capBuckets_nonneg avail (maxRound - st.currentRound).toNat
      st.currentRound
    rw [allotLoop, if_pos (by omega)]
  | fuel + 1, st => by
    intro hr hcap
    have hnn := capBuckets_nonneg avail (maxRound - st.currentRound).toNat
      st.currentRound
    rw [allotLoop, if_pos (by omega)]
    by_cases hcr : maxRound ≤ st.currentRound
    · have hmin : min st.currentRound maxRound = maxRound :=
        min_eq_right hcr
      rw [hmin, hmax]
      dsimp only
      have hlen : (([] : List Nat).length : Int) = 0 := rfl
      rw [if_pos (by rw [hlen]; omega)]
      apply allotLoop_diverges avail maxRound hmax hlook fuel _
        (by dsimp only; omega)
      dsimp only
      have h0 : (maxRound - (st.currentRound + 1)).toNat = 0 := by omega
      rw [h0]
      simp only [capBuckets]
      omega
    · push_neg at hcr
      have hmin : min st.currentRound maxRound = st.currentRound :=
        min_eq_left (by omega)
      rw [hmin]
      cases hl : alook avail st.currentRound with
      | none =>
        exfalso
        have := hlook st.currentRound hr hcr
        rw [hl] at this
        cases this
      | some l =>
        have hstep : (maxRound - st.currentRound).toNat =
            (maxRound - (st.currentRound + 1)).toNat + 1 := by omega
        rw [hstep, capBuckets, hl] at hcap
        dsimp only [Option.getD] at hcap
        have hcap' := capBuckets_nonneg avail
          (maxRound - (st.currentRound + 1)).toNat (st.currentRound + 1)
        dsimp only
        rw [if_pos (by omega)]
        apply allotLoop_diverges avail maxRound hmax hlook fuel _
          (by dsimp only; omega)
        dsimp only
        omega

theorem buildSlotsAux_weekday (ln : Nat) (lc gc : Int) :
    ∀ (fuel cur d : Nat), cur ≤ d → d < cur + fuel → d % 7 ≤ 4 →
    ({ date := d, group := none, «matches» := [], minGames := none,
       maxGames := none, allottedGames := 0 } : DayData) ∈
      buildSlotsAux ln lc gc fuel cur
  | 0, cur, d => by
    intro h1 h2 _
    omega
  | fuel + 1, cur, d => by
    intro h1 h2 hw
    rw [buildSlotsAux]
    by_cases hcd : cur = d
    · subst hcd
      rw [List.mem_append, if_pos hw]
      left
      exact List.mem_cons_self _ _
    · rw [List.mem_append]
      right
      exact buildSlotsAux_weekday ln lc gc fuel (cur + 1) d (by omega)
        (by omega) hw

/-- C10: (a) the leveling loop terminates whenever some slot id sits in every
eligibility bucket — which is the case when a no-maximum slot exists, since
the backward accumulation puts the unlimited bucket inside every round's
bucket; `gamesLeft.toNat` steps suffice because every pass then hands out at
least one game; (b) every calendar with at least one weekday in range
produces such an unconstrained (`group = none`, no `maxGames`) slot; (c) if
instead the unlimited bucket is empty (every slot bounded) and `gamesLeft`
exceeds the total remaining bounded capacity, the loop never terminates (it
runs out of any amount of fuel with `gamesLeft` still positive). -/
theorem c10_leveling_loop_termination :
    (∀ (avail : List (Int × List Nat)) (maxRound : Int) (u : Nat) (st : AllotSt),
      (∀ k : Int, 1 ≤ k → ∃ l, alook avail (min k maxRound) = some l ∧ u ∈ l) →
      1 ≤ st.currentRound →
      ∃ st', allotLoop avail maxRound st.gamesLeft.toNat st = .ok st') ∧
    (∀ (inp : Inputs) (d : Nat), inp.startDate ≤ d → d ≤ inp.endDate →
      d % 7 ≤ 4 →
      ∃ s ∈ getTimeSlotsOf inp, s.maxGames = none ∧ s.group = none) ∧
    (∀ (avail : List (Int × List Nat)) (maxRound : Int) (st : AllotSt),
      alook avail maxRound = some [] →
      (∀ k : Int, 1 ≤ k → k < maxRound → (alook avail k).isSome) →
      1 ≤ st.currentRound →
      capBuckets avail (maxRound - st.currentRound).toNat st.currentRound <
        st.gamesLeft →
      ∀ fuel, allotLoop avail maxRound fuel st = .error .fuelOut) := by
  refine ⟨?_, ?_, ?_⟩
  · intro avail maxRound u st hu hr
    exact allotLoop_terminates avail maxRound u hu st.gamesLeft.toNat st
      (le_refl _) hr
  · intro inp d h1 h2 hw
    refine ⟨{ date := d, group := none, «matches» := [], minGames := none,
              maxGames := none, allottedGames := 0 }, ?_, rfl, rfl⟩
    rw [getTimeSlotsOf, getTimeSlots, List.mem_filter]
    exact ⟨buildSlotsAux_weekday _ _ _ _ _ d h1 (by omega) hw, rfl⟩
  · intro avail maxRound st hmax hlook hr hcap fuel
    exact allotLoop_diverges avail maxRound hmax hlook fuel st hr hcap

/-- Witness for C10: part (a) on a one-bucket table holding slot 0 with three
games to hand out, and part (c) on the empty-bucket table with one game. -/
theorem c10_leveling_loop_termination_witness :
    (∃ st', allotLoop [((1 : Int), [0])] 1 (3 : Int).toNat
      { slots := [], gamesLeft := 3, currentRound := 1, numPlusOnes := 0,
        lastRemaining := [] } = .ok st') ∧
    allotLoop [((1 : Int), ([] : List Nat))] 1 5
      { slots := [], gamesLeft := 1, currentRound := 1, numPlusOnes := 0,
        lastRemaining := [] } = .error .fuelOut := by
  constructor
  · exact c10_leveling_loop_termination.1 [((1 : Int), [0])] 1 0
      { slots := [], gamesLeft := 3, currentRound := 1, numPlusOnes := 0,
        lastRemaining := [] }
      (by
        intro k hk
        refine ⟨[0], ?_, by decide⟩
        have : min k 1 = 1 := by omega
        rw [this]
        rfl)
      (by decide)
  · exact c10_leveling_loop_termination.2.2 [((1 : Int), ([] : List Nat))] 1
      { slots := [], gamesLeft := 1, currentRound := 1, numPlusOnes := 0,
        lastRemaining := [] }
      rfl
      (by intro k h1 h2; omega)
      (by decide)
      (by decide)
      5

theorem alook_mem {κ α : Type} [DecidableEq κ] :
    ∀ {l : List (κ × α)} {k : κ} {v : α}, alook l k = some v → (k, v) ∈ l := by
  intro l
  induction l with
  | nil => intro k v h; cases h
  | cons p t ih =>
    intro k v h
    rw [alook] at h
    by_cases hk : p.1 = k
    · rw [if_pos hk] at h
      cases h
      have hp : (k, p.2) = p := by rw [← hk]
      rw [hp]
      exact List.mem_cons_self _ _
    · rw [if_neg hk] at h
      exact List.mem_cons_of_mem _ (ih h)

theorem mem_alset {κ α : Type} [DecidableEq κ] :
    ∀ (l : List (κ × α)) (k : κ) (v : α), ∀ p ∈ alset l k v, p ∈ l ∨ p = (k, v)
  | [], k, v => by
    intro p hp
    simp [alset] at hp
    exact Or.inr hp
  | (k₀, v₀) :: t, k, v => by
    intro p hp
    rw [alset] at hp
    by_cases hk : k₀ = k
    · rw [if_pos hk] at hp
      rcases List.mem_cons.mp hp with rfl | hp
      · exact Or.inr rfl
      · exact Or.inl (List.mem_cons_of_mem _ hp)
    · rw [if_neg hk] at hp
      rcases List.mem_cons.mp hp with rfl | hp
      · exact Or.inl (List.mem_cons_self _ _)
      · rcases mem_alset t k v p hp with h | h
        · exact Or.inl (List.mem_cons_of_mem _ h)
        · exact Or.inr h

theorem appendEntry_state (st : WalkSt) (r c : Nat) (d : Int) :
    (appendEntry st r c d).slots = st.slots ∧
    (appendEntry st r c d).remaining = st.remaining ∧
    (appendEntry st r c d).cur = st.cur ∧
    (appendEntry st r c d).used = st.used :=
  ⟨rfl, rfl, rfl, rfl⟩

theorem appendEntry_planSum_self (st : WalkSt) (r c : Nat) (d : Int) :
    planSum (appendEntry st r c d).plan r = planSum st.plan r + d := by
  show planSum (alset st.plan r _) r = _
  rw [planSum_alset_self, entriesTotal_append]
  rfl

theorem appendEntry_planSum_ne (st : WalkSt) (r c : Nat) (d : Int) {r' : Nat}
    (h : r' ≠ r) :
    planSum (appendEntry st r c d).plan r' = planSum st.plan r' := by
  show planSum (alset st.plan r _) r' = _
  rw [planSum_alset_ne _ h]

theorem appendEntry_planSumSlot (st : WalkSt) (r c : Nat) (d : Int) (i : Nat) :
    planSumSlot (appendEntry st r c d).plan i =
      planSumSlot st.plan i + (if c = i then d else 0) := by
  show planSumSlot (alset st.plan r _) i = _
  rw [planSumSlot_alset, entrySumSlot_append]
  ring

theorem appendEntry_planGrand (st : WalkSt) (r c : Nat) (d : Int) :
    planGrand (appendEntry st r c d).plan = planGrand st.plan + d := by
  show planGrand (alset st.plan r _) = _
  rw [planGrand_alset, entriesTotal_append]
  ring

theorem appendEntry_entry_pred (P : Nat × Int → Prop) (st : WalkSt)
    (r c : Nat) (d : Int) (hP : ∀ rp ∈ st.plan, ∀ e ∈ rp.2, P e)
    (hcd : P (c, d)) :
    ∀ rp ∈ (appendEntry st r c d).plan, ∀ e ∈ rp.2, P e := by
  intro rp hrp e he
  rcases mem_alset _ _ _ rp hrp with hrp | rfl
  · exact hP rp hrp e he
  · rcases List.mem_append.mp he with he | he
    · cases hv : alook st.plan r with
      | some v =>
        rw [hv] at he
        exact hP (r, v) (alook_mem hv) e he
      | none =>
        rw [hv] at he
        cases he
    · simp at he
      subst he
      exact hcd

theorem decidePlusOne_fields {roundNum : Nat} {matchesLeft : Int}
    {st : WalkSt} {b : Bool} {st' : WalkSt}
    (h : decidePlusOne roundNum matchesLeft st = .ok (b, st')) :
    st'.slots = st.slots ∧ st'.remaining = st.remaining ∧ st'.cur = st.cur ∧
    st'.used = st.used ∧ st'.plan = st.plan := by
  rw [decidePlusOne] at h
  cases hq : alook st.roundAllot roundNum with
  | none => rw [hq] at h; cases h
  | some q =>
    rw [hq] at h
    dsimp only at h
    by_cases hq0 : q ≠ 0
    · rw [if_pos hq0] at h
      cases h
      exact ⟨rfl, rfl, rfl, rfl, rfl⟩
    · rw [if_neg hq0] at h
      by_cases h1 : st.extraPlusOnes = 0
      · rw [if_pos h1] at h
        cases h
        exact ⟨rfl, rfl, rfl, rfl, rfl⟩
      · rw [if_neg h1] at h
        by_cases h2 : st.extraPlusOnes =
            ((st.possiblePlusOnes.filter
              (fun i => st.remaining.contains i)).length : Int) + 1 -
              contigMandatory st.roundAllot st.roundAllot.length (roundNum + 1)
        · rw [if_pos h2] at h
          cases h
          exact ⟨rfl, rfl, rfl, rfl, rfl⟩
        · rw [if_neg h2] at h
          by_cases h3 : matchesLeft = 0
          · rw [if_pos h3] at h
            cases h
            exact ⟨rfl, rfl, rfl, rfl, rfl⟩
          · rw [if_neg h3] at h
            by_cases h4 : matchesLeft = 1
            · rw [if_pos h4] at h
              cases h
              exact ⟨rfl, rfl, rfl, rfl, rfl⟩
            · rw [if_neg h4] at h
              cases hrp : randProbLe st.rng st.extraPlusOnes
                  (((st.possiblePlusOnes.filter
                    (fun i => st.remaining.contains i)).length : Int) + 1 -
                    contigMandatory st.roundAllot st.roundAllot.length
                      (roundNum + 1)) with
              | error e =>
                rw [except_bind_error hrp] at h
                cases h
              | ok br =>
                rw [except_bind_ok hrp] at h
                try dsimp only at h
                by_cases hb : br.1 = true
                · rw [if_pos hb] at h
                  cases h
                  exact ⟨rfl, rfl, rfl, rfl, rfl⟩
                · rw [if_neg hb] at h
                  cases h
                  exact ⟨rfl, rfl, rfl, rfl, rfl⟩

theorem popIfNeeded_inv {n : Nat} {st0 st1 : WalkSt} {c : Nat}
    (h : popIfNeeded st0 = .ok (st1, c)) (hinv : WalkInv n st0) :
    WalkInv n st1 ∧ st1.cur = some c ∧ st1.plan = st0.plan ∧
    st1.slots = st0.slots ∧ st1.rng = st0.rng := by
  rw [popIfNeeded] at h
  by_cases hpop : st0.used ≥ curMax st0
  · rw [if_pos hpop] at h
    cases hrem : st0.remaining with
    | nil => rw [hrem] at h; cases h
    | cons c0 rest =>
      rw [hrem] at h
      cases h
      have hc0n : c < n :=
        hinv.rem_lt c (by rw [hrem]; exact List.mem_cons_self _ _)
      have hc0rest : c ∉ rest := by
        have := hinv.rem_nodup
        rw [hrem] at this
        exact (List.nodup_cons.mp this).1
      rcases hinv.rem_fresh c (by rw [hrem]; exact List.mem_cons_self _ _)
        with ⟨⟨a, ha, hmin, hor⟩, hpss0⟩
      refine ⟨?_, rfl, rfl, rfl, rfl⟩
      refine ⟨hinv.len, hinv.nil_matches, ?_, ?_, ?_, ?_, ?_, ?_,
        hinv.plan_ids, hinv.plan_nonneg⟩
      · intro i hi
        exact hinv.rem_lt i (by rw [hrem]; exact List.mem_cons_of_mem _ hi)
      · have := hinv.rem_nodup
        rw [hrem] at this
        exact (List.nodup_cons.mp this).2
      · intro i hi
        exact hinv.rem_fresh i (by rw [hrem]; exact List.mem_cons_of_mem _ hi)
      · intro c' hc'
        cases hc'
        refine ⟨hc0n, hc0rest, le_refl 0, ?_, hpss0⟩
        rcases hor with hmax | hmax
        · exact ⟨a, a, hmin, hmax, ha, le_refl a, by omega⟩
        · exact ⟨a, a + 1, hmin, hmax, ha, by omega, by omega⟩
      · intro hnone
        cases hnone
      · intro i hi hirest hicur
        have hic0 : i ≠ c := by
          intro hic
          exact hicur (by rw [hic])
        have hiold : i ∉ st0.remaining := by
          rw [hrem]
          intro hmem
          rcases List.mem_cons.mp hmem with rfl | hmem
          · exact hic0 rfl
          · exact hirest hmem
        cases hcur : st0.cur with
        | none =>
          rcases hinv.past i hi hiold (by rw [hcur]; intro hx; cases hx)
            with ⟨m, h1, h2, h3⟩
          exact ⟨m, h1, h2, h3⟩
        | some c1 =>
          by_cases hic1 : i = c1
          · subst hic1
            rcases hinv.cur_ok i hcur with ⟨-, -, hu0, ⟨mn, mx, hmn, hmx,
              hule, hmnmx, hmx1⟩, hpss⟩
            have hcmax : curMax st0 = mx := by
              rw [curMax, hcur]
              show (getSlot st0.slots i).maxGames.getD 0 = mx
              rw [hmx]
              rfl
            rw [hcmax] at hpop
            have heq : mn = mx ∧ st0.used = mn := by omega
            refine ⟨mn, hmn, ?_, ?_⟩
            · rw [hmx, heq.1]
            · rw [hpss, heq.2]
          · rcases hinv.past i hi hiold
              (by rw [hcur]; intro hx; cases hx; exact hic1 rfl)
              with ⟨m, h1, h2, h3⟩
            exact ⟨m, h1, h2, h3⟩
  · rw [if_neg hpop] at h
    cases hcur : st0.cur with
    | none => rw [hcur] at h; cases h
    | some c1 =>
      rw [hcur] at h
      cases h
      exact ⟨hinv, hcur, rfl, rfl, rfl⟩

theorem walkInv_after_step {n r c : Nat} {st1 st4 : WalkSt} {d : Int}
    (hinv1 : WalkInv n st1) (hcur1 : st1.cur = some c)
    (hrem4 : st4.remaining = st1.remaining)
    (hcur4 : st4.cur = some c)
    (hplan4 : st4.plan = st1.plan)
    (hused4 : st4.used = st1.used + d)
    (hlen : st4.slots.length = st1.slots.length)
    (hnil : ∀ s ∈ st4.slots, s.«matches» = [])
    (hne : ∀ i, i ≠ c → getSlot st4.slots i = getSlot st1.slots i)
    (hcslot : ∃ mn' mx' : Int, (getSlot st4.slots c).minGames = some mn' ∧
      (getSlot st4.slots c).maxGames = some mx' ∧ st4.used ≤ mn' ∧
      mn' ≤ mx' ∧ mx' ≤ mn' + 1)
    (hd : 0 ≤ d) :
    WalkInv n (appendEntry st4 r c d) := by
  obtain ⟨hcn, hcnr, hu0, -, hpss⟩ := hinv1.cur_ok c hcur1
  refine ⟨?_, ?_, ?_, ?_, ?_, ?_, ?_, ?_, ?_, ?_⟩
  · show st4.slots.length = n
    rw [hlen, hinv1.len]
  · show ∀ s ∈ st4.slots, s.«matches» = []
    exact hnil
  · show ∀ i ∈ st4.remaining, i < n
    rw [hrem4]
    exact hinv1.rem_lt
  · show st4.remaining.Nodup
    rw [hrem4]
    exact hinv1.rem_nodup
  · show ∀ i ∈ st4.remaining, SlotRange (getSlot st4.slots i) ∧
      planSumSlot (appendEntry st4 r c d).plan i = 0
    rw [hrem4]
    intro i hi
    have hic : i ≠ c := fun hic => hcnr (hic ▸ hi)
    rcases hinv1.rem_fresh i hi with ⟨hsr, hps⟩
    refine ⟨by rw [hne i hic]; exact hsr, ?_⟩
    rw [appendEntry_planSumSlot]
    show planSumSlot st4.plan i + _ = 0
    rw [hplan4, if_neg (fun hc => hic hc.symm), hps]
    ring
  · intro c' hc'
    have hcc : c' = c := by
      have h2 : st4.cur = some c' := hc'
      rw [hcur4] at h2
      cases h2
      rfl
    subst hcc
    refine ⟨hcn, ?_, ?_, hcslot, ?_⟩
    · show c' ∉ st4.remaining
      rw [hrem4]
      exact hcnr
    · show (0 : Int) ≤ st4.used
      omega
    · rw [appendEntry_planSumSlot]
      show planSumSlot st4.plan c' + _ = st4.used
      rw [hplan4, if_pos rfl, hpss]
      omega
  · intro hnone
    have h2 : st4.cur = none := hnone
    rw [hcur4] at h2
    cases h2
  · intro i hi hirem hicur
    have hic : i ≠ c := by
      intro hic
      exact hicur (by show st4.cur = some i; rw [hcur4, hic])
    have hirem2 : i ∉ st1.remaining := by
      have h3 : i ∉ st4.remaining := hirem
      rw [hrem4] at h3
      exact h3
    rcases hinv1.past i hi hirem2
      (by rw [hcur1]; intro hx; cases hx; exact hic rfl) with ⟨m, h1, h2, h3⟩
    refine ⟨m, ?_, ?_, ?_⟩
    · show (getSlot st4.slots i).minGames = some m
      rw [hne i hic]
      exact h1
    · show (getSlot st4.slots i).maxGames = some m
      rw [hne i hic]
      exact h2
    · rw [appendEntry_planSumSlot]
      show planSumSlot st4.plan i + _ = m
      rw [hplan4, if_neg (fun hc => hic hc.symm)]
      omega
  · show ∀ rp ∈ (appendEntry st4 r c d).plan, ∀ e ∈ rp.2, e.1 < n
    have hids : ∀ rp ∈ st4.plan, ∀ e ∈ rp.2, e.1 < n := by
      rw [hplan4]
      exact hinv1.plan_ids
    exact appendEntry_entry_pred _ _ _ _ _ hids (by show c < n; exact hcn)
  · show ∀ rp ∈ (appendEntry st4 r c d).plan, ∀ e ∈ rp.2, (0 : Int) ≤ e.2
    have hnn : ∀ rp ∈ st4.plan, ∀ e ∈ rp.2, (0 : Int) ≤ e.2 := by
      rw [hplan4]
      exact hinv1.plan_nonneg
    exact appendEntry_entry_pred _ _ _ _ _ hnn (by show (0 : Int) ≤ d; exact hd)
theorem alook_isSome_of_mem_keys {κ α : Type} [DecidableEq κ] :
    ∀ {l : List (κ × α)} {k : κ}, k ∈ l.map Prod.fst → (alook l k).isSome
  | [], k, h => by cases h
  | (k₀, v₀) :: t, k, h => by
    by_cases hk : k₀ = k
    · simp [alook, hk]
    · rw [alook, if_neg hk]
      rcases List.mem_map.mp h with ⟨p, hp, hpk⟩
      rcases List.mem_cons.mp hp with rfl | hp
    
      · exact absurd hpk hk
      · exact alook_isSome_of_mem_keys (hpk ▸ List.mem_map_of_mem _ hp)

theorem appendEntry_keys (st : WalkSt) (r c : Nat) (d : Int)
    (h : (alook st.plan r).isSome) :
    (appendEntry st r c d).plan.map Prod.fst = st.plan.map Prod.fst :=
  alset_keys _ _ _ h

theorem curMin_eq {st : WalkSt} {c : Nat} (h : st.cur = some c) :
    curMin st = (getSlot st.slots c).minGames.getD 0 := by
  rw [curMin, h]

theorem curMax_eq {st : WalkSt} {c : Nat} (h : st.cur = some c) :
    curMax st = (getSlot st.slots c).maxGames.getD 0 := by
  rw [curMax, h]

theorem walkIter_inv {n r : Nat} {st0 st' : WalkSt} {ml0 ml' : Int}
    (h : walkIter r st0 ml0 = .ok (st', ml')) (hinv : WalkInv n st0)
    (hml : 0 ≤ ml0) (hkey : r ∈ st0.plan.map Prod.fst) :
    WalkInv n st' ∧
    planSum st'.plan r = planSum st0.plan r + (ml0 - ml') ∧
    (∀ r', r' ≠ r → planSum st'.plan r' = planSum st0.plan r') ∧
    planGrand st'.plan = planGrand st0.plan + (ml0 - ml') ∧
    st'.plan.map Prod.fst = st0.plan.map Prod.fst := by
  rw [walkIter] at h
  cases hpop : popIfNeeded st0 with
  | error e => rw [except_bind_error hpop] at h; cases h
  | ok pr =>
    obtain ⟨st1, c⟩ := pr
    rw [except_bind_ok hpop] at h
    dsimp only at h
    obtain ⟨hinv1, hcur1, hplan1, hslots1, -⟩ := popIfNeeded_inv hpop hinv
    obtain ⟨hcn, hcnr, hu0, ⟨mn, mx, hmn, hmx, hule, hmnmx, hmx1⟩, hpss⟩ :=
      hinv1.cur_ok c hcur1
    have hcmin : curMin st1 = mn := by
      rw [curMin_eq hcur1, hmn]; rfl
    by_cases hge : ml0 ≥ curMin st1 - st1.used
    · rw [if_pos hge] at h
      try dsimp only at h
      by_cases hgt : curMax { st1 with used := st1.used + (curMin st1 - st1.used) } >
          curMin { st1 with used := st1.used + (curMin st1 - st1.used) }
      · rw [if_pos hgt] at h
        have hcmax : curMax st1 = mx := by
          rw [curMax_eq hcur1, hmx]; rfl
        have hmxgt : mx = mn + 1 := by
          have h2 : curMax st1 > curMin st1 := hgt
          rw [hcmin, hcmax] at h2
          omega
        cases hdec : decidePlusOne r (ml0 - (curMin st1 - st1.used))
            { st1 with used := st1.used + (curMin st1 - st1.used) } with
        | error e => rw [except_bind_error hdec] at h; cases h
        | ok db =>
          obtain ⟨b, st3⟩ := db
          rw [except_bind_ok hdec] at h
          try dsimp only at h
          obtain ⟨hs3, hr3, hc3, hu3, hp3⟩ := decidePlusOne_fields hdec
          have hu3' : st3.used = st1.used + (curMin st1 - st1.used) := hu3
          have hs3' : st3.slots = st1.slots := hs3
          have hr3' : st3.remaining = st1.remaining := hr3
          have hc3' : st3.cur = some c := by
            have h2 : st3.cur = st1.cur := hc3
            rw [h2, hcur1]
          have hp3' : st3.plan = st1.plan := hp3
          have hcls : c < st3.slots.length := by
            rw [hs3', hinv1.len]; exact hcn
          cases hb : b
          · rw [hb] at h
            rw [if_neg (by simp)] at h
            cases h
            refine ⟨?_, ?_, ?_, ?_, ?_⟩
            · refine walkInv_after_step hinv1 hcur1 hr3' hc3' hp3' ?_ ?_ ?_ ?_ ?_ ?_
              · show st3.used = st1.used + (curMin st1 - st1.used)
                exact hu3'
              · dsimp only
                rw [length_modSlot, hs3']
              · intro s hs
                dsimp only at hs
                rcases mem_modSlot hs with hs | ⟨s₀, hs₀, rfl⟩
                · exact hinv1.nil_matches s (by rw [hs3'] at hs; exact hs)
                · exact hinv1.nil_matches s₀ (by rw [hs3'] at hs₀; exact hs₀)
              · intro i hic
                dsimp only
                rw [getSlot_modSlot_ne _ (fun hx => hic hx.symm), hs3']
              · refine ⟨mn, mx - 1, ?_, ?_, ?_, ?_, ?_⟩
                · dsimp only
                  rw [getSlot_modSlot_self _ hcls, hs3']
                  exact hmn
                · dsimp only
                  rw [getSlot_modSlot_self _ hcls, hs3', hmx]
                  rfl
                · show st3.used ≤ mn
                  rw [hu3', hcmin]
                  omega
                · omega
                · omega
              · rw [hcmin]; omega
            · rw [appendEntry_planSum_self]
              show planSum st3.plan r + _ = _
              rw [hp3', hplan1, hcmin]
              ring
            · intro r' hr'
              rw [appendEntry_planSum_ne _ _ _ _ hr']
              show planSum st3.plan r' = _
              rw [hp3', hplan1]
            · rw [appendEntry_planGrand]
              show planGrand st3.plan + _ = _
              rw [hp3', hplan1, hcmin]
              ring
            · rw [appendEntry_keys]
              · show st3.plan.map Prod.fst = st0.plan.map Prod.fst
                rw [hp3', hplan1]
              · show (alook st3.plan r).isSome
                rw [hp3', hplan1]
                exact alook_isSome_of_mem_keys hkey
          · rw [hb] at h
            rw [if_pos rfl] at h
            cases h
            refine ⟨?_, ?_, ?_, ?_, ?_⟩
            · refine walkInv_after_step hinv1 hcur1 hr3' hc3' hp3' ?_ ?_ ?_ ?_ ?_ ?_
              · show st3.used + 1 = st1.used + (curMin st1 - st1.used + 1)
                rw [hu3']
                ring
              · dsimp only
                rw [length_modSlot, hs3']
              · intro s hs
                dsimp only at hs
                rcases mem_modSlot hs with hs | ⟨s₀, hs₀, rfl⟩
                · exact hinv1.nil_matches s (by rw [hs3'] at hs; exact hs)
                · exact hinv1.nil_matches s₀ (by rw [hs3'] at hs₀; exact hs₀)
              · intro i hic
                dsimp only
                rw [getSlot_modSlot_ne _ (fun hx => hic hx.symm), hs3']
              · refine ⟨mn + 1, mx, ?_, ?_, ?_, ?_, ?_⟩
                · dsimp only
                  rw [getSlot_modSlot_self _ hcls, hs3', hmn]
                  rfl
                · dsimp only
                  rw [getSlot_modSlot_self _ hcls, hs3']
                  exact hmx
                · show st3.used + 1 ≤ mn + 1
                  rw [hu3', hcmin]
                  omega
                · omega
                · omega
              · rw [hcmin]; omega
            · rw [appendEntry_planSum_self]
              show planSum st3.plan r + _ = _
              rw [hp3', hplan1, hcmin]
              ring
            · intro r' hr'
              rw [appendEntry_planSum_ne _ _ _ _ hr']
              show planSum st3.plan r' = _
              rw [hp3', hplan1]
            · rw [appendEntry_planGrand]
              show planGrand st3.plan + _ = _
              rw [hp3', hplan1, hcmin]
              ring
            · rw [appendEntry_keys]
              · show st3.plan.map Prod.fst = st0.plan.map Prod.fst
                rw [hp3', hplan1]
              · show (alook st3.plan r).isSome
                rw [hp3', hplan1]
                exact alook_isSome_of_mem_keys hkey
      · rw [if_neg hgt] at h
        cases h
        refine ⟨?_, ?_, ?_, ?_, ?_⟩
        · refine walkInv_after_step hinv1 hcur1 rfl hcur1 rfl rfl rfl
            hinv1.nil_matches (fun i _ => rfl) ?_ ?_
          · refine ⟨mn, mx, hmn, hmx, ?_, hmnmx, hmx1⟩
            show st1.used + (curMin st1 - st1.used) ≤ mn
            rw [hcmin]
            omega
          · rw [hcmin]; omega
        · rw [appendEntry_planSum_self]
          show planSum st1.plan r + _ = _
          rw [hplan1, hcmin]
          ring
        · intro r' hr'
          rw [appendEntry_planSum_ne _ _ _ _ hr']
          show planSum st1.plan r' = _
          rw [hplan1]
        · rw [appendEntry_planGrand]
          show planGrand st1.plan + _ = _
          rw [hplan1, hcmin]
          ring
        · rw [appendEntry_keys]
          · show st1.plan.map Prod.fst = st0.plan.map Prod.fst
            rw [hplan1]
          · show (alook st1.plan r).isSome
            rw [hplan1]
            exact alook_isSome_of_mem_keys hkey
    · rw [if_neg hge] at h
      cases h
      refine ⟨?_, ?_, ?_, ?_, ?_⟩
      · refine walkInv_after_step hinv1 hcur1 rfl hcur1 rfl rfl rfl
          hinv1.nil_matches (fun i _ => rfl) ?_ hml
        refine ⟨mn, mx, hmn, hmx, ?_, hmnmx, hmx1⟩
        show st1.used + ml0 ≤ mn
        rw [hcmin] at hge
        omega
      · rw [appendEntry_planSum_self]
        show planSum st1.plan r + _ = _
        rw [hplan1]
        ring
      · intro r' hr'
        rw [appendEntry_planSum_ne _ _ _ _ hr']
        show planSum st1.plan r' = _
        rw [hplan1]
      · rw [appendEntry_planGrand]
        show planGrand st1.plan + _ = _
        rw [hplan1]
        ring
      · rw [appendEntry_keys]
        · show st1.plan.map Prod.fst = st0.plan.map Prod.fst
          rw [hplan1]
        · show (alook st1.plan r).isSome
          rw [hplan1]
          exact alook_isSome_of_mem_keys hkey
theorem walkRound_inv {n r : Nat} : ∀ (fuel : Nat) (st st' : WalkSt) (ml : Int),
    walkRound r fuel st ml = .ok st' → WalkInv n st →
    r ∈ st.plan.map Prod.fst →
    WalkInv n st' ∧
    planSum st.plan r + ml ≤ planSum st'.plan r ∧
    (∀ r', r' ≠ r → planSum st'.plan r' = planSum st.plan r') ∧
    planGrand st'.plan - planSum st'.plan r =
      planGrand st.plan - planSum st.plan r ∧
    st'.plan.map Prod.fst = st.plan.map Prod.fst
  | 0, st, st', ml, h, hinv, hkey => by
    rw [walkRound] at h
    by_cases hml : ml > 0
    · rw [if_pos hml] at h
      cases h
    · rw [if_neg hml] at h
      cases h
      exact ⟨hinv, by omega, fun r' _ => rfl, by ring, rfl⟩
  | fuel + 1, st, st', ml, h, hinv, hkey => by
    rw [walkRound] at h
    by_cases hml : ml > 0
    · rw [if_pos hml] at h
      cases hit : walkIter r st ml with
      | error e => rw [except_bind_error hit] at h; cases h
      | ok pr =>
        obtain ⟨st1, ml1⟩ := pr
        rw [except_bind_ok hit] at h
        obtain ⟨hinv1, heq1, hne1, hg1, hk1⟩ :=
          walkIter_inv hit hinv (le_of_lt hml) hkey
        obtain ⟨hinv', hle', hne', hg', hk'⟩ :=
          walkRound_inv fuel st1 st' ml1 h hinv1 (by rw [hk1]; exact hkey)
        refine ⟨hinv', by omega, ?_, by omega, by rw [hk', hk1]⟩
        intro r' hr'
        rw [hne' r' hr', hne1 r' hr']
    · rw [if_neg hml] at h
      cases h
      exact ⟨hinv, by omega, fun r' _ => rfl, by ring, rfl⟩

theorem walkRounds_inv {n : Nat} : ∀ (rounds : List (Nat × Nat)) (fuel : Nat)
    (st st' : WalkSt),
    walkRounds fuel rounds st = .ok st' → WalkInv n st →
    (rounds.map Prod.fst).Nodup →
    (∀ rn ∈ rounds, rn.1 ∈ st.plan.map Prod.fst) →
    WalkInv n st' ∧
    (∀ rn ∈ rounds, planSum st.plan rn.1 + rn.2 ≤ planSum st'.plan rn.1) ∧
    (∀ r', r' ∉ rounds.map Prod.fst → planSum st'.plan r' = planSum st.plan r') ∧
    planGrand st'.plan - (rounds.map (fun rn => planSum st'.plan rn.1)).sum =
      planGrand st.plan - (rounds.map (fun rn => planSum st.plan rn.1)).sum ∧
    st'.plan.map Prod.fst = st.plan.map Prod.fst
  | [], fuel, st, st', h, hinv, hnd, hkeys => by
    cases h
    exact ⟨hinv, fun rn hrn => absurd hrn (List.not_mem_nil _),
      fun r' _ => rfl, rfl, rfl⟩
  | (r, nr) :: t, fuel, st, st', h, hinv, hnd, hkeys => by
    rw [walkRounds] at h
    cases h1 : walkRound r fuel st (nr : Int) with
    | error e => rw [except_bind_error h1] at h; cases h
    | ok st1 =>
      rw [except_bind_ok h1] at h
      obtain ⟨hinv1, hle1, hne1, hg1, hk1⟩ := walkRound_inv fuel st st1 _ h1 hinv
        (hkeys (r, nr) (List.mem_cons_self _ _))
      have hndt : (t.map Prod.fst).Nodup := (List.nodup_cons.mp hnd).2
      have hrt : r ∉ t.map Prod.fst := (List.nodup_cons.mp hnd).1
      obtain ⟨hinv', hle2, hne2, hg2, hk2⟩ := walkRounds_inv t fuel st1 st' h hinv1
        hndt (fun rn hrn => by
          rw [hk1]
          exact hkeys rn (List.mem_cons_of_mem _ hrn))
      have hmap1 : t.map (fun rn => planSum st1.plan rn.1) =
          t.map (fun rn => planSum st.plan rn.1) := by
        refine List.map_congr_left (fun rn hrn => ?_)
        refine hne1 rn.1 (fun hx => hrt ?_)
        rw [← hx]
        exact List.mem_map_of_mem _ hrn
      have hsr : planSum st'.plan r = planSum st1.plan r := hne2 r hrt
      refine ⟨hinv', ?_, ?_, ?_, by rw [hk2, hk1]⟩
      · intro rn hrn
        rcases List.mem_cons.mp hrn with rfl | hrn
        · rw [hsr]
          exact hle1
        · have hrnr : rn.1 ≠ r := fun hx => hrt (hx ▸ List.mem_map_of_mem _ hrn)
          have := hle2 rn hrn
          rw [hne1 rn.1 hrnr] at this
          exact this
      · intro r' hr'
        have hr'r : r' ≠ r := fun hx => hr' (by rw [hx]; exact List.mem_cons_self _ _)
        have hr't : r' ∉ t.map Prod.fst := fun hx =>
          hr' (by rw [List.map_cons]; exact List.mem_cons_of_mem _ hx)
        rw [hne2 r' hr't, hne1 r' hr'r]
      · simp only [List.map_cons, List.sum_cons]
        rw [hmap1] at hg2
        omega
theorem sumMap_add {α : Type} (f g : α → Int) :
    ∀ l : List α, (l.map (fun x => f x + g x)).sum = (l.map f).sum + (l.map g).sum
  | [] => by simp
  | x :: t => by
    simp only [List.map_cons, List.sum_cons, sumMap_add f g t]
    ring

theorem sumMap_zero {α : Type} (f : α → Int) :
    ∀ l : List α, (∀ x ∈ l, f x = 0) → (l.map f).sum = 0
  | [], _ => rfl
  | x :: t, h => by
    simp only [List.map_cons, List.sum_cons]
    rw [h x (List.mem_cons_self _ _), sumMap_zero f t
      (fun y hy => h y (List.mem_cons_of_mem _ hy))]
    ring

theorem sumMap_le {α : Type} (f g : α → Int) :
    ∀ l : List α, (∀ x ∈ l, f x ≤ g x) → (l.map f).sum ≤ (l.map g).sum
  | [], _ => le_refl 0
  | x :: t, h => by
    simp only [List.map_cons, List.sum_cons]
    have h1 := h x (List.mem_cons_self _ _)
    have h2 := sumMap_le f g t (fun y hy => h y (List.mem_cons_of_mem _ hy))
    omega

theorem sumMap_squeeze {α : Type} (f g : α → Int) :
    ∀ l : List α, (∀ x ∈ l, f x ≤ g x) → (l.map g).sum ≤ (l.map f).sum →
    ∀ x ∈ l, f x = g x
  | [], _, _ => fun x hx => absurd hx (List.not_mem_nil _)
  | a :: t, hle, hsum => by
    intro x hx
    have h1 : f a ≤ g a := hle a (List.mem_cons_self _ _)
    have hlet : ∀ y ∈ t, f y ≤ g y :=
      fun y hy => hle y (List.mem_cons_of_mem _ hy)
    have h2 : (t.map f).sum ≤ (t.map g).sum := sumMap_le f g t hlet
    simp only [List.map_cons, List.sum_cons] at hsum
    rcases List.mem_cons.mp hx with rfl | hx
    · omega
    · exact sumMap_squeeze f g t hlet (by omega) x hx

theorem sum_ite_not_mem (k : Nat) (v : Int) :
    ∀ l : List Nat, k ∉ l →
    (l.map (fun i => if k = i then v else 0)).sum = 0
  | [], _ => rfl
  | a :: t, h => by
    simp only [List.map_cons, List.sum_cons]
    rw [if_neg (fun hk => h (by rw [hk]; exact List.mem_cons_self _ _)),
      sum_ite_not_mem k v t (fun ht => h (List.mem_cons_of_mem _ ht))]
    ring

theorem sum_ite_mem (k : Nat) (v : Int) :
    ∀ l : List Nat, l.Nodup → k ∈ l →
    (l.map (fun i => if k = i then v else 0)).sum = v
  | [], _, hk => absurd hk (List.not_mem_nil _)
  | a :: t, hnd, hk => by
    simp only [List.map_cons, List.sum_cons]
    by_cases hka : k = a
    · subst hka
      rw [if_pos rfl, sum_ite_not_mem k v t (List.nodup_cons.mp hnd).1]
      ring
    · rw [if_neg hka, sum_ite_mem k v t (List.nodup_cons.mp hnd).2
        ((List.mem_cons.mp hk).resolve_left hka)]
      ring

theorem entrySumSlot_range (n : Nat) :
    ∀ es : List (Nat × Int), (∀ e ∈ es, e.1 < n) →
    ((List.range n).map (fun i => entrySumSlot es i)).sum = entriesTotal es
  | [], _ => by
    show (List.map (fun i => entrySumSlot [] i) (List.range n)).sum =
      entriesTotal []
    exact sumMap_zero (fun i => entrySumSlot [] i) (List.range n)
      (fun i _ => rfl)
  | e :: es, h => by
    have hf : (fun i => entrySumSlot (e :: es) i) =
        fun i => (if e.1 = i then e.2 else 0) + entrySumSlot es i := rfl
    rw [hf, sumMap_add, sum_ite_mem e.1 e.2 _ (List.nodup_range n)
      (List.mem_range.mpr (h e (List.mem_cons_self _ _))),
      entrySumSlot_range n es (fun x hx => h x (List.mem_cons_of_mem _ hx))]
    rfl

theorem planSumSlot_cons (rp : Nat × List (Nat × Int))
    (t : List (Nat × List (Nat × Int))) (i : Nat) :
    planSumSlot (rp :: t) i = entrySumSlot rp.2 i + planSumSlot t i := by
  simp [planSumSlot]

theorem planGrand_cons (rp : Nat × List (Nat × Int))
    (t : List (Nat × List (Nat × Int))) :
    planGrand (rp :: t) = entriesTotal rp.2 + planGrand t := by
  simp [planGrand]

theorem planSumSlot_range (n : Nat) :
    ∀ plan : List (Nat × List (Nat × Int)),
    (∀ rp ∈ plan, ∀ e ∈ rp.2, e.1 < n) →
    ((List.range n).map (fun i => planSumSlot plan i)).sum = planGrand plan
  | [], _ => by
    show (List.map (fun i => planSumSlot [] i) (List.range n)).sum = planGrand []
    exact sumMap_zero (fun i => planSumSlot [] i) (List.range n)
      (fun i _ => rfl)
  | rp :: t, h => by
    have hf : (fun i => planSumSlot (rp :: t) i) =
        fun i => entrySumSlot rp.2 i + planSumSlot t i := by
      funext i
      exact planSumSlot_cons rp t i
    rw [hf, sumMap_add,
      entrySumSlot_range n rp.2 (h rp (List.mem_cons_self _ _)),
      planSumSlot_range n t (fun x hx => h x (List.mem_cons_of_mem _ hx)),
      planGrand_cons]

theorem sumBy_range : ∀ (slots : List DayData) (f : DayData → Int),
    ((List.range slots.length).map (fun i => f (getSlot slots i))).sum =
      sumBy slots f
  | [], f => rfl
  | s :: t, f => by
    rw [List.length_cons, List.range_succ_eq_map]
    simp only [List.map_cons, List.map_map, List.sum_cons]
    have hc : (fun i => f (getSlot (s :: t) i)) ∘ Nat.succ =
        fun i => f (getSlot t i) := by
      funext i
      rfl
    rw [hc, sumBy_range t f]
    show f (getSlot (s :: t) 0) + _ = _
    simp [getSlot, sumBy]

theorem planSum_cons_self (r : Nat) (es : List (Nat × Int))
    (t : List (Nat × List (Nat × Int))) :
    planSum ((r, es) :: t) r = entriesTotal es := by
  simp [planSum, alook]

theorem planSum_cons_ne (r : Nat) (es : List (Nat × Int))
    (t : List (Nat × List (Nat × Int))) {r' : Nat} (h : r' ≠ r) :
    planSum ((r, es) :: t) r' = planSum t r' := by
  simp only [planSum, alook]
  rw [if_neg (fun hx : r = r' => h hx.symm)]

theorem plan_init_alook : ∀ (pools : List (Nat × List Nat)) (r : Nat),
    (alook (pools.map (fun p => (p.1, ([] : List (Nat × Int))))) r).getD [] = []
  | [], r => rfl
  | p :: t, r => by
    by_cases h : p.1 = r
    · simp [alook, h]
    · simp only [List.map_cons, alook, if_neg h]
      exact plan_init_alook t r

theorem plan_init_planSum (pools : List (Nat × List Nat)) (r : Nat) :
    planSum (pools.map (fun p => (p.1, ([] : List (Nat × Int))))) r = 0 := by
  rw [planSum, plan_init_alook]
  rfl

theorem plan_init_planSumSlot (pools : List (Nat × List Nat)) (i : Nat) :
    planSumSlot (pools.map (fun p => (p.1, ([] : List (Nat × Int))))) i = 0 := by
  rw [planSumSlot]
  refine sumMap_zero _ _ (fun rp hrp => ?_)
  rcases List.mem_map.mp hrp with ⟨p, -, rfl⟩
  rfl

theorem plan_init_planGrand (pools : List (Nat × List Nat)) :
    planGrand (pools.map (fun p => (p.1, ([] : List (Nat × Int))))) = 0 := by
  rw [planGrand]
  refine sumMap_zero _ _ (fun rp hrp => ?_)
  rcases List.mem_map.mp hrp with ⟨p, -, rfl⟩
  rfl

theorem buildStoreAux_pools_keys : ∀ (base : Nat)
    (rm : List (Nat × List (String × String))),
    ((buildStoreAux base rm).2).map Prod.fst = rm.map Prod.fst
  | base, [] => rfl
  | base, (r, ms) :: t => by
    simp only [buildStoreAux, List.map_cons]
    rw [buildStoreAux_pools_keys (base + ms.length) t]

theorem buildStoreAux_pools_lens : ∀ (base : Nat)
    (rm : List (Nat × List (String × String))),
    (((buildStoreAux base rm).2).map (fun p => (p.2.length : Int))).sum =
      totalGamesOf rm
  | base, [] => rfl
  | base, (r, ms) :: t => by
    simp only [buildStoreAux, List.map_cons, List.sum_cons, totalGamesOf]
    rw [show ((List.range ms.length).map (fun j => j + base)).length =
      ms.length by simp]
    have ih := buildStoreAux_pools_lens (base + ms.length) t
    rw [totalGamesOf] at ih
    rw [ih]

theorem walkAsserts_spec {st : WalkSt} {tg : Int} {u : Unit}
    (h : walkAsserts st tg = .ok u) :
    st.remaining = [] ∧ (∀ s ∈ st.slots, s.minGames = s.maxGames) ∧
    sumMinGames st.slots = tg := by
  rw [walkAsserts] at h
  by_cases h1 : st.remaining.isEmpty
  · rw [if_pos h1] at h
    by_cases h2 : st.slots.all (fun s => s.minGames == s.maxGames)
    · rw [if_pos h2] at h
      by_cases h3 : sumMinGames st.slots = tg
      · refine ⟨List.isEmpty_iff.mp h1, ?_, h3⟩
        intro s hs
        have := List.all_eq_true.mp h2 s hs
        exact eq_of_beq this
      · rw [if_neg h3] at h
        cases h
    · rw [if_neg h2] at h
      cases h
  · rw [if_neg h1] at h
    cases h
theorem alook_none_of_not_mem_keys {κ α : Type} [DecidableEq κ]
    {l : List (κ × α)} {k : κ} (h : k ∉ l.map Prod.fst) : alook l k = none := by
  cases hl : alook l k with
  | none => rfl
  | some v => exact absurd (List.mem_map_of_mem Prod.fst (alook_mem hl)) h

theorem pools_nr_sum (pools : List (Nat × List Nat)) :
    ((pools.map (fun p => (p.1, p.2.length))).map
      (fun rn : Nat × Nat => (rn.2 : Int))).sum =
    (pools.map (fun p => (p.2.length : Int))).sum := by
  rw [List.map_map]
  exact congrArg List.sum (List.map_congr_left (fun p _ => rfl))

theorem afterWalk_spec (inp : Inputs) (w : WalkOut)
    (h : afterWalk inp = .ok w)
    (hnd : (inp.roundMatches.map Prod.fst).Nodup) :
    (∀ s ∈ w.slots, s.minGames = s.maxGames ∧ s.«matches» = []) ∧
    sumMinGames w.slots = w.totalGames ∧
    w.totalGames = totalGamesOf inp.roundMatches ∧
    (∀ i, i < w.slots.length →
      (getSlot w.slots i).minGames = some (planSumSlot w.plan i)) ∧
    (∀ rp ∈ w.plan, ∀ e ∈ rp.2, e.1 < w.slots.length ∧ 0 ≤ e.2) ∧
    (∀ r, planSum w.plan r = poolLen w.pools r) ∧
    (w.plan.map Prod.fst).Nodup ∧
    (∀ rp ∈ w.plan, (alook w.pools rp.1).isSome) := by
  rw [afterWalk] at h
  cases ha : allotPhase inp with
  | error e => rw [except_bind_error ha] at h; cases h
  | ok a =>
    rw [except_bind_ok ha] at h
    try dsimp only at h
    obtain ⟨hsum0, htg, hlen0, hfin, hstore, hpools, hrng⟩ :=
      allotPhase_inv inp a ha
    cases hse : plusOneSetup a.numPlusOnes (a.pools.map (fun p => p.1)) with
    | error e => rw [except_bind_error hse] at h; cases h
    | ok se =>
      rw [except_bind_ok hse] at h
      try dsimp only at h
      cases hwr : walkRounds (walkFuel a)
          (a.pools.map (fun p => (p.1, p.2.length)))
          { slots := a.slots, remaining := List.range a.slots.length,
            cur := none, used := 0, extraPlusOnes := se.1, roundAllot := se.2,
            possiblePlusOnes := a.possiblePlusOnes,
            plan := a.pools.map (fun p => (p.1, [])), rng := a.rng } with
      | error e => rw [except_bind_error hwr] at h; cases h
      | ok stF =>
        rw [except_bind_ok hwr] at h
        try dsimp only at h
        cases hassert : walkAsserts stF a.totalGames with
        | error e => rw [except_bind_error hassert] at h; cases h
        | ok u =>
          rw [except_bind_ok hassert] at h
          cases h
          obtain ⟨hrem, hmm, hsums⟩ := walkAsserts_spec hassert
          have hkeq : ((a.pools.map (fun p => (p.1, p.2.length))).map
              Prod.fst) = a.pools.map Prod.fst := by
            rw [List.map_map]
            exact List.map_congr_left (fun p _ => rfl)
          have hkeq0 : ((a.pools.map
              (fun p => (p.1, ([] : List (Nat × Int))))).map Prod.fst) =
              a.pools.map Prod.fst := by
            rw [List.map_map]
            exact List.map_congr_left (fun p _ => rfl)
          have hpk : a.pools.map Prod.fst = inp.roundMatches.map Prod.fst := by
            rw [hpools]
            exact buildStoreAux_pools_keys 0 inp.roundMatches
          have hndk : (a.pools.map Prod.fst).Nodup := by
            rw [hpk]
            exact hnd
          have hinv0 : WalkInv a.slots.length
              { slots := a.slots, remaining := List.range a.slots.length,
                cur := none, used := 0, extraPlusOnes := se.1,
                roundAllot := se.2, possiblePlusOnes := a.possiblePlusOnes,
                plan := a.pools.map (fun p => (p.1, [])), rng := a.rng } := by
            refine ⟨rfl, ?_, ?_, ?_, ?_, ?_, ?_, ?_, ?_, ?_⟩
            · intro s hs
              exact (hfin s hs).1
            · intro i hi
              exact List.mem_range.mp hi
            · exact List.nodup_range _
            · intro i hi
              refine ⟨?_, plan_init_planSumSlot _ _⟩
              rcases hfin (getSlot a.slots i) (getSlot_mem (List.mem_range.mp hi))
                with ⟨-, hnn, hminf, hmaxf⟩
              exact ⟨(getSlot a.slots i).allottedGames, hnn, hminf, hmaxf⟩
            · intro c hc
              cases hc
            · intro _
              exact ⟨rfl, fun i => plan_init_planSumSlot _ _⟩
            · intro i hi hirem _
              exact absurd (List.mem_range.mpr hi) hirem
            · intro rp hrp e he
              rcases List.mem_map.mp hrp with ⟨p, -, rfl⟩
              cases he
            · intro rp hrp e he
              rcases List.mem_map.mp hrp with ⟨p, -, rfl⟩
              cases he
          obtain ⟨hinvF, hle, hoff, hgr, hkF⟩ := walkRounds_inv
            (a.pools.map (fun p => (p.1, p.2.length))) (walkFuel a) _ stF hwr
            hinv0 (by rw [hkeq]; exact hndk)
            (by
              intro rn hrn
              rcases List.mem_map.mp hrn with ⟨p, hp, rfl⟩
              show p.1 ∈ (a.pools.map
                (fun p => (p.1, ([] : List (Nat × Int))))).map Prod.fst
              rw [hkeq0]
              exact List.mem_map_of_mem _ hp)
          try dsimp only at hle hoff hgr hkF
          have hle2 : ∀ rn ∈ a.pools.map (fun p => (p.1, p.2.length)),
              ((rn.2 : Nat) : Int) ≤ planSum stF.plan rn.1 := by
            intro rn hrn
            have h2 := hle rn hrn
            rw [plan_init_planSum] at h2
            omega
          have hz : ((a.pools.map (fun p => (p.1, p.2.length))).map
              (fun rn => planSum (a.pools.map
                (fun p => (p.1, ([] : List (Nat × Int))))) rn.1)).sum = 0 :=
            sumMap_zero _ _ (fun rn _ => plan_init_planSum _ _)
          have hgrand : planGrand stF.plan =
              ((a.pools.map (fun p => (p.1, p.2.length))).map
                (fun rn => planSum stF.plan rn.1)).sum := by
            rw [plan_init_planGrand, hz] at hgr
            omega
          have hnr : ((a.pools.map (fun p => (p.1, p.2.length))).map
              (fun rn : Nat × Nat => (rn.2 : Int))).sum = a.totalGames := by
            rw [pools_nr_sum, hpools, buildStoreAux_pools_lens, htg]
          have hgeq : a.totalGames ≤ planGrand stF.plan := by
            have hs2 := sumMap_le _ _ (a.pools.map (fun p => (p.1, p.2.length)))
              hle2
            rw [hnr] at hs2
            rw [hgrand]
            exact hs2
          have hlenF : stF.slots.length = a.slots.length := hinvF.len
          have hids : ∀ rp ∈ stF.plan, ∀ e ∈ rp.2, e.1 < a.slots.length :=
            hinvF.plan_ids
          have hG : ((List.range a.slots.length).map
              (fun i => planSumSlot stF.plan i)).sum = planGrand stF.plan :=
            planSumSlot_range _ _ hids
          have hpoint : ∀ i ∈ List.range a.slots.length,
              planSumSlot stF.plan i ≤ (getSlot stF.slots i).minGames.getD 0 := by
            intro i hi
            have hin : i < a.slots.length := List.mem_range.mp hi
            have hnotrem : i ∉ stF.remaining := by
              rw [hrem]
              exact List.not_mem_nil _
            cases hcur : stF.cur with
            | none =>
              rcases hinvF.past i hin hnotrem (by rw [hcur]; intro hx; cases hx)
                with ⟨m, hm1, -, hm3⟩
              rw [hm3, hm1]
              exact le_refl m
            | some c =>
              by_cases hic : i = c
              · subst hic
                rcases hinvF.cur_ok i hcur with ⟨-, -, -,
                  ⟨mn, mx, hmn, -, hule, -, -⟩, hpss⟩
                rw [hpss, hmn]
                exact hule
              · rcases hinvF.past i hin hnotrem
                  (by rw [hcur]; intro hx; cases hx; exact hic rfl)
                  with ⟨m, hm1, -, hm3⟩
                rw [hm3, hm1]
                exact le_refl m
          have hsumMin : ((List.range a.slots.length).map
              (fun i => (getSlot stF.slots i).minGames.getD 0)).sum =
              a.totalGames := by
            have hsb := sumBy_range stF.slots (fun s => s.minGames.getD 0)
            rw [hlenF] at hsb
            exact hsb.trans hsums
          have hleG : planGrand stF.plan ≤ a.totalGames := by
            have hs3 := sumMap_le _ _ (List.range a.slots.length) hpoint
            rw [hG, hsumMin] at hs3
            exact hs3
          have heqG : planGrand stF.plan = a.totalGames := le_antisymm hleG hgeq
          have hsq_slots : ∀ i ∈ List.range a.slots.length,
              planSumSlot stF.plan i = (getSlot stF.slots i).minGames.getD 0 :=
            sumMap_squeeze _ _ _ hpoint (by rw [hG, hsumMin, heqG])
          have hsq_rounds : ∀ rn ∈ a.pools.map (fun p => (p.1, p.2.length)),
              ((rn.2 : Nat) : Int) = planSum stF.plan rn.1 :=
            sumMap_squeeze _ _ _ hle2 (by rw [hnr, ← hgrand, heqG])
          have hkeysF : stF.plan.map Prod.fst = a.pools.map Prod.fst := by
            rw [hkF, hkeq0]
          refine ⟨?_, ?_, ?_, ?_, ?_, ?_, ?_, ?_⟩
          · intro s hs
            exact ⟨hmm s hs, hinvF.nil_matches s hs⟩
          · exact hsums
          · exact htg
          · intro i hi
            have hin : i < a.slots.length := by
              rw [← hlenF]
              exact hi
            have hsq := hsq_slots i (List.mem_range.mpr hin)
            have hnotrem : i ∉ stF.remaining := by
              rw [hrem]
              exact List.not_mem_nil _
            cases hcur : stF.cur with
            | none =>
              rcases hinvF.past i hin hnotrem (by rw [hcur]; intro hx; cases hx)
                with ⟨m, hm1, -, hm3⟩
              rw [hm1, hm3]
            | some c =>
              by_cases hic : i = c
              · subst hic
                rcases hinvF.cur_ok i hcur with ⟨-, -, -,
                  ⟨mn, mx, hmn, -, -, -, -⟩, -⟩
                rw [hmn] at hsq ⊢
                rw [hsq]
                rfl
              · rcases hinvF.past i hin hnotrem
                  (by rw [hcur]; intro hx; cases hx; exact hic rfl)
                  with ⟨m, hm1, -, hm3⟩
                rw [hm1, hm3]
          · intro rp hrp e he
            refine ⟨?_, hinvF.plan_nonneg rp hrp e he⟩
            show e.1 < stF.slots.length
            rw [hlenF]
            exact hids rp hrp e he
          · intro r
            show planSum stF.plan r = poolLen a.pools r
            by_cases hrk : r ∈ a.pools.map Prod.fst
            · have hsome := alook_isSome_of_mem_keys hrk
              cases hal : alook a.pools r with
              | none =>
                rw [hal] at hsome
                cases hsome
              | some ms =>
                have hmem : (r, ms) ∈ a.pools := alook_mem hal
                have hrn := hsq_rounds (r, ms.length)
                  (List.mem_map_of_mem _ hmem)
                show planSum stF.plan r = (((alook a.pools r).getD []).length : Int)
                rw [hal]
                exact hrn.symm
            · have h1 : planSum stF.plan r = 0 := by
                have h2 := hoff r (by rw [hkeq]; exact hrk)
                rw [plan_init_planSum] at h2
                exact h2
              show planSum stF.plan r = (((alook a.pools r).getD []).length : Int)
              rw [h1, alook_none_of_not_mem_keys hrk]
              rfl
          · show (stF.plan.map Prod.fst).Nodup
            rw [hkeysF]
            exact hndk
          · intro rp hrp
            show (alook a.pools rp.1).isSome
            refine alook_isSome_of_mem_keys ?_
            rw [← hkeysF]
            exact List.mem_map_of_mem _ hrp
theorem filterByPlayersInPool_subset {picks : List (String × Int)}
    {store : List MatchData} {potential l : List Nat}
    (h : filterByPlayersInPool picks store potential = .ok l) :
    l ⊆ potential := by
  rw [filterByPlayersInPool] at h
  dsimp only at h
  split at h
  · cases h
  · cases h
    exact fun x hx => List.mem_of_mem_filter (List.mem_of_mem_filter hx)

theorem potentialAfterPoolFilter_subset {strict : Bool}
    {picks : List (String × Int)} {store : List MatchData}
    {pot1 matchesLeft l : List Nat}
    (h : potentialAfterPoolFilter strict picks store pot1 matchesLeft = .ok l)
    (hsub : pot1 ⊆ matchesLeft) : l ⊆ matchesLeft := by
  rw [potentialAfterPoolFilter] at h
  cases hf : filterByPlayersInPool picks store pot1 with
  | ok l1 =>
    rw [hf] at h
    dsimp only at h
    cases h
    exact fun x hx => hsub (filterByPlayersInPool_subset hf hx)
  | error e =>
    rw [hf] at h
    dsimp only at h
    by_cases hs : strict = true
    · rw [if_pos hs] at h
      cases h
    · rw [if_neg hs] at h
      exact fun x hx => filterByPlayersInPool_subset h hx

theorem randrange_ok {s n : Nat} {d : Nat × Nat}
    (h : randrange s n = .ok d) : 0 < n ∧ d.1 < n := by
  rw [randrange] at h
  by_cases hn : n = 0
  · rw [if_pos hn] at h
    cases h
  · rw [if_neg hn] at h
    have hd : d = (rngNext s % n, rngNext s) := (Except.ok.inj h).symm
    refine ⟨Nat.pos_of_ne_zero hn, ?_⟩
    rw [hd]
    show rngNext s % n < n
    exact Nat.mod_lt _ (Nat.pos_of_ne_zero hn)

theorem getD_mem {l : List Nat} {i : Nat} (h : i < l.length) :
    l.getD i 0 ∈ l := by
  rw [List.getD_eq_getElem?_getD, List.getElem?_eq_getElem h]
  exact List.getElem_mem h

theorem alook_alset_isSome {κ α : Type} [DecidableEq κ]
    (l : List (κ × α)) (k : κ) (v : α) (k' : κ)
    (h : (alook l k').isSome) : (alook (alset l k v) k').isSome := by
  by_cases hk : k' = k
  · subst hk
    rw [alook_alset_self l k' v]
    rfl
  · rw [alook_alset_ne hk]
    exact h

theorem assignChosen_effect {maxPicks : Int} {roundNum sid chosen : Nat}
    {matchesLeft : List Nat} {rng' : Nat} {L : DistLocal}
    (hml : alook L.st.pools roundNum = some matchesLeft)
    (hchosen : chosen ∈ matchesLeft)
    (hsid : sid < L.st.slots.length) :
    (assignChosen maxPicks roundNum sid chosen matchesLeft rng' L).st.plan =
      L.st.plan ∧
    (assignChosen maxPicks roundNum sid chosen matchesLeft rng' L).st.slots.length =
      L.st.slots.length ∧
    (∀ i, i ≠ sid →
      getSlot (assignChosen maxPicks roundNum sid chosen matchesLeft rng' L).st.slots i =
        getSlot L.st.slots i) ∧
    (getSlot (assignChosen maxPicks roundNum sid chosen matchesLeft rng' L).st.slots
      sid).minGames = (getSlot L.st.slots sid).minGames ∧
    (getSlot (assignChosen maxPicks roundNum sid chosen matchesLeft rng' L).st.slots
      sid).maxGames = (getSlot L.st.slots sid).maxGames ∧
    (getSlot (assignChosen maxPicks roundNum sid chosen matchesLeft rng' L).st.slots
      sid).«matches».length = (getSlot L.st.slots sid).«matches».length + 1 ∧
    poolLen (assignChosen maxPicks roundNum sid chosen matchesLeft rng' L).st.pools
      roundNum = poolLen L.st.pools roundNum - 1 ∧
    (∀ r', r' ≠ roundNum →
      alook (assignChosen maxPicks roundNum sid chosen matchesLeft rng' L).st.pools r' =
        alook L.st.pools r') ∧
    (∀ r', (alook L.st.pools r').isSome →
      (alook (assignChosen maxPicks roundNum sid chosen matchesLeft rng' L).st.pools
        r').isSome) := by
  dsimp only [assignChosen, _updateMatch]
  refine ⟨rfl, ?_, ?_, ?_, ?_, ?_, ?_, ?_, ?_⟩
  · exact length_modSlot _ _ _
  · intro i hi
    exact getSlot_modSlot_ne _ (fun hx => hi hx.symm)
  · rw [getSlot_modSlot_self _ hsid]
  · rw [getSlot_modSlot_self _ hsid]
  · rw [getSlot_modSlot_self _ hsid]
    simp
  · simp only [poolLen, alook_alset_self, hml, Option.getD_some]
    rw [List.length_erase_of_mem hchosen]
    have hlpos : 0 < matchesLeft.length := List.length_pos_of_mem hchosen
    omega
  · intro r' hr'
    exact alook_alset_ne hr' _ _
  · intro r' hs
    exact alook_alset_isSome _ _ _ _ hs

theorem pickOne_effect {strict : Bool} {pool : List String}
    {minPicks maxPicks : Int} {roundNum sid : Nat} {L L' : DistLocal}
    (h : pickOne strict pool minPicks maxPicks roundNum sid L = .ok L')
    (hsid : sid < L.st.slots.length) :
    L'.st.plan = L.st.plan ∧
    L'.st.slots.length = L.st.slots.length ∧
    (∀ i, i ≠ sid → getSlot L'.st.slots i = getSlot L.st.slots i) ∧
    (getSlot L'.st.slots sid).minGames = (getSlot L.st.slots sid).minGames ∧
    (getSlot L'.st.slots sid).maxGames = (getSlot L.st.slots sid).maxGames ∧
    (getSlot L'.st.slots sid).«matches».length =
      (getSlot L.st.slots sid).«matches».length + 1 ∧
    poolLen L'.st.pools roundNum = poolLen L.st.pools roundNum - 1 ∧
    (∀ r', r' ≠ roundNum → alook L'.st.pools r' = alook L.st.pools r') ∧
    (∀ r', (alook L.st.pools r').isSome → (alook L'.st.pools r').isSome) := by
  rw [pickOne] at h
  cases hmr : planMaxRound L.st.plan with
  | error e => rw [except_bind_error hmr] at h; cases h
  | ok maxR =>
    rw [except_bind_ok hmr] at h
    try dsimp only at h
    cases hgr : gamesRemainingCalc pool L.maxed L.st.store L.st.pools
        roundNum maxR with
    | error e => rw [except_bind_error hgr] at h; cases h
    | ok gr =>
      rw [except_bind_ok hgr] at h
      try dsimp only at h
      cases hml : alook L.st.pools roundNum with
      | none => rw [hml] at h; cases h
      | some matchesLeft =>
        rw [hml] at h
        try dsimp only at h
        by_cases hemp : matchesLeft.isEmpty
        · rw [if_pos hemp] at h
          cases h
        · rw [if_neg hemp] at h
          cases hpot : potentialAfterPoolFilter strict L.picks L.st.store
              (matchesLeft.filter (fun mid =>
                requiredCount (pool.filter (fun p =>
                  decide (minPicks - (alook L.picks p).getD 0 ≥
                    (alook gr p).getD 0) && !(L.maxed.contains p)))
                  (getMatch L.st.store mid) ==
                maxNat (matchesLeft.map (fun mid =>
                  requiredCount (pool.filter (fun p =>
                    decide (minPicks - (alook L.picks p).getD 0 ≥
                      (alook gr p).getD 0) && !(L.maxed.contains p)))
                    (getMatch L.st.store mid))))) matchesLeft with
          | error e => rw [except_bind_error hpot] at h; cases h
          | ok pot2 =>
            rw [except_bind_ok hpot] at h
            try dsimp only at h
            cases hdr : randrange L.st.rng ((pot2.filter (fun mid =>
                (alook gr (getMatch L.st.store mid).player1).getD 0 +
                  (alook gr (getMatch L.st.store mid).player2).getD 0 ==
                minIntL (pot2.map (fun mid =>
                  (alook gr (getMatch L.st.store mid).player1).getD 0 +
                    (alook gr (getMatch L.st.store mid).player2).getD 0)))).length)
              with
            | error e => rw [except_bind_error hdr] at h; cases h
            | ok dr =>
              rw [except_bind_ok hdr] at h
              try dsimp only at h
              cases h
              obtain ⟨-, hdr1⟩ := randrange_ok hdr
              refine assignChosen_effect hml ?_ hsid
              refine potentialAfterPoolFilter_subset hpot
                (fun x hx => List.mem_of_mem_filter hx)
                (List.mem_of_mem_filter (getD_mem hdr1))
theorem planSum_zero_off {plan : List (Nat × List (Nat × Int))} {r : Nat}
    (h : r ∉ plan.map Prod.fst) : planSum plan r = 0 := by
  rw [planSum, alook_none_of_not_mem_keys h]
  rfl

theorem pickMany_effect {strict : Bool} {pool : List String}
    {minPicks maxPicks : Int} {roundNum sid : Nat} :
    ∀ (k : Nat) (L L' : DistLocal),
    pickMany strict pool minPicks maxPicks roundNum sid k L = .ok L' →
    sid < L.st.slots.length →
    L'.st.plan = L.st.plan ∧
    L'.st.slots.length = L.st.slots.length ∧
    (∀ i, i ≠ sid → getSlot L'.st.slots i = getSlot L.st.slots i) ∧
    (getSlot L'.st.slots sid).minGames = (getSlot L.st.slots sid).minGames ∧
    (getSlot L'.st.slots sid).maxGames = (getSlot L.st.slots sid).maxGames ∧
    (getSlot L'.st.slots sid).«matches».length =
      (getSlot L.st.slots sid).«matches».length + k ∧
    poolLen L'.st.pools roundNum = poolLen L.st.pools roundNum - k ∧
    (∀ r', r' ≠ roundNum → alook L'.st.pools r' = alook L.st.pools r') ∧
    (∀ r', (alook L.st.pools r').isSome → (alook L'.st.pools r').isSome)
  | 0, L, L', h, hsid => by
    cases h
    exact ⟨rfl, rfl, fun i _ => rfl, rfl, rfl, rfl, by omega,
      fun r' _ => rfl, fun r' hs => hs⟩
  | k + 1, L, L', h, hsid => by
    rw [pickMany] at h
    cases h1 : pickOne strict pool minPicks maxPicks roundNum sid L with
    | error e => rw [except_bind_error h1] at h; cases h
    | ok L1 =>
      rw [except_bind_ok h1] at h
      obtain ⟨hp1, hl1, hne1, hmin1, hmax1, hlen1, hpool1, hpne1, hps1⟩ :=
        pickOne_effect h1 hsid
      obtain ⟨hp2, hl2, hne2, hmin2, hmax2, hlen2, hpool2, hpne2, hps2⟩ :=
        pickMany_effect k L1 L' h (by rw [hl1]; exact hsid)
      refine ⟨hp2.trans hp1, hl2.trans hl1, ?_, ?_, ?_, ?_, ?_, ?_, ?_⟩
      · intro i hi
        rw [hne2 i hi, hne1 i hi]
      · rw [hmin2, hmin1]
      · rw [hmax2, hmax1]
      · rw [hlen2, hlen1]
        omega
      · rw [hpool2, hpool1]
        push_cast
        ring
      · intro r' hr'
        rw [hpne2 r' hr', hpne1 r' hr']
      · intro r' hs
        exact hps2 r' (hps1 r' hs)

theorem distEntries_effect {strict : Bool} {gameType : String}
    {pool : List String} {minPicks maxPicks : Int} {roundNum : Nat} :
    ∀ (entries : List (Nat × Int)) (L : DistLocal)
    (entries' : List (Nat × Int)) (L' : DistLocal),
    distEntries strict gameType pool minPicks maxPicks roundNum entries L =
      .ok (entries', L') →
    (∀ e ∈ entries, e.1 < L.st.slots.length ∧ 0 ≤ e.2) →
    L'.st.plan = L.st.plan ∧
    L'.st.slots.length = L.st.slots.length ∧
    (∀ i, (getSlot L'.st.slots i).minGames = (getSlot L.st.slots i).minGames ∧
      (getSlot L'.st.slots i).maxGames = (getSlot L.st.slots i).maxGames) ∧
    (∀ i, ((getSlot L'.st.slots i).«matches».length : Int) +
        entrySumSlot entries' i =
      ((getSlot L.st.slots i).«matches».length : Int) +
        entrySumSlot entries i) ∧
    (poolLen L'.st.pools roundNum - entriesTotal entries' =
      poolLen L.st.pools roundNum - entriesTotal entries) ∧
    (∀ r', r' ≠ roundNum → alook L'.st.pools r' = alook L.st.pools r') ∧
    (∀ r', (alook L.st.pools r').isSome → (alook L'.st.pools r').isSome) ∧
    (∀ e ∈ entries', e.1 < L.st.slots.length ∧ 0 ≤ e.2)
  | [], L, entries', L', h, hpred => by
    cases h
    exact ⟨rfl, rfl, fun i => ⟨rfl, rfl⟩, fun i => rfl, rfl,
      fun r' _ => rfl, fun r' hs => hs,
      fun e he => absurd he (List.not_mem_nil _)⟩
  | (sid, cnt) :: rest, L, entries', L', h, hpred => by
    rw [distEntries] at h
    obtain ⟨hsid, hcnt⟩ := hpred (sid, cnt) (List.mem_cons_self _ _)
    by_cases hgrp : ((getSlot L.st.slots sid).group == some gameType) = true
    · rw [if_pos hgrp] at h
      cases h1 : pickMany strict pool minPicks maxPicks roundNum sid cnt.toNat L
        with
      | error e => rw [except_bind_error h1] at h; cases h
      | ok L1 =>
        rw [except_bind_ok h1] at h
        cases h2 : distEntries strict gameType pool minPicks maxPicks roundNum
            rest L1 with
        | error e => rw [except_bind_error h2] at h; cases h
        | ok r2 =>
          rw [except_bind_ok h2] at h
          try dsimp only at h
          cases h
          obtain ⟨hp1, hl1, hne1, hmin1, hmax1, hlen1, hpool1, hpne1, hps1⟩ :=
            pickMany_effect cnt.toNat L L1 h1 hsid
          obtain ⟨hp2, hl2, hfld2, hlen2, hpool2, hpne2, hps2, hpred2⟩ :=
            distEntries_effect rest L1 r2.1 r2.2 h2 (fun e he => by
              rw [hl1]
              exact hpred e (List.mem_cons_of_mem _ he))
          have hctn : ((cnt.toNat : Nat) : Int) = cnt := Int.toNat_of_nonneg hcnt
          refine ⟨hp2.trans hp1, hl2.trans hl1, ?_, ?_, ?_, ?_, ?_, ?_⟩
          · intro i
            by_cases hi : i = sid
            · subst hi
              exact ⟨(hfld2 i).1.trans hmin1, (hfld2 i).2.trans hmax1⟩
            · have hgi : getSlot L1.st.slots i = getSlot L.st.slots i :=
                hne1 i hi
              exact ⟨(hfld2 i).1.trans (by rw [hgi]),
                (hfld2 i).2.trans (by rw [hgi])⟩
          · intro i
            have h2i := hlen2 i
            show ((getSlot r2.2.st.slots i).«matches».length : Int) +
              ((if sid = i then (0 : Int) else 0) + entrySumSlot r2.1 i) = _ +
              ((if sid = i then cnt else 0) + entrySumSlot rest i)
            by_cases hi : sid = i
            · subst hi
              rw [if_pos rfl, if_pos rfl]
              have h1i : ((getSlot L1.st.slots sid).«matches».length : Int) =
                  ((getSlot L.st.slots sid).«matches».length : Int) + cnt := by
                rw [hlen1]
                push_cast [hctn]
                ring
              omega
            · rw [if_neg hi, if_neg hi]
              have hgi : getSlot L1.st.slots i = getSlot L.st.slots i :=
                hne1 i (fun hx => hi hx.symm)
              rw [hgi] at h2i
              omega
          · show poolLen r2.2.st.pools roundNum -
              (0 + entriesTotal r2.1) = _ - (cnt + entriesTotal rest)
            have hp1i : poolLen L1.st.pools roundNum =
                poolLen L.st.pools roundNum - cnt := by
              rw [hpool1, hctn]
            omega
          · intro r' hr'
            rw [hpne2 r' hr', hpne1 r' hr']
          · intro r' hs
            exact hps2 r' (hps1 r' hs)
          · intro e he
            rcases List.mem_cons.mp he with rfl | he
            · exact ⟨hsid, le_refl 0⟩
            · have := hpred2 e he
              rw [hl1] at this
              exact this
    · rw [if_neg hgrp] at h
      cases h2 : distEntries strict gameType pool minPicks maxPicks roundNum
          rest L with
      | error e => rw [except_bind_error h2] at h; cases h
      | ok r2 =>
        rw [except_bind_ok h2] at h
        try dsimp only at h
        cases h
        obtain ⟨hp2, hl2, hfld2, hlen2, hpool2, hpne2, hps2, hpred2⟩ :=
          distEntries_effect rest L r2.1 r2.2 h2 (fun e he =>
            hpred e (List.mem_cons_of_mem _ he))
        refine ⟨hp2, hl2, hfld2, ?_, ?_, hpne2, hps2, ?_⟩
        · intro i
          have h2i := hlen2 i
          show ((getSlot r2.2.st.slots i).«matches».length : Int) +
            ((if sid = i then cnt else 0) + entrySumSlot r2.1 i) = _ +
            ((if sid = i then cnt else 0) + entrySumSlot rest i)
          omega
        · show poolLen r2.2.st.pools roundNum -
            (cnt + entriesTotal r2.1) = _ - (cnt + entriesTotal rest)
          omega
        · intro e he
          rcases List.mem_cons.mp he with rfl | he
          · exact ⟨hsid, hcnt⟩
          · exact hpred2 e he
theorem distRounds_effect {strict : Bool} {gameType : String}
    {pool : List String} {minPicks maxPicks : Int} :
    ∀ (plan : List (Nat × List (Nat × Int))) (L : DistLocal)
    (plan' : List (Nat × List (Nat × Int))) (L' : DistLocal),
    distRounds strict gameType pool minPicks maxPicks plan L =
      .ok (plan', L') →
    (plan.map Prod.fst).Nodup →
    (∀ rp ∈ plan, ∀ e ∈ rp.2, e.1 < L.st.slots.length ∧ 0 ≤ e.2) →
    L'.st.plan = L.st.plan ∧
    L'.st.slots.length = L.st.slots.length ∧
    plan'.map Prod.fst = plan.map Prod.fst ∧
    (∀ i, (getSlot L'.st.slots i).minGames = (getSlot L.st.slots i).minGames ∧
      (getSlot L'.st.slots i).maxGames = (getSlot L.st.slots i).maxGames) ∧
    (∀ i, ((getSlot L'.st.slots i).«matches».length : Int) +
        planSumSlot plan' i =
      ((getSlot L.st.slots i).«matches».length : Int) + planSumSlot plan i) ∧
    (∀ r', poolLen L'.st.pools r' - planSum plan' r' =
      poolLen L.st.pools r' - planSum plan r') ∧
    (∀ r', (alook L.st.pools r').isSome → (alook L'.st.pools r').isSome) ∧
    (∀ rp ∈ plan', ∀ e ∈ rp.2, e.1 < L.st.slots.length ∧ 0 ≤ e.2)
  | [], L, plan', L', h, hnd, hpred => by
    cases h
    exact ⟨rfl, rfl, rfl, fun i => ⟨rfl, rfl⟩, fun i => rfl, fun r' => rfl,
      fun r' hs => hs, fun rp hrp => absurd hrp (List.not_mem_nil _)⟩
  | (r, entries) :: t, L, plan', L', h, hnd, hpred => by
    rw [distRounds] at h
    cases h1 : distEntries strict gameType pool minPicks maxPicks r entries L
      with
    | error e => rw [except_bind_error h1] at h; cases h
    | ok e1 =>
      rw [except_bind_ok h1] at h
      cases h2 : distRounds strict gameType pool minPicks maxPicks t e1.2 with
      | error e => rw [except_bind_error h2] at h; cases h
      | ok t1 =>
        rw [except_bind_ok h2] at h
        try dsimp only at h
        cases h
        have hrt : r ∉ t.map Prod.fst := (List.nodup_cons.mp hnd).1
        obtain ⟨hp1, hl1, hfld1, hlen1, hpool1, hpne1, hps1, hpred1⟩ :=
          distEntries_effect entries L e1.1 e1.2 h1
            (hpred (r, entries) (List.mem_cons_self _ _))
        obtain ⟨hp2, hl2, hk2, hfld2, hlen2, hpool2, hps2, hpred2⟩ :=
          distRounds_effect t e1.2 t1.1 t1.2 h2 (List.nodup_cons.mp hnd).2
            (fun rp hrp e he => by
              rw [hl1]
              exact hpred rp (List.mem_cons_of_mem _ hrp) e he)
        have hkt : t1.1.map Prod.fst = t.map Prod.fst := hk2
        refine ⟨hp2.trans hp1, hl2.trans hl1, ?_, ?_, ?_, ?_, ?_, ?_⟩
        · simp only [List.map_cons, hkt]
        · intro i
          exact ⟨(hfld2 i).1.trans (hfld1 i).1, (hfld2 i).2.trans (hfld1 i).2⟩
        · intro i
          rw [planSumSlot_cons, planSumSlot_cons]
          dsimp only
          have ha := hlen1 i
          have hb := hlen2 i
          omega
        · intro r'
          by_cases hr : r' = r
          · subst hr
            rw [planSum_cons_self, planSum_cons_self]
            have ht'0 : planSum t1.1 r' = 0 :=
              planSum_zero_off (by rw [hkt]; exact hrt)
            have ht0 : planSum t r' = 0 := planSum_zero_off hrt
            have hb := hpool2 r'
            rw [ht'0, ht0] at hb
            omega
          · rw [planSum_cons_ne _ _ _ hr, planSum_cons_ne _ _ _ hr]
            have hpl : poolLen e1.2.st.pools r' = poolLen L.st.pools r' := by
              unfold poolLen
              rw [hpne1 r' hr]
            have hb := hpool2 r'
            rw [hpl] at hb
            omega
        · intro r' hs
          exact hps2 r' (hps1 r' hs)
        · intro rp hrp e he
          rcases List.mem_cons.mp hrp with rfl | hrp
          · exact hpred1 e he
          · have := hpred2 rp hrp e he
            rw [hl1] at this
            exact this

theorem distributeMatches_effect {strict : Bool} {gameType : String}
    {playerPool : List String} {st st'' : DistSt}
    (h : distributeMatches strict gameType playerPool st = .ok st'')
    (hnd : (st.plan.map Prod.fst).Nodup)
    (hpred : ∀ rp ∈ st.plan, ∀ e ∈ rp.2, e.1 < st.slots.length ∧ 0 ≤ e.2) :
    st''.slots.length = st.slots.length ∧
    st''.plan.map Prod.fst = st.plan.map Prod.fst ∧
    (∀ i, (getSlot st''.slots i).minGames = (getSlot st.slots i).minGames ∧
      (getSlot st''.slots i).maxGames = (getSlot st.slots i).maxGames) ∧
    (∀ i, ((getSlot st''.slots i).«matches».length : Int) +
        planSumSlot st''.plan i =
      ((getSlot st.slots i).«matches».length : Int) + planSumSlot st.plan i) ∧
    (∀ r', poolLen st''.pools r' - planSum st''.plan r' =
      poolLen st.pools r' - planSum st.plan r') ∧
    (∀ r', (alook st.pools r').isSome → (alook st''.pools r').isSome) ∧
    (∀ rp ∈ st''.plan, ∀ e ∈ rp.2, e.1 < st.slots.length ∧ 0 ≤ e.2) := by
  rw [distributeMatches] at h
  by_cases hz : playerPool.length = 0
  · rw [if_pos hz] at h
    cases h
  · rw [if_neg hz] at h
    try dsimp only at h
    cases hdr : distRounds strict gameType playerPool
        ((2 * planSumType st.slots st.plan gameType).ediv playerPool.length)
        (if (2 * planSumType st.slots st.plan gameType).emod
            playerPool.length ≠ 0 then
          (2 * planSumType st.slots st.plan gameType).ediv playerPool.length + 1
        else (2 * planSumType st.slots st.plan gameType).ediv playerPool.length)
        st.plan
        { st := st, picks := playerPool.map (fun p => (p, 0)), maxed := [] }
      with
    | error e => rw [except_bind_error hdr] at h; cases h
    | ok dr =>
      rw [except_bind_ok hdr] at h
      try dsimp only at h
      cases hev : evenCheck strict gameType playerPool dr.2.st.slots
          dr.2.st.store dr.1 with
      | error e => rw [except_bind_error hev] at h; cases h
      | ok u =>
        rw [except_bind_ok hev] at h
        cases h
        obtain ⟨hp2, hl2, hk2, hfld2, hlen2, hpool2, hps2, hpred2⟩ :=
          distRounds_effect st.plan
            { st := st, picks := playerPool.map (fun p => (p, 0)), maxed := [] }
            dr.1 dr.2 hdr hnd hpred
        exact ⟨hl2, hk2, hfld2, hlen2, hpool2, hps2, hpred2⟩
theorem length_eraseIdx_of_lt {l : List Nat} {i : Nat} (h : i < l.length) :
    (l.eraseIdx i).length = l.length - 1 := by
  rw [List.length_eraseIdx]
  simp [h]

theorem entriesTotal_nonneg :
    ∀ {es : List (Nat × Int)}, (∀ e ∈ es, 0 ≤ e.2) → 0 ≤ entriesTotal es
  | [], _ => le_refl 0
  | e :: es, h => by
    have h1 := h e (List.mem_cons_self _ _)
    have h2 := entriesTotal_nonneg
      (fun x hx => h x (List.mem_cons_of_mem _ hx))
    show (0 : Int) ≤ e.2 + entriesTotal es
    omega

theorem fillEntry_ok {roundNum sid : Nat} :
    ∀ (k : Nat) (st : DistSt) (ml : List Nat),
    alook st.pools roundNum = some ml → k ≤ ml.length →
    sid < st.slots.length →
    ∃ st', fillEntry roundNum sid k st = .ok st' ∧
      st'.plan = st.plan ∧
      st'.slots.length = st.slots.length ∧
      (∀ i, i ≠ sid → getSlot st'.slots i = getSlot st.slots i) ∧
      (getSlot st'.slots sid).minGames = (getSlot st.slots sid).minGames ∧
      (getSlot st'.slots sid).maxGames = (getSlot st.slots sid).maxGames ∧
      (getSlot st'.slots sid).«matches».length =
        (getSlot st.slots sid).«matches».length + k ∧
      (∃ ml', alook st'.pools roundNum = some ml' ∧
        ml'.length = ml.length - k) ∧
      (∀ r', r' ≠ roundNum → alook st'.pools r' = alook st.pools r')
  | 0, st, ml, hml, hk, hsid =>
    ⟨st, rfl, rfl, rfl, fun i _ => rfl, rfl, rfl, rfl, ⟨ml, hml, rfl⟩,
      fun r' _ => rfl⟩
  | k + 1, st, ml, hml, hk, hsid => by
    have hpos : 0 < ml.length := by omega
    have hidx : rngNext st.rng % ml.length < ml.length := Nat.mod_lt _ hpos
    have hrr : randrange st.rng ml.length =
        .ok (rngNext st.rng % ml.length, rngNext st.rng) := by
      rw [randrange, if_neg (by omega : ¬ml.length = 0)]
    obtain ⟨st', hrun, hplan, hlen, hne, hmin, hmax, hcnt,
        ⟨ml', hml', hml'len⟩, hpne⟩ :=
      fillEntry_ok k
        (_updateMatch { st with
            pools := alset st.pools roundNum
              (ml.eraseIdx (rngNext st.rng % ml.length)),
            rng := rngNext st.rng }
          (ml.getD (rngNext st.rng % ml.length) 0) sid roundNum)
        (ml.eraseIdx (rngNext st.rng % ml.length))
        (by
          dsimp only [_updateMatch]
          exact alook_alset_self _ _ _)
        (by
          rw [length_eraseIdx_of_lt hidx]
          omega)
        (by
          dsimp only [_updateMatch]
          rw [length_modSlot]
          exact hsid)
    refine ⟨st', ?_, ?_, ?_, ?_, ?_, ?_, ?_, ?_, ?_⟩
    · rw [fillEntry, hml]
      try dsimp only
      rw [except_bind_ok hrr]
      try dsimp only
      exact hrun
    · exact hplan
    · rw [hlen]
      dsimp only [_updateMatch]
      rw [length_modSlot]
    · intro i hi
      rw [hne i hi]
      dsimp only [_updateMatch]
      exact getSlot_modSlot_ne _ (fun hx => hi hx.symm)
    · rw [hmin]
      dsimp only [_updateMatch]
      rw [getSlot_modSlot_self _ hsid]
    · rw [hmax]
      dsimp only [_updateMatch]
      rw [getSlot_modSlot_self _ hsid]
    · rw [hcnt]
      dsimp only [_updateMatch]
      rw [getSlot_modSlot_self _ hsid]
      simp only [List.length_append, List.length_cons, List.length_nil]
      omega
    · refine ⟨ml', hml', ?_⟩
      rw [hml'len, length_eraseIdx_of_lt hidx]
      omega
    · intro r' hr'
      rw [hpne r' hr']
      dsimp only [_updateMatch]
      exact alook_alset_ne hr' _ _
theorem fillEntries_ok {roundNum : Nat} :
    ∀ (entries : List (Nat × Int)) (st : DistSt) (ml : List Nat),
    alook st.pools roundNum = some ml →
    (∀ e ∈ entries, e.1 < st.slots.length ∧ 0 ≤ e.2) →
    entriesTotal entries ≤ (ml.length : Int) →
    ∃ st', fillEntries roundNum entries st = .ok st' ∧
      st'.plan = st.plan ∧
      st'.slots.length = st.slots.length ∧
      (∀ i, (getSlot st'.slots i).minGames = (getSlot st.slots i).minGames ∧
        (getSlot st'.slots i).maxGames = (getSlot st.slots i).maxGames) ∧
      (∀ i, ((getSlot st'.slots i).«matches».length : Int) =
        ((getSlot st.slots i).«matches».length : Int) +
          entrySumSlot entries i) ∧
      (∃ ml', alook st'.pools roundNum = some ml' ∧
        (ml'.length : Int) = (ml.length : Int) - entriesTotal entries) ∧
      (∀ r', r' ≠ roundNum → alook st'.pools r' = alook st.pools r')
  | [], st, ml, hml, hpred, hb =>
    ⟨st, rfl, rfl, rfl, fun i => ⟨rfl, rfl⟩, fun i => by
      show ((getSlot st.slots i).«matches».length : Int) = _ + 0
      ring, ⟨ml, hml, by
      show (ml.length : Int) = (ml.length : Int) - 0
      ring⟩, fun r' _ => rfl⟩
  | (sid, cnt) :: rest, st, ml, hml, hpred, hb => by
    obtain ⟨hsid, hcnt⟩ := hpred (sid, cnt) (List.mem_cons_self _ _)
    have hrest0 : 0 ≤ entriesTotal rest :=
      entriesTotal_nonneg (fun e he =>
        (hpred e (List.mem_cons_of_mem _ he)).2)
    have hbc : entriesTotal ((sid, cnt) :: rest) = cnt + entriesTotal rest := rfl
    have hkle : cnt.toNat ≤ ml.length := by omega
    obtain ⟨st1, hrun1, hplan1, hlen1, hne1, hmin1, hmax1, hcnt1,
        ⟨ml1, hml1, hml1len⟩, hpne1⟩ :=
      fillEntry_ok cnt.toNat st ml hml hkle hsid
    have hml1i : (ml1.length : Int) = (ml.length : Int) - cnt := by
      rw [hml1len]
      omega
    obtain ⟨st', hrun2, hplan2, hlen2, hfld2, hcnt2,
        ⟨ml2, hml2, hml2len⟩, hpne2⟩ :=
      fillEntries_ok rest st1 ml1 hml1
        (fun e he => by
          rw [hlen1]
          exact hpred e (List.mem_cons_of_mem _ he))
        (by omega)
    refine ⟨st', ?_, hplan2.trans hplan1, hlen2.trans hlen1, ?_, ?_,
      ⟨ml2, hml2, by omega⟩, ?_⟩
    · rw [fillEntries]
      rw [except_bind_ok hrun1]
      exact hrun2
    · intro i
      by_cases hi : i = sid
      · subst hi
        exact ⟨(hfld2 i).1.trans hmin1, (hfld2 i).2.trans hmax1⟩
      · have hgi : getSlot st1.slots i = getSlot st.slots i := hne1 i hi
        exact ⟨(hfld2 i).1.trans (by rw [hgi]),
          (hfld2 i).2.trans (by rw [hgi])⟩
    · intro i
      have h2i := hcnt2 i
      show ((getSlot st'.slots i).«matches».length : Int) = _ +
        ((if sid = i then cnt else 0) + entrySumSlot rest i)
      by_cases hi : sid = i
      · subst hi
        rw [if_pos rfl]
        have h1i : ((getSlot st1.slots sid).«matches».length : Int) =
            ((getSlot st.slots sid).«matches».length : Int) + cnt := by
          rw [hcnt1]
          push_cast
          omega
        omega
      · rw [if_neg hi]
        have hgi : getSlot st1.slots i = getSlot st.slots i :=
          hne1 i (fun hx => hi hx.symm)
        rw [hgi] at h2i
        omega
    · intro r' hr'
      rw [hpne2 r' hr', hpne1 r' hr']

theorem fillRounds_ok :
    ∀ (plan : List (Nat × List (Nat × Int))) (st : DistSt),
    (plan.map Prod.fst).Nodup →
    (∀ rp ∈ plan, ∀ e ∈ rp.2, e.1 < st.slots.length ∧ 0 ≤ e.2) →
    (∀ rp ∈ plan, ∃ ml, alook st.pools rp.1 = some ml ∧
      entriesTotal rp.2 ≤ (ml.length : Int)) →
    ∃ st', fillRounds plan st = .ok st' ∧
      st'.plan = st.plan ∧
      st'.slots.length = st.slots.length ∧
      (∀ i, (getSlot st'.slots i).minGames = (getSlot st.slots i).minGames ∧
        (getSlot st'.slots i).maxGames = (getSlot st.slots i).maxGames) ∧
      (∀ i, ((getSlot st'.slots i).«matches».length : Int) =
        ((getSlot st.slots i).«matches».length : Int) + planSumSlot plan i)
  | [], st, hnd, hpred, hpools =>
    ⟨st, rfl, rfl, rfl, fun i => ⟨rfl, rfl⟩, fun i => by
      show ((getSlot st.slots i).«matches».length : Int) = _ + planSumSlot [] i
      show ((getSlot st.slots i).«matches».length : Int) = _ + 0
      ring⟩
  | (r, entries) :: t, st, hnd, hpred, hpools => by
    obtain ⟨ml, hml, hb⟩ := hpools (r, entries) (List.mem_cons_self _ _)
    obtain ⟨st1, hrun1, hplan1, hlen1, hfld1, hcnt1,
        ⟨ml1, hml1, hml1len⟩, hpne1⟩ :=
      fillEntries_ok entries st ml hml
        (hpred (r, entries) (List.mem_cons_self _ _)) hb
    have hrt : r ∉ t.map Prod.fst := (List.nodup_cons.mp hnd).1
    obtain ⟨st', hrun2, hplan2, hlen2, hfld2, hcnt2⟩ :=
      fillRounds_ok t st1 (List.nodup_cons.mp hnd).2
        (fun rp hrp e he => by
          rw [hlen1]
          exact hpred rp (List.mem_cons_of_mem _ hrp) e he)
        (fun rp hrp => by
          obtain ⟨mlr, hmlr, hbr⟩ := hpools rp (List.mem_cons_of_mem _ hrp)
          refine ⟨mlr, ?_, hbr⟩
          rw [hpne1 rp.1 (fun hx => hrt (by
            have hx2 : rp.1 = r := hx
            rw [← hx2]
            exact List.mem_map_of_mem _ hrp))]
          exact hmlr)
    refine ⟨st', ?_, hplan2.trans hplan1, hlen2.trans hlen1, ?_, ?_⟩
    · rw [fillRounds]
      rw [except_bind_ok hrun1]
      exact hrun2
    · intro i
      exact ⟨(hfld2 i).1.trans (hfld1 i).1, (hfld2 i).2.trans (hfld1 i).2⟩
    · intro i
      rw [planSumSlot_cons]
      dsimp only
      have ha := hcnt1 i
      have hb2 := hcnt2 i
      omega
theorem alook_of_mem_nodup {κ α : Type} [DecidableEq κ] :
    ∀ {l : List (κ × α)} {p : κ × α}, (l.map Prod.fst).Nodup → p ∈ l →
    alook l p.1 = some p.2
  | [], p, _, hp => absurd hp (List.not_mem_nil _)
  | q :: t, p, hnd, hp => by
    obtain ⟨k0, v0⟩ := q
    rw [List.map_cons] at hnd
    rcases List.mem_cons.mp hp with rfl | hp
    · show alook ((k0, v0) :: t) k0 = some v0
      rw [alook, if_pos rfl]
    · by_cases hk : k0 = p.1
      · exact absurd (List.mem_map.mpr ⟨p, hp, hk.symm⟩)
          (List.nodup_cons.mp hnd).1
      · show alook ((k0, v0) :: t) p.1 = some p.2
        rw [alook, if_neg hk]
        exact alook_of_mem_nodup (List.nodup_cons.mp hnd).2 hp

theorem afterDistribute_spec (inp : Inputs) (st : DistSt)
    (h : afterDistribute inp = .ok st)
    (hnd : (inp.roundMatches.map Prod.fst).Nodup) :
    (∀ i, i < st.slots.length →
      (getSlot st.slots i).minGames = (getSlot st.slots i).maxGames ∧
      (getSlot st.slots i).minGames =
        some (((getSlot st.slots i).«matches».length : Int) +
          planSumSlot st.plan i)) ∧
    (∀ r, planSum st.plan r = poolLen st.pools r) ∧
    (st.plan.map Prod.fst).Nodup ∧
    (∀ rp ∈ st.plan, ∀ e ∈ rp.2, e.1 < st.slots.length ∧ 0 ≤ e.2) ∧
    (∀ rp ∈ st.plan, (alook st.pools rp.1).isSome) ∧
    ((List.range st.slots.length).map
      (fun i => ((getSlot st.slots i).«matches».length : Int) +
        planSumSlot st.plan i)).sum = totalGamesOf inp.roundMatches := by
  rw [afterDistribute] at h
  cases hw : afterWalk inp with
  | error e => rw [except_bind_error hw] at h; cases h
  | ok w =>
    rw [except_bind_ok hw] at h
    try dsimp only at h
    obtain ⟨hslotw, hsumw, htgw, hminw, hpredw, hpoolw, hndw, hsomew⟩ :=
      afterWalk_spec inp w hw hnd
    cases h1 : distributeMatches inp.errorOnPoorDistribution "leagueNight"
        (leagueNighters inp.roster)
        { slots := w.slots, store := w.store, pools := w.pools,
          plan := w.plan, rng := w.rng } with
    | error e => rw [except_bind_error h1] at h; cases h
    | ok st1 =>
      rw [except_bind_ok h1] at h
      obtain ⟨hl1, hk1, hfld1, hlen1, hpool1, hps1, hpred1⟩ :=
        distributeMatches_effect h1 hndw hpredw
      have hl1' : st1.slots.length = w.slots.length := hl1
      have hk1' : st1.plan.map Prod.fst = w.plan.map Prod.fst := hk1
      have hfld1' : ∀ i,
          (getSlot st1.slots i).minGames = (getSlot w.slots i).minGames ∧
          (getSlot st1.slots i).maxGames = (getSlot w.slots i).maxGames :=
        hfld1
      have hlen1' : ∀ i,
          ((getSlot st1.slots i).«matches».length : Int) +
            planSumSlot st1.plan i =
          ((getSlot w.slots i).«matches».length : Int) +
            planSumSlot w.plan i := hlen1
      have hpool1' : ∀ r', poolLen st1.pools r' - planSum st1.plan r' =
          poolLen w.pools r' - planSum w.plan r' := hpool1
      have hps1' : ∀ r', (alook w.pools r').isSome →
          (alook st1.pools r').isSome := hps1
      have hpred1' : ∀ rp ∈ st1.plan, ∀ e ∈ rp.2,
          e.1 < w.slots.length ∧ 0 ≤ e.2 := hpred1
      have hnd1 : (st1.plan.map Prod.fst).Nodup := by
        rw [hk1']
        exact hndw
      obtain ⟨hl2, hk2, hfld2, hlen2, hpool2, hps2, hpred2⟩ :=
        distributeMatches_effect h hnd1 (fun rp hrp e he => by
          rw [hl1']
          exact hpred1' rp hrp e he)
      have hl : st.slots.length = w.slots.length := by
        rw [hl2, hl1']
      have hkeys : st.plan.map Prod.fst = w.plan.map Prod.fst := by
        rw [hk2, hk1']
      have hfld : ∀ i,
          (getSlot st.slots i).minGames = (getSlot w.slots i).minGames ∧
          (getSlot st.slots i).maxGames = (getSlot w.slots i).maxGames :=
        fun i => ⟨(hfld2 i).1.trans (hfld1' i).1, (hfld2 i).2.trans (hfld1' i).2⟩
      have hlen : ∀ i,
          ((getSlot st.slots i).«matches».length : Int) + planSumSlot st.plan i =
          ((getSlot w.slots i).«matches».length : Int) +
            planSumSlot w.plan i :=
        fun i => (hlen2 i).trans (hlen1' i)
      have hpool : ∀ r', poolLen st.pools r' - planSum st.plan r' =
          poolLen w.pools r' - planSum w.plan r' :=
        fun r' => (hpool2 r').trans (hpool1' r')
      have hlenw0 : ∀ i, i < w.slots.length →
          (getSlot w.slots i).«matches» = [] := by
        intro i hi
        exact (hslotw (getSlot w.slots i) (getSlot_mem hi)).2
      refine ⟨?_, ?_, ?_, ?_, ?_, ?_⟩
      · intro i hi
        have hiw : i < w.slots.length := by
          rw [← hl]
          exact hi
        constructor
        · rw [(hfld i).1, (hfld i).2]
          exact (hslotw (getSlot w.slots i) (getSlot_mem hiw)).1
        · rw [(hfld i).1, hminw i hiw, hlen i, hlenw0 i hiw]
          simp
      · intro r
        have hp := hpool r
        have hq := hpoolw r
        omega
      · rw [hkeys]
        exact hndw
      · intro rp hrp e he
        have h3 := hpred2 rp hrp e he
        refine ⟨?_, h3.2⟩
        rw [hl, ← hl1']
        exact h3.1
      · intro rp hrp
        have hk : rp.1 ∈ w.plan.map Prod.fst := by
          rw [← hkeys]
          exact List.mem_map_of_mem _ hrp
        rcases List.mem_map.mp hk with ⟨rp0, hrp0, hrpk⟩
        have hs0 : (alook w.pools rp.1).isSome := by
          rw [← hrpk]
          exact hsomew rp0 hrp0
        exact hps2 rp.1 (hps1' rp.1 hs0)
      · rw [hl]
        have hcong : (List.range w.slots.length).map
            (fun i => ((getSlot st.slots i).«matches».length : Int) +
              planSumSlot st.plan i) =
            (List.range w.slots.length).map
            (fun i => (getSlot w.slots i).minGames.getD 0) := by
          refine List.map_congr_left (fun i hi => ?_)
          have hiw : i < w.slots.length := List.mem_range.mp hi
          rw [hlen i, hlenw0 i hiw, hminw i hiw]
          show (0 : Int) + planSumSlot w.plan i = planSumSlot w.plan i
          ring
        rw [hcong]
        have hsb := sumBy_range w.slots (fun s => s.minGames.getD 0)
        rw [hsb]
        show sumMinGames w.slots = _
        rw [hsumw, htgw]
theorem mem_getSlot_exists {slots : List DayData} {s : DayData} (h : s ∈ slots) :
    ∃ i, i < slots.length ∧ getSlot slots i = s := by
  rcases List.getElem_of_mem h with ⟨i, hi, hg⟩
  refine ⟨i, hi, ?_⟩
  rw [getSlot, List.getD_eq_getElem?_getD, List.getElem?_eq_getElem hi]
  exact hg

theorem fillPhase_spec (inp : Inputs) (st : DistSt)
    (h : afterDistribute inp = .ok st)
    (hnd : (inp.roundMatches.map Prod.fst).Nodup) :
    ∃ st', fillPhase st = .ok st' ∧
      st'.slots.length = st.slots.length ∧
      (∀ i, (getSlot st'.slots i).minGames = (getSlot st.slots i).minGames ∧
        (getSlot st'.slots i).maxGames = (getSlot st.slots i).maxGames) ∧
      (∀ i, ((getSlot st'.slots i).«matches».length : Int) =
        ((getSlot st.slots i).«matches».length : Int) +
          planSumSlot st.plan i) := by
  obtain ⟨-, hC, hD, hE, hF, -⟩ := afterDistribute_spec inp st h hnd
  obtain ⟨st', hrun, -, hlen, hfld, hcnt⟩ := fillRounds_ok st.plan st hD hE
    (fun rp hrp => by
      have hsome := hF rp hrp
      cases hal : alook st.pools rp.1 with
      | none =>
        rw [hal] at hsome
        cases hsome
      | some ml =>
        refine ⟨ml, rfl, ?_⟩
        have hps : planSum st.plan rp.1 = entriesTotal rp.2 := by
          rw [planSum, alook_of_mem_nodup hD hrp]
          rfl
        have hpl : poolLen st.pools rp.1 = (ml.length : Int) := by
          rw [poolLen, hal]
          rfl
        rw [← hps, hC rp.1, hpl])
  exact ⟨st', by rw [fillPhase]; exact hrun, hlen, hfld, hcnt⟩

/-- **C9**: when the Unconstrained Filler starts, every round's remaining
planned per-slot match counts sum to exactly the size of that round's
remaining pool (`planSum = poolLen`), and consequently every
`randrange(len(matchesLeft))` draw of the filler is applied to a nonempty
pool: the filler completes without raising (conditional on the external round
map having distinct round keys). -/
theorem c9_filler_draws_in_range (inp : Inputs) (st : DistSt)
    (hnd : (inp.roundMatches.map Prod.fst).Nodup)
    (h : afterDistribute inp = .ok st) :
    (∀ r, planSum st.plan r = poolLen st.pools r) ∧
    ∃ st', fillPhase st = .ok st' := by
  obtain ⟨-, hC, -, -, -, -⟩ := afterDistribute_spec inp st h hnd
  obtain ⟨st', hrun, -, -, -⟩ := fillPhase_spec inp st h hnd
  exact ⟨hC, st', hrun⟩

theorem c9_filler_draws_in_range_witness :
    (∀ r, planSum stOneD.plan r = poolLen stOneD.pools r) ∧
    ∃ st', fillPhase stOneD = .ok st' :=
  c9_filler_draws_in_range inpOne stOneD (by decide) rfl

/-- **C1**: after the round assigner every slot has `minGames = maxGames` and
the slot minima sum to `totalGames`; after the full pipeline every slot has
`minGames = maxGames = len(slot.matches)` and the per-slot match counts sum
to `totalGames` (conditional on the external round map having distinct round
keys). -/
theorem c1_final_slot_counts (inp : Inputs) (w : WalkOut) (st : DistSt)
    (hnd : (inp.roundMatches.map Prod.fst).Nodup)
    (hw : afterWalk inp = .ok w)
    (hm : makeSchedule inp = .ok st) :
    (∀ s ∈ w.slots, s.minGames = s.maxGames) ∧
    sumMinGames w.slots = w.totalGames ∧
    w.totalGames = totalGamesOf inp.roundMatches ∧
    (∀ s ∈ st.slots, s.minGames = s.maxGames ∧
      s.minGames = some ((s.«matches».length : Int))) ∧
    sumBy st.slots (fun s => (s.«matches».length : Int)) =
      totalGamesOf inp.roundMatches := by
  obtain ⟨hslotw, hsumw, htgw, -, -, -, -, -⟩ := afterWalk_spec inp w hw hnd
  rw [makeSchedule] at hm
  cases hD : afterDistribute inp with
  | error e => rw [except_bind_error hD] at hm; cases hm
  | ok stD =>
    rw [except_bind_ok hD] at hm
    try dsimp only at hm
    cases hf : fillPhase stD with
    | error e => rw [except_bind_error hf] at hm; cases hm
    | ok stf =>
      rw [except_bind_ok hf] at hm
      try dsimp only at hm
      cases hg : gamesPlayedCheck inp.roster inp.gamesPerMatchup stf with
      | error e => rw [except_bind_error hg] at hm; cases hm
      | ok u =>
        rw [except_bind_ok hg] at hm
        cases hm
        obtain ⟨hA, -, -, -, -, hG⟩ := afterDistribute_spec inp stD hD hnd
        obtain ⟨st'', hrun, hlen, hfld, hcnt⟩ := fillPhase_spec inp stD hD hnd
        rw [hf] at hrun
        cases hrun
        refine ⟨fun s hs => (hslotw s hs).1, hsumw, htgw, ?_, ?_⟩
        · intro s hs
          obtain ⟨i, hi, hgi⟩ := mem_getSlot_exists hs
          have hiD : i < stD.slots.length := by
            rw [← hlen]
            exact hi
          obtain ⟨hmmD, hminD⟩ := hA i hiD
          have hminf : (getSlot st.slots i).minGames =
              some ((getSlot st.slots i).«matches».length : Int) := by
            rw [(hfld i).1, hminD, ← hcnt i]
          constructor
          · rw [← hgi]
            rw [(hfld i).1, (hfld i).2, hmmD]
          · rw [← hgi]
            exact hminf
        · have hsb := sumBy_range st.slots (fun s => (s.«matches».length : Int))
          rw [← hsb]
          have hlen2 : st.slots.length = stD.slots.length := hlen
          rw [hlen2]
          have hcong : (List.range stD.slots.length).map
              (fun i => ((getSlot st.slots i).«matches».length : Int)) =
              (List.range stD.slots.length).map
              (fun i => ((getSlot stD.slots i).«matches».length : Int) +
                planSumSlot stD.plan i) :=
            List.map_congr_left (fun i _ => hcnt i)
          rw [hcong]
          exact hG

theorem c1_final_slot_counts_witness :
    (∀ s ∈ wOne.slots, s.minGames = s.maxGames) ∧
    sumMinGames wOne.slots = wOne.totalGames ∧
    wOne.totalGames = totalGamesOf inpOne.roundMatches ∧
    (∀ s ∈ schedOne.slots, s.minGames = s.maxGames ∧
      s.minGames = some ((s.«matches».length : Int))) ∧
    sumBy schedOne.slots (fun s => (s.«matches».length : Int)) =
      totalGamesOf inpOne.roundMatches :=
  c1_final_slot_counts inpOne wOne schedOne (by decide) rfl rfl
